import Mathlib

/-!
# Adaptive octree voxelizer (`Voxels/VolumetricOctree.{h,cpp}`)

A shallow embedding of `AVolumetricOctree` and the properties of its specification.

Conventions of the embedding:

* There are two layers.  The definitions named as in the source (`IsPointInsideSingleShape`,
  `AVolumetricOctree.ProcessOctant`, ...) take every `float` and `double` as an exact rational
  (`ℚ`) and every `int32` as an integer (`ℤ`): they are the algorithm without rounding, infinities,
  NaN or wrap-around.  The definitions `Rounded.f` are the same methods with the number types of
  the source: the components of `FVector` and `FBox` are `double`, the members and locals declared
  `float` are `float`, each operation rounds its exact result to the nearest value of its type
  (`toFloat`, `toDouble`, ties to even, subnormal numbers included), `FMath::Sqrt` is the correctly
  rounded `sqrtDouble`, and an integer stored in an `int32` wraps (`wrapInt32`).
* Statements that do not depend on rounding (the boolean structure of the tests, the stored
  `+1.0`/`-1.0`, what a call leaves unchanged, the exact partition of a cube) are made on the first
  layer.  Statements about thresholds, radii, bounds and lattice positions are made on the
  `Rounded` layer; the theorems marked "without rounding" say what the first layer would give.
* The `Rounded` layer has no infinity and no NaN: `toFloat` never overflows.  A value beyond
  `FLT_MAX`, which is `+inf` in the source, is recognised by comparing with `FLT_MAX`.
* On the first layer `FMath::Sqrt` has no rational value.  The two comparisons of the source that
  consume a square root (`DistTube <= MinorR * MinorR` for the torus and
  `FVector::Dist(..) <= ToolRadius` for the tool) are decided exactly by a square-root-free test;
  `DistTubeLE_iff` and `DistLE_iff` prove that the test is the comparison with the real square
  root.
* Engine helpers follow the engine's definitions: `FMath::RoundToInt x = floor (x + 0.5)`,
  `FMath::CeilToInt x = ceil x`, `FBox` is the closed axis-aligned box with its validity flag.
* `TMap<FIntVector, float>` is an association list with unique keys; `VoxelISMC` is the list of
  instance transforms in the order `AddInstance` received them.
* The recursion of `ProcessOctant` is bounded by a fuel argument counting levels; `none` means the
  levels ran out.  `GenerateOctree`, `ApplyTool` and `ClearSculpting` pass the bound on.
* A division by `MinVoxelSize = 0` has the value `0` here, where the source produces an infinity
  or NaN; the statements about `GetGridIndex` and `ApplyTool` assume `MinVoxelSize > 0`.  Where
  the division itself is the subject, `checkedDiv` and the `...Checked` versions make a zero
  divisor visible as `none`.
* `RunCalls` runs a sequence of `ApplyTool` and `ClearSculpting` calls, and
  `ProcessOctantNoCull` is `ProcessOctant` without its cull test; both exist for comparison only.
-/

/-! ## Engine types -/

/-- Engine vector `FVector` with exact rational components. -/
structure FVector where
  X : ℚ
  Y : ℚ
  Z : ℚ
deriving DecidableEq

/-- Engine integer vector `FIntVector`. -/
structure FIntVector where
  X : ℤ
  Y : ℤ
  Z : ℤ
deriving DecidableEq

/-- The constructor `FVector(float)`: the same value on the three axes. -/
def FVector.splat (f : ℚ) : FVector := ⟨f, f, f⟩

/-- Componentwise `operator+` of `FVector`. -/
def FVector.add (a b : FVector) : FVector := ⟨a.X + b.X, a.Y + b.Y, a.Z + b.Z⟩

/-- Componentwise `operator-` of `FVector`. -/
def FVector.sub (a b : FVector) : FVector := ⟨a.X - b.X, a.Y - b.Y, a.Z - b.Z⟩

/-- Scaling `FVector * float`. -/
def FVector.scale (a : FVector) (f : ℚ) : FVector := ⟨a.X * f, a.Y * f, a.Z * f⟩

/-- The engine's `FVector::SizeSquared`. -/
def FVector.SizeSquared (a : FVector) : ℚ := a.X * a.X + a.Y * a.Y + a.Z * a.Z

/-- The engine's `FMath::Max3`. -/
def Max3 (a b c : ℚ) : ℚ := max (max a b) c

/-- The engine's `FMath::RoundToInt`, which is `FloorToInt(F + 0.5f)`. -/
def RoundToInt (f : ℚ) : ℤ := ⌊f + 1 / 2⌋

/-- The engine's `FMath::CeilToInt`. -/
def CeilToInt (f : ℚ) : ℤ := ⌈f⌉

/-- Exact decision of `FVector::Dist(A, B) <= R`: the square root of the squared size is at most
`R` exactly when `R` is non-negative and the squared size is at most `R * R`. -/
def DistLE (A B : FVector) (R : ℚ) : Bool :=
  decide (0 ≤ R ∧ (A.sub B).SizeSquared ≤ R * R)

/-- Exact decision of `FMath::Square(FMath::Sqrt(AxisSq) - MajorR) + ZSq <= Bound` for
`AxisSq ≥ 0`.  With `A = AxisSq + MajorR² + ZSq - Bound` the comparison reads
`A ≤ 2 * MajorR * Sqrt(AxisSq)`, whose sign analysis needs no square root. -/
def DistTubeLE (AxisSq MajorR ZSq Bound : ℚ) : Bool :=
  let A := AxisSq + MajorR * MajorR + ZSq - Bound
  if 0 ≤ MajorR then
    decide (A ≤ 0 ∨ A * A ≤ 4 * (MajorR * MajorR) * AxisSq)
  else
    decide (A ≤ 0 ∧ 4 * (MajorR * MajorR) * AxisSq ≤ A * A)

/-! ## Shapes (`VolumetricOctree.h`) -/

/-- Boolean combinator `EGridOperation`. -/
inductive EGridOperation where
  | Union
  | Intersection
deriving DecidableEq

/-- Shape kind `EVolumetricShapeType`. -/
inductive EVolumetricShapeType where
  | Sphere
  | Box
  | Torus
deriving DecidableEq

/-- The struct `FVolumetricShape`; the member `Type` is spelled `ShapeType` here. -/
structure FVolumetricShape where
  ShapeType : EVolumetricShapeType
  Center : FVector
  Dimensions : FVector
deriving DecidableEq

/-- The member `FVolumetricShape::GetMaxRadius`, without the narrowing of its result to `float`
(`Rounded.GetMaxRadius` has it). -/
def FVolumetricShape.GetMaxRadius (s : FVolumetricShape) : ℚ :=
  Max3 s.Dimensions.X s.Dimensions.Y s.Dimensions.Z +
    (if s.ShapeType = EVolumetricShapeType.Torus then s.Dimensions.X else 0)

/-- The method `AVolumetricOctree::IsPointInsideSingleShape` (it reads no member of the actor),
without rounding; `Rounded.IsPointInsideSingleShape` has the `float` locals of the torus branch. -/
def IsPointInsideSingleShape (P : FVector) (Shape : FVolumetricShape) : Bool :=
  let LocalP := P.sub Shape.Center
  match Shape.ShapeType with
  | EVolumetricShapeType.Sphere =>
      decide (LocalP.SizeSquared ≤ Shape.Dimensions.X * Shape.Dimensions.X)
  | EVolumetricShapeType.Box =>
      decide (|LocalP.X| ≤ Shape.Dimensions.X) &&
        (decide (|LocalP.Y| ≤ Shape.Dimensions.Y) && decide (|LocalP.Z| ≤ Shape.Dimensions.Z))
  | EVolumetricShapeType.Torus =>
      let MajorR := Shape.Dimensions.X
      let MinorR := Shape.Dimensions.Y
      DistTubeLE (LocalP.X * LocalP.X + LocalP.Y * LocalP.Y) MajorR (LocalP.Z * LocalP.Z)
        (MinorR * MinorR)

/-- Reference membership of the specification, over the reals, with `local = p - center`:
sphere `local.x² + local.y² + local.z² ≤ dimensions.x²`; box `|local.axis| ≤ dimensions.axis` on
each axis; torus `(sqrt(local.x² + local.y²) - dimensions.x)² + local.z² ≤ dimensions.y²`. -/
def referenceContains (shape : FVolumetricShape) (p : FVector) : Prop :=
  let lx : ℝ := ((p.X - shape.Center.X : ℚ) : ℝ)
  let ly : ℝ := ((p.Y - shape.Center.Y : ℚ) : ℝ)
  let lz : ℝ := ((p.Z - shape.Center.Z : ℚ) : ℝ)
  match shape.ShapeType with
  | EVolumetricShapeType.Sphere => lx ^ 2 + ly ^ 2 + lz ^ 2 ≤ (shape.Dimensions.X : ℝ) ^ 2
  | EVolumetricShapeType.Box =>
      |lx| ≤ (shape.Dimensions.X : ℝ) ∧ |ly| ≤ (shape.Dimensions.Y : ℝ) ∧
        |lz| ≤ (shape.Dimensions.Z : ℝ)
  | EVolumetricShapeType.Torus =>
      (Real.sqrt (lx ^ 2 + ly ^ 2) - (shape.Dimensions.X : ℝ)) ^ 2 + lz ^ 2
        ≤ (shape.Dimensions.Y : ℝ) ^ 2

/-! ## Engine containers -/

/-- Engine box `FBox`: corners and the validity flag. -/
structure FBox where
  Min : FVector
  Max : FVector
  IsValid : Bool
deriving DecidableEq

/-- The constructor `FBox(EForceInit::ForceInit)`: zero corners, not valid. -/
def FBox.ForceInit : FBox := ⟨FVector.splat 0, FVector.splat 0, false⟩

/-- The constructor `FBox(Min, Max)`. -/
def FBox.ofCorners (Min Max : FVector) : FBox := ⟨Min, Max, true⟩

/-- The engine's `FBox::operator+=(FVector)`: grow the box to hold the point. -/
def FBox.addPoint (b : FBox) (v : FVector) : FBox :=
  if b.IsValid then
    ⟨⟨min b.Min.X v.X, min b.Min.Y v.Y, min b.Min.Z v.Z⟩,
     ⟨max b.Max.X v.X, max b.Max.Y v.Y, max b.Max.Z v.Z⟩, true⟩
  else ⟨v, v, true⟩

/-- The engine's `FBox::ExpandBy(W)`. -/
def FBox.ExpandBy (b : FBox) (W : ℚ) : FBox :=
  FBox.ofCorners (b.Min.sub (FVector.splat W)) (b.Max.add (FVector.splat W))

/-- The engine's `FBox::GetSize`. -/
def FBox.GetSize (b : FBox) : FVector := b.Max.sub b.Min

/-- The engine's `FBox::GetCenter`. -/
def FBox.GetCenter (b : FBox) : FVector := (b.Min.add b.Max).scale (1 / 2)

/-- The engine's `FBox::Intersect`: closed boxes overlap on every axis. -/
def FBox.Intersect (b o : FBox) : Bool :=
  if b.Min.X > o.Max.X ∨ o.Min.X > b.Max.X then false
  else if b.Min.Y > o.Max.Y ∨ o.Min.Y > b.Max.Y then false
  else if b.Min.Z > o.Max.Z ∨ o.Min.Z > b.Max.Z then false
  else true

/-- The part of `FTransform` the voxelizer sets: location and scale. -/
structure FTransform where
  Location : FVector
  Scale3D : FVector
deriving DecidableEq

/-- World-space edge length of an instance: the engine cube mesh is 100 units wide, and the
source divides `Extent * 2` by 100 to obtain the scale. -/
def FTransform.size (t : FTransform) : ℚ := t.Scale3D.X * 100

/-- The map `TMap<FIntVector, float>` as an association list with unique keys. -/
abbrev SculptMap := List (FIntVector × ℚ)

/-- The engine's `TMap::Find`. -/
def SculptMap.Find : SculptMap → FIntVector → Option ℚ
  | [], _ => none
  | (k, v) :: rest, Idx => if k = Idx then some v else SculptMap.Find rest Idx

/-- The engine's `TMap::Add`: insert, or overwrite the value of a key already present. -/
def SculptMap.Add : SculptMap → FIntVector → ℚ → SculptMap
  | [], Key, Value => [(Key, Value)]
  | (k, v) :: rest, Key, Value =>
      if k = Key then (Key, Value) :: rest else (k, v) :: SculptMap.Add rest Key Value

/-- The engine's `TMap::Num`. -/
def SculptMap.Num (m : SculptMap) : ℕ := m.length

/-! ## The actor (`VolumetricOctree.cpp`) -/

/-- The members of `AVolumetricOctree` the voxelizer reads and writes; `Instances` is the content
of `VoxelISMC`. -/
structure AVolumetricOctree where
  MinVoxelSize : ℚ
  Shapes : List FVolumetricShape
  OperationMode : EGridOperation
  SculptedModifications : SculptMap
  Instances : List FTransform
deriving DecidableEq

/-- The method `AVolumetricOctree::GetGridIndex`, with exact quotients and unbounded integers
(`Rounded.GetGridIndex` rounds and wraps). -/
def AVolumetricOctree.GetGridIndex (a : AVolumetricOctree) (Position : FVector) : FIntVector :=
  ⟨RoundToInt (Position.X / a.MinVoxelSize),
   RoundToInt (Position.Y / a.MinVoxelSize),
   RoundToInt (Position.Z / a.MinVoxelSize)⟩

/-- The shape loop of `IsPointInsideShapes` (step 2, "Check Geometry") with its early returns. -/
def AVolumetricOctree.CheckGeometry (Mode : EGridOperation) (P : FVector) :
    List FVolumetricShape → Bool
  | [] => decide (Mode = EGridOperation.Intersection)
  | Shape :: rest =>
      let bInsideCurrent := IsPointInsideSingleShape P Shape
      if Mode = EGridOperation.Union then
        if bInsideCurrent then true else AVolumetricOctree.CheckGeometry Mode P rest
      else
        if !bInsideCurrent then false else AVolumetricOctree.CheckGeometry Mode P rest

/-- The method `AVolumetricOctree::IsPointInsideShapes`. -/
def AVolumetricOctree.IsPointInsideShapes (a : AVolumetricOctree) (P : FVector) : Bool :=
  let Idx := a.GetGridIndex P
  let geometry := AVolumetricOctree.CheckGeometry a.OperationMode P a.Shapes
  match a.SculptedModifications.Find Idx with
  | some Mod =>
      if Mod < -(1 / 2) then false
      else if Mod > 1 / 2 then true
      else geometry
  | none => geometry

/-- The bounding cube `FBox(Center - FVector(Radius), Center + FVector(Radius))` of a shape used
by `DoesBoxIntersectShapes`. -/
def FVolumetricShape.ShapeBounds (s : FVolumetricShape) : FBox :=
  let Radius := s.GetMaxRadius
  FBox.ofCorners (s.Center.sub (FVector.splat Radius)) (s.Center.add (FVector.splat Radius))

/-- The method `AVolumetricOctree::DoesBoxIntersectShapes`. -/
def AVolumetricOctree.DoesBoxIntersectShapes (a : AVolumetricOctree) (Box : FBox) : Bool :=
  if a.SculptedModifications.Num > 0 then true
  else if a.OperationMode = EGridOperation.Union then
    a.Shapes.any (fun Shape => Box.Intersect Shape.ShapeBounds)
  else
    a.Shapes.all (fun Shape => Box.Intersect Shape.ShapeBounds)

/-- The eight `(x, y, z)` sign triples in the order of the loops of `ProcessOctant`
(`z` outermost, `x` innermost, each running over `-1, 1`). -/
def ChildSigns : List (ℚ × ℚ × ℚ) :=
  [(-1, -1, -1), (1, -1, -1), (-1, 1, -1), (1, 1, -1),
   (-1, -1, 1), (1, -1, 1), (-1, 1, 1), (1, 1, 1)]

/-- The `ChildOffset` of `ProcessOctant` for one sign triple. -/
def ChildOffset (ChildExtent : ℚ) (s : ℚ × ℚ × ℚ) : FVector :=
  ⟨s.1 * ChildExtent, s.2.1 * ChildExtent, s.2.2 * ChildExtent⟩

/-- Sequencing of the results of the recursive calls: their outputs in call order, or `none` when
one call ran out of levels. -/
def collectCalls {α : Type} : List (Option (List α)) → Option (List α)
  | [] => some []
  | none :: _ => none
  | some l :: rest =>
      match collectCalls rest with
      | some r => some (l ++ r)
      | none => none

/-- The method `AVolumetricOctree::ProcessOctant`, without rounding: the instances it adds, in
order.  The first argument bounds the number of levels below this octant; `none` means it was
exceeded.  The leaf threshold is the exact product `MinVoxelSize * 0.51` here and the `float`
product `MinVoxelSize * 0.51f` in `Rounded.ProcessOctant`. -/
def AVolumetricOctree.ProcessOctant (a : AVolumetricOctree) :
    ℕ → FVector → ℚ → Option (List FTransform)
  | fuel, Center, Extent =>
    let NodeBox := FBox.ofCorners (Center.sub (FVector.splat Extent))
      (Center.add (FVector.splat Extent))
    if !a.DoesBoxIntersectShapes NodeBox then some []
    else if Extent ≤ a.MinVoxelSize * (51 / 100) then
      if a.IsPointInsideShapes Center then
        some [⟨Center, FVector.splat ((Extent * 2) / 100)⟩]
      else some []
    else
      match fuel with
      | 0 => none
      | n + 1 =>
        let ChildExtent := Extent * (1 / 2)
        collectCalls (ChildSigns.map (fun s =>
          AVolumetricOctree.ProcessOctant a n (Center.add (ChildOffset ChildExtent s))
            ChildExtent))

/-- The per-shape `Extent` of step 1 of `GenerateOctree`, without the narrowing of the torus
extent to `float TotalR` (`Rounded.BoundsExtent` has it). -/
def FVolumetricShape.BoundsExtent (Shape : FVolumetricShape) : FVector :=
  match Shape.ShapeType with
  | EVolumetricShapeType.Sphere => FVector.splat Shape.Dimensions.X
  | EVolumetricShapeType.Box => Shape.Dimensions
  | EVolumetricShapeType.Torus =>
      let TotalR := Shape.Dimensions.X + Shape.Dimensions.Y
      ⟨TotalR, TotalR, Shape.Dimensions.Y⟩

/-- The `GlobalBounds` of `GenerateOctree`: the box of the shapes, expanded by 500 when the
sculpt layer is not empty. -/
def AVolumetricOctree.GlobalBounds (a : AVolumetricOctree) : FBox :=
  let b := a.Shapes.foldl (fun (acc : FBox) Shape =>
    (acc.addPoint (Shape.Center.add Shape.BoundsExtent)).addPoint
      (Shape.Center.sub Shape.BoundsExtent)) FBox.ForceInit
  if a.SculptedModifications.Num > 0 then b.ExpandBy 500 else b

/-- The `RootCenter` of `GenerateOctree`. -/
def AVolumetricOctree.RootCenter (a : AVolumetricOctree) : FVector := a.GlobalBounds.GetCenter

/-- The `RootExtent` of `GenerateOctree`, `MaxDim * 0.6f`, as the exact product with `0.6`
(`Rounded.RootExtent` narrows `MaxDim` and multiplies in `float`). -/
def AVolumetricOctree.RootExtent (a : AVolumetricOctree) : ℚ :=
  let Size := a.GlobalBounds.GetSize
  let MaxDim := Max3 Size.X Size.Y Size.Z
  MaxDim * (6 / 10)

/-- The method `AVolumetricOctree::GenerateOctree`; the first argument is the level bound handed
to `ProcessOctant`. -/
def AVolumetricOctree.GenerateOctree (fuel : ℕ) (a : AVolumetricOctree) :
    Option AVolumetricOctree :=
  if a.Shapes.length = 0 ∨ a.MinVoxelSize < 1 then some a
  else
    let cleared : AVolumetricOctree := { a with Instances := [] }
    match cleared.ProcessOctant fuel cleared.RootCenter cleared.RootExtent with
    | some added => some { cleared with Instances := cleared.Instances ++ added }
    | none => none

/-- The integers `lo, lo + 1, .., hi` of a loop `for (int i = lo; i <= hi; i++)`. -/
def intRange (lo hi : ℤ) : List ℤ :=
  (List.range (hi - lo + 1).toNat).map (fun (k : ℕ) => lo + (k : ℤ))

/-- The body of the innermost loop of `ApplyTool` on the pair (sculpt layer, `bChanged`), with the
lattice position and the distance computed exactly (`Rounded.ApplyToolCell` computes them as the
source does). -/
def AVolumetricOctree.ApplyToolCell (a : AVolumetricOctree) (ToolPosition : FVector)
    (ToolRadius : ℚ) (bAdd : Bool) (CenterIdx : FIntVector) (x y z : ℤ)
    (st : SculptMap × Bool) : SculptMap × Bool :=
  let VoxelPos : FVector :=
    ⟨((CenterIdx.X + x : ℤ) : ℚ) * a.MinVoxelSize,
     ((CenterIdx.Y + y : ℤ) : ℚ) * a.MinVoxelSize,
     ((CenterIdx.Z + z : ℤ) : ℚ) * a.MinVoxelSize⟩
  if DistLE VoxelPos ToolPosition ToolRadius then
    let Key := a.GetGridIndex VoxelPos
    (st.1.Add Key (if bAdd then 1 else -1), true)
  else st

/-- The three nested loops of `ApplyTool`: the sculpt layer and `bChanged` after them. -/
def AVolumetricOctree.ApplyToolLoops (a : AVolumetricOctree) (ToolPosition : FVector)
    (ToolRadius : ℚ) (bAdd : Bool) : SculptMap × Bool :=
  let Range := CeilToInt (ToolRadius / a.MinVoxelSize)
  let CenterIdx := a.GetGridIndex ToolPosition
  (intRange (-Range) Range).foldl (fun st z =>
    (intRange (-Range) Range).foldl (fun st y =>
      (intRange (-Range) Range).foldl (fun st x =>
        a.ApplyToolCell ToolPosition ToolRadius bAdd CenterIdx x y z st) st) st)
    (a.SculptedModifications, false)

/-- The method `AVolumetricOctree::ApplyTool`; the first argument is the level bound of the
rebuild. -/
def AVolumetricOctree.ApplyTool (fuel : ℕ) (a : AVolumetricOctree) (ToolPosition : FVector)
    (ToolRadius : ℚ) (bAdd : Bool) : Option AVolumetricOctree :=
  let r := a.ApplyToolLoops ToolPosition ToolRadius bAdd
  let edited : AVolumetricOctree := { a with SculptedModifications := r.1 }
  if r.2 then edited.GenerateOctree fuel else some edited

/-- The method `AVolumetricOctree::ClearSculpting`. -/
def AVolumetricOctree.ClearSculpting (fuel : ℕ) (a : AVolumetricOctree) :
    Option AVolumetricOctree :=
  AVolumetricOctree.GenerateOctree fuel { a with SculptedModifications := [] }

/-- Number of levels after which an octant of half-size `Extent` has been halved down to
`MinVoxelSize * 0.51`: `ceil(log2(Extent / (0.51 * MinVoxelSize)))`, and `0` when the octant is
already that small. -/
def octreeDepth (MinVoxelSize Extent : ℚ) : ℕ :=
  Nat.clog 2 ⌈Extent / (MinVoxelSize * (51 / 100))⌉₊

/-- The leaf octants `(center, extent)` of the subdivision of `ProcessOctant` when no octant is
culled: an octant is a leaf once `Extent <= MinVoxelSize * 0.51`, and is split into its eight
children otherwise. -/
def LeafOctants (MinVoxelSize : ℚ) : ℕ → FVector → ℚ → Option (List (FVector × ℚ))
  | fuel, Center, Extent =>
    if Extent ≤ MinVoxelSize * (51 / 100) then some [(Center, Extent)]
    else
      match fuel with
      | 0 => none
      | n + 1 =>
        let ChildExtent := Extent * (1 / 2)
        collectCalls (ChildSigns.map (fun s =>
          LeafOctants MinVoxelSize n (Center.add (ChildOffset ChildExtent s)) ChildExtent))

/-! ## Example configurations -/

/-- A sphere of the given radius (`Dimensions.X`) at the given center. -/
def sphereAt (Radius : ℚ) (Center : FVector) : FVolumetricShape :=
  ⟨EVolumetricShapeType.Sphere, Center, ⟨Radius, 0, 0⟩⟩

/-- Two disjoint unit spheres under Union, voxel size 20, nothing sculpted. -/
def twoSpheres : AVolumetricOctree :=
  ⟨20, [sphereAt 1 ⟨0, 0, 0⟩, sphereAt 1 ⟨5, 0, 0⟩], EGridOperation.Union, [], []⟩

/-- A unit sphere at the origin with voxel size 1; the cell of the origin is forced empty and the
cell of `(3, 0, 0)` is forced solid. -/
def sculptedUnitSphere : AVolumetricOctree :=
  ⟨1, [sphereAt 1 ⟨0, 0, 0⟩], EGridOperation.Union, [(⟨0, 0, 0⟩, -1), (⟨3, 0, 0⟩, 1)], []⟩

/-- The unit sphere at the origin under Union with voxel size 20, nothing sculpted. -/
def smallSphere : AVolumetricOctree :=
  ⟨20, [sphereAt 1 ⟨0, 0, 0⟩], EGridOperation.Union, [], []⟩

/-- The actor `smallSphere` after its rebuild (one instance at the origin), with the shape list
emptied afterwards. -/
def rebuiltThenEmptied : AVolumetricOctree :=
  ⟨20, [], EGridOperation.Union, [], [⟨⟨0, 0, 0⟩, FVector.splat (3 / 125)⟩]⟩

/-- The actor `smallSphere` after its rebuild (one instance at the origin), with `MinVoxelSize`
lowered to `0.5` afterwards. -/
def rebuiltThenTooFine : AVolumetricOctree :=
  ⟨1 / 2, [sphereAt 1 ⟨0, 0, 0⟩], EGridOperation.Union, [],
    [⟨⟨0, 0, 0⟩, FVector.splat (3 / 125)⟩]⟩

/-- A unit sphere centered in the leaf octant `[0, 15.625]³` of the root octant of extent 1000,
voxel size 20. -/
def offCenterSphere : AVolumetricOctree :=
  ⟨20, [sphereAt 1 ⟨125 / 16, 125 / 16, 125 / 16⟩], EGridOperation.Union, [], []⟩

/-- The constructor's default actor: one sphere of radius 200 at the origin, voxel size 20,
Union, nothing sculpted. -/
def defaultActor : AVolumetricOctree :=
  ⟨20, [sphereAt 200 ⟨0, 0, 0⟩], EGridOperation.Union, [], []⟩

/-- The torus of major radius 3 and minor radius 1 at the origin. -/
def ringTorus : FVolumetricShape :=
  ⟨EVolumetricShapeType.Torus, ⟨0, 0, 0⟩, ⟨3, 1, 0⟩⟩

/-- The default sphere of radius 200 with voxel size 1000, nothing sculpted. -/
def coarseActor : AVolumetricOctree :=
  ⟨1000, [sphereAt 200 ⟨0, 0, 0⟩], EGridOperation.Union, [], []⟩

/-- The actor `coarseActor` after the tool was applied at `(1000, 0, 0)` with radius 0 in add
mode: the cell `(1, 0, 0)` is forced solid. -/
def farSculpt : AVolumetricOctree :=
  ⟨1000, [sphereAt 200 ⟨0, 0, 0⟩], EGridOperation.Union, [(⟨1, 0, 0⟩, 1)], []⟩

/-- The actor `coarseActor` with the cell of the origin forced solid. -/
def nearSculpt : AVolumetricOctree :=
  ⟨1000, [sphereAt 200 ⟨0, 0, 0⟩], EGridOperation.Union, [(⟨0, 0, 0⟩, 1)], []⟩

/-! ## Cubes and boxes as point sets -/

/-- The engine's `FBox::IsInsideOrOn`: the point is in the closed box. -/
def FBox.IsInsideOrOn (b : FBox) (p : FVector) : Prop :=
  b.Min.X ≤ p.X ∧ p.X ≤ b.Max.X ∧ b.Min.Y ≤ p.Y ∧ p.Y ≤ b.Max.Y ∧
    b.Min.Z ≤ p.Z ∧ p.Z ≤ b.Max.Z

/-! ## Instrumented and comparison versions -/

/-- A float division with the zero divisor made visible: `none` stands for the division by zero
the source would evaluate. -/
def checkedDiv (x y : ℚ) : Option ℚ := if y = 0 then none else some (x / y)

/-- The method `GetGridIndex` with its three divisions by `MinVoxelSize` checked. -/
def AVolumetricOctree.GetGridIndexChecked (a : AVolumetricOctree) (Position : FVector) :
    Option FIntVector :=
  match checkedDiv Position.X a.MinVoxelSize, checkedDiv Position.Y a.MinVoxelSize,
    checkedDiv Position.Z a.MinVoxelSize with
  | some x, some y, some z => some ⟨RoundToInt x, RoundToInt y, RoundToInt z⟩
  | _, _, _ => none

/-- The first two statements of `ApplyTool`, `Range = CeilToInt(ToolRadius / MinVoxelSize)` and
`CenterIdx = GetGridIndex(ToolPosition)`, with their divisions checked.  The source executes them
on entry, before any test. -/
def AVolumetricOctree.ApplyToolHeadChecked (a : AVolumetricOctree) (ToolPosition : FVector)
    (ToolRadius : ℚ) : Option (ℤ × FIntVector) :=
  match checkedDiv ToolRadius a.MinVoxelSize with
  | none => none
  | some q =>
    match a.GetGridIndexChecked ToolPosition with
    | none => none
    | some CenterIdx => some (CeilToInt q, CenterIdx)

/-- The recursion of `ProcessOctant` with the cull test (`DoesBoxIntersectShapes`) removed. -/
def AVolumetricOctree.ProcessOctantNoCull (a : AVolumetricOctree) :
    ℕ → FVector → ℚ → Option (List FTransform)
  | fuel, Center, Extent =>
    if Extent ≤ a.MinVoxelSize * (51 / 100) then
      if a.IsPointInsideShapes Center then
        some [⟨Center, FVector.splat ((Extent * 2) / 100)⟩]
      else some []
    else
      match fuel with
      | 0 => none
      | n + 1 =>
        let ChildExtent := Extent * (1 / 2)
        collectCalls (ChildSigns.map (fun s =>
          AVolumetricOctree.ProcessOctantNoCull a n (Center.add (ChildOffset ChildExtent s))
            ChildExtent))

/-- A call of one of the two sculpting operations of the actor. -/
inductive SculptCall where
  | Tool (ToolPosition : FVector) (ToolRadius : ℚ) (bAdd : Bool)
  | Clear

/-- A sequence of `ApplyTool` and `ClearSculpting` calls on the actor, each given the same level
bound; `none` when one of them ran out of levels. -/
def AVolumetricOctree.RunCalls (fuel : ℕ) :
    AVolumetricOctree → List SculptCall → Option AVolumetricOctree
  | a, [] => some a
  | a, SculptCall.Tool ToolPosition ToolRadius bAdd :: rest =>
      match a.ApplyTool fuel ToolPosition ToolRadius bAdd with
      | some a' => AVolumetricOctree.RunCalls fuel a' rest
      | none => none
  | a, SculptCall.Clear :: rest =>
      match a.ClearSculpting fuel with
      | some a' => AVolumetricOctree.RunCalls fuel a' rest
      | none => none

/-- Two actors with the same configuration: voxel size, shape list and operation mode. -/
def AVolumetricOctree.SameConfiguration (a b : AVolumetricOctree) : Prop :=
  a.MinVoxelSize = b.MinVoxelSize ∧ a.Shapes = b.Shapes ∧ a.OperationMode = b.OperationMode

/-- A level bound that is enough for every rebuild of the configuration: the root extent takes
one value while the sculpt layer is empty and another (bounds expanded by 500) while it is
not. -/
def AVolumetricOctree.RebuildLevels (a : AVolumetricOctree) : ℕ :=
  max (octreeDepth a.MinVoxelSize
      ({ a with SculptedModifications := [] } : AVolumetricOctree).RootExtent)
    (octreeDepth a.MinVoxelSize
      ({ a with SculptedModifications := [(⟨0, 0, 0⟩, 1)] } : AVolumetricOctree).RootExtent)

/-- The default sphere with `MinVoxelSize` set to zero. -/
def zeroVoxel : AVolumetricOctree :=
  ⟨0, [sphereAt 200 ⟨0, 0, 0⟩], EGridOperation.Union, [], []⟩

/-! ## The arithmetic of the machine: `float`, `double`, `int32`

The definitions above take every number as an exact rational.  The definitions of this part
follow the types of the source: `FVector` and `FBox` hold `double` components, the members and
locals declared `float` hold `float` values, and each operation rounds its exact result to its
type.  `Rounded.f` is the method `f` of the source with that rounding. -/

/-- Bit-length recursion of `natLog2`; the first argument bounds the number of halvings. -/
def log2Fuel : ℕ → ℕ → ℕ
  | 0, _ => 0
  | f + 1, n => if n < 2 then 0 else log2Fuel f (n / 2) + 1

/-- The exponent of the leading bit of a natural number: `floor (log2 n)` for `n > 0`. -/
def natLog2 (n : ℕ) : ℕ := log2Fuel n n

/-- The power `2 ^ e` for an integer exponent. -/
def pow2 (e : ℤ) : ℚ := if 0 ≤ e then (2 : ℚ) ^ e.toNat else 1 / (2 : ℚ) ^ (-e).toNat

/-- The binary exponent of a positive rational: the `e` with `2 ^ e ≤ q < 2 ^ (e + 1)`. -/
def floorLog2 (q : ℚ) : ℤ :=
  let e0 : ℤ := (natLog2 q.num.natAbs : ℤ) - (natLog2 q.den : ℤ)
  if pow2 e0 ≤ q then e0 else e0 - 1

/-- Rounding to the nearest integer, a tie going to the even neighbour. -/
def roundHalfEven (x : ℚ) : ℤ :=
  let f := ⌊x⌋
  let r := x - (f : ℚ)
  if r < 1 / 2 then f else if 1 / 2 < r then f + 1 else if f % 2 = 0 then f else f + 1

/-- Rounding of a rational to the nearest value of the binary floating-point format with `prec`
significand bits and least normal exponent `emin` (round to nearest, ties to even; below
`2 ^ emin` the spacing stays that of the subnormal numbers).  The exponent is not bounded from
above: a result beyond the largest finite value of the format, which the machine turns into an
infinity, is not represented. -/
def roundToBinary (prec : ℕ) (emin : ℤ) (q : ℚ) : ℚ :=
  if q = 0 then 0
  else
    let e := max (floorLog2 |q|) emin
    let ulp := pow2 (e - ((prec : ℤ) - 1))
    (roundHalfEven (q / ulp) : ℚ) * ulp

/-- The value of a `float` (IEEE binary32) nearest to `q`: the result of narrowing to `float` and
of every `float` operation. -/
def toFloat (q : ℚ) : ℚ := roundToBinary 24 (-126) q

/-- The value of a `double` (IEEE binary64) nearest to `q`: the result of every `double`
operation. -/
def toDouble (q : ℚ) : ℚ := roundToBinary 53 (-1022) q

/-- Integer square root, bit by bit from bit `b - 1` down: the largest `r + k` with
`k < 2 ^ b` and `(r + k)² ≤ n`. -/
def isqrtBits (n : ℕ) : ℕ → ℕ → ℕ
  | 0, r => r
  | b + 1, r =>
      if (r + 2 ^ b) * (r + 2 ^ b) ≤ n then isqrtBits n b (r + 2 ^ b) else isqrtBits n b r

/-- Integer square root `floor (sqrt n)`. -/
def isqrt (n : ℕ) : ℕ := isqrtBits n (natLog2 n / 2 + 1) 0

/-- The correctly rounded square root of the format `(prec, emin)`: the value of the format
nearest to `sqrt q`, as IEEE 754 requires of the `sqrt` operation. -/
def sqrtToBinary (prec : ℕ) (emin : ℤ) (q : ℚ) : ℚ :=
  if q ≤ 0 then 0
  else
    let e := max (Int.fdiv (floorLog2 q) 2) emin
    let ulp := pow2 (e - ((prec : ℤ) - 1))
    let x := q / (ulp * ulp)
    let s : ℕ := isqrt ⌊x⌋₊
    let h : ℚ := (s : ℚ) + 1 / 2
    let k : ℕ :=
      if h * h < x then s + 1 else if x < h * h then s else if s % 2 = 0 then s else s + 1
    (k : ℚ) * ulp

/-- The engine's `FMath::Sqrt(double)`. -/
def sqrtDouble (q : ℚ) : ℚ := sqrtToBinary 53 (-1022) q

/-- Narrowing of an integer to `int32`: two's-complement wrap-around. -/
def wrapInt32 (i : ℤ) : ℤ := (i + 2 ^ 31) % 2 ^ 32 - 2 ^ 31

/-- The largest finite `float`, `FLT_MAX = (2 - 2⁻²³) * 2¹²⁷`; a `float` result beyond it is an
infinity in the source. -/
def FLT_MAX : ℚ := (2 - 1 / 2 ^ 23) * 2 ^ 127

/-- Componentwise `operator+` of `FVector`, in `double`. -/
def Rounded.add (a b : FVector) : FVector :=
  ⟨toDouble (a.X + b.X), toDouble (a.Y + b.Y), toDouble (a.Z + b.Z)⟩

/-- Componentwise `operator-` of `FVector`, in `double`. -/
def Rounded.sub (a b : FVector) : FVector :=
  ⟨toDouble (a.X - b.X), toDouble (a.Y - b.Y), toDouble (a.Z - b.Z)⟩

/-- The engine's `FVector::SizeSquared`, `X*X + Y*Y + Z*Z` in `double`. -/
def Rounded.SizeSquared (a : FVector) : ℚ :=
  toDouble (toDouble (toDouble (a.X * a.X) + toDouble (a.Y * a.Y)) + toDouble (a.Z * a.Z))

/-- The engine's `FVector::Dist`: `FMath::Sqrt` of the sum of the squared `double`
differences. -/
def Rounded.Dist (V1 V2 : FVector) : ℚ :=
  let d := Rounded.sub V2 V1
  sqrtDouble (Rounded.SizeSquared d)

/-- The engine's `FMath::RoundToInt` on a `double`, `FloorToInt(F + 0.5)`, stored in an
`int32`. -/
def Rounded.RoundToInt (f : ℚ) : ℤ := wrapInt32 ⌊toDouble (f + 1 / 2)⌋

/-- The member `FVolumetricShape::GetMaxRadius`: the `double` sum returned as `float`. -/
def Rounded.GetMaxRadius (s : FVolumetricShape) : ℚ :=
  toFloat (toDouble (Max3 s.Dimensions.X s.Dimensions.Y s.Dimensions.Z +
    (if s.ShapeType = EVolumetricShapeType.Torus then s.Dimensions.X else 0)))

/-- The method `AVolumetricOctree::IsPointInsideSingleShape`: the sphere and the box are tested
in `double`; the torus narrows the radii, the distance to the axis and the tube distance to
`float`. -/
def Rounded.IsPointInsideSingleShape (P : FVector) (Shape : FVolumetricShape) : Bool :=
  let LocalP := Rounded.sub P Shape.Center
  match Shape.ShapeType with
  | EVolumetricShapeType.Sphere =>
      decide (Rounded.SizeSquared LocalP ≤ toDouble (Shape.Dimensions.X * Shape.Dimensions.X))
  | EVolumetricShapeType.Box =>
      decide (|LocalP.X| ≤ Shape.Dimensions.X) &&
        (decide (|LocalP.Y| ≤ Shape.Dimensions.Y) && decide (|LocalP.Z| ≤ Shape.Dimensions.Z))
  | EVolumetricShapeType.Torus =>
      let MajorR := toFloat Shape.Dimensions.X
      let MinorR := toFloat Shape.Dimensions.Y
      let DistToAxis :=
        toFloat (sqrtDouble (toDouble (toDouble (LocalP.X * LocalP.X) +
          toDouble (LocalP.Y * LocalP.Y))))
      let Diff := toFloat (DistToAxis - MajorR)
      let DistTube := toFloat (toDouble (toFloat (Diff * Diff) + toDouble (LocalP.Z * LocalP.Z)))
      decide (DistTube ≤ toFloat (MinorR * MinorR))

/-- The method `AVolumetricOctree::GetGridIndex`: `double` quotients, rounded to `int32`. -/
def Rounded.GetGridIndex (a : AVolumetricOctree) (Position : FVector) : FIntVector :=
  ⟨Rounded.RoundToInt (toDouble (Position.X / a.MinVoxelSize)),
   Rounded.RoundToInt (toDouble (Position.Y / a.MinVoxelSize)),
   Rounded.RoundToInt (toDouble (Position.Z / a.MinVoxelSize))⟩

/-- The shape loop of `IsPointInsideShapes` (step 2, "Check Geometry") with its early returns. -/
def Rounded.CheckGeometry (Mode : EGridOperation) (P : FVector) :
    List FVolumetricShape → Bool
  | [] => decide (Mode = EGridOperation.Intersection)
  | Shape :: rest =>
      let bInsideCurrent := Rounded.IsPointInsideSingleShape P Shape
      if Mode = EGridOperation.Union then
        if bInsideCurrent then true else Rounded.CheckGeometry Mode P rest
      else
        if !bInsideCurrent then false else Rounded.CheckGeometry Mode P rest

/-- The method `AVolumetricOctree::IsPointInsideShapes`. -/
def Rounded.IsPointInsideShapes (a : AVolumetricOctree) (P : FVector) : Bool :=
  let Idx := Rounded.GetGridIndex a P
  let geometry := Rounded.CheckGeometry a.OperationMode P a.Shapes
  match a.SculptedModifications.Find Idx with
  | some Mod =>
      if Mod < -(1 / 2) then false
      else if Mod > 1 / 2 then true
      else geometry
  | none => geometry

/-- The bounding cube of a shape in `DoesBoxIntersectShapes`, with
`float Radius = Shape.GetMaxRadius()`. -/
def Rounded.ShapeBounds (s : FVolumetricShape) : FBox :=
  let Radius := Rounded.GetMaxRadius s
  FBox.ofCorners (Rounded.sub s.Center (FVector.splat Radius))
    (Rounded.add s.Center (FVector.splat Radius))

/-- The method `AVolumetricOctree::DoesBoxIntersectShapes`. -/
def Rounded.DoesBoxIntersectShapes (a : AVolumetricOctree) (Box : FBox) : Bool :=
  if a.SculptedModifications.Num > 0 then true
  else if a.OperationMode = EGridOperation.Union then
    a.Shapes.any (fun Shape => Box.Intersect (Rounded.ShapeBounds Shape))
  else
    a.Shapes.all (fun Shape => Box.Intersect (Rounded.ShapeBounds Shape))

/-- The `ChildOffset` of `ProcessOctant` for one sign triple: each component is the `float`
product `x * ChildExtent`. -/
def Rounded.ChildOffset (ChildExtent : ℚ) (s : ℚ × ℚ × ℚ) : FVector :=
  ⟨toFloat (s.1 * ChildExtent), toFloat (s.2.1 * ChildExtent), toFloat (s.2.2 * ChildExtent)⟩

/-- The leaf threshold of `ProcessOctant`, the `float` product `MinVoxelSize * 0.51f`. -/
def Rounded.LeafThreshold (MinVoxelSize : ℚ) : ℚ := toFloat (MinVoxelSize * toFloat (51 / 100))

/-- The scale `(Extent * 2.0f) / 100.0f` that `ProcessOctant` gives the instance of a leaf. -/
def Rounded.LeafScale (Extent : ℚ) : ℚ := toFloat (toFloat (Extent * 2) / 100)

/-- The method `AVolumetricOctree::ProcessOctant`: the instances it adds, in order.  The first
argument bounds the number of levels below this octant; `none` means it was exceeded. -/
def Rounded.ProcessOctant (a : AVolumetricOctree) :
    ℕ → FVector → ℚ → Option (List FTransform)
  | fuel, Center, Extent =>
    let NodeBox := FBox.ofCorners (Rounded.sub Center (FVector.splat Extent))
      (Rounded.add Center (FVector.splat Extent))
    if !Rounded.DoesBoxIntersectShapes a NodeBox then some []
    else if Extent ≤ Rounded.LeafThreshold a.MinVoxelSize then
      if Rounded.IsPointInsideShapes a Center then
        some [⟨Center, FVector.splat (Rounded.LeafScale Extent)⟩]
      else some []
    else
      match fuel with
      | 0 => none
      | n + 1 =>
        let ChildExtent := toFloat (Extent * (1 / 2))
        collectCalls (ChildSigns.map (fun s =>
          Rounded.ProcessOctant a n (Rounded.add Center (Rounded.ChildOffset ChildExtent s))
            ChildExtent))

/-- The recursion of `Rounded.ProcessOctant` with the cull test removed. -/
def Rounded.ProcessOctantNoCull (a : AVolumetricOctree) :
    ℕ → FVector → ℚ → Option (List FTransform)
  | fuel, Center, Extent =>
    if Extent ≤ Rounded.LeafThreshold a.MinVoxelSize then
      if Rounded.IsPointInsideShapes a Center then
        some [⟨Center, FVector.splat (Rounded.LeafScale Extent)⟩]
      else some []
    else
      match fuel with
      | 0 => none
      | n + 1 =>
        let ChildExtent := toFloat (Extent * (1 / 2))
        collectCalls (ChildSigns.map (fun s =>
          Rounded.ProcessOctantNoCull a n
            (Rounded.add Center (Rounded.ChildOffset ChildExtent s)) ChildExtent))

/-- The per-shape `Extent` of step 1 of `GenerateOctree`; the torus goes through
`float TotalR`. -/
def Rounded.BoundsExtent (Shape : FVolumetricShape) : FVector :=
  match Shape.ShapeType with
  | EVolumetricShapeType.Sphere => FVector.splat Shape.Dimensions.X
  | EVolumetricShapeType.Box => Shape.Dimensions
  | EVolumetricShapeType.Torus =>
      let TotalR := toFloat (toDouble (Shape.Dimensions.X + Shape.Dimensions.Y))
      ⟨TotalR, TotalR, Shape.Dimensions.Y⟩

/-- The engine's `FBox::ExpandBy(W)`, in `double`. -/
def Rounded.ExpandBy (b : FBox) (W : ℚ) : FBox :=
  FBox.ofCorners (Rounded.sub b.Min (FVector.splat W)) (Rounded.add b.Max (FVector.splat W))

/-- The `GlobalBounds` of `GenerateOctree`. -/
def Rounded.GlobalBounds (a : AVolumetricOctree) : FBox :=
  let b := a.Shapes.foldl (fun (acc : FBox) Shape =>
    (acc.addPoint (Rounded.add Shape.Center (Rounded.BoundsExtent Shape))).addPoint
      (Rounded.sub Shape.Center (Rounded.BoundsExtent Shape))) FBox.ForceInit
  if a.SculptedModifications.Num > 0 then Rounded.ExpandBy b 500 else b

/-- The `RootCenter` of `GenerateOctree`: `FBox::GetCenter`, `(Min + Max) * 0.5`. -/
def Rounded.RootCenter (a : AVolumetricOctree) : FVector :=
  let S := Rounded.add (Rounded.GlobalBounds a).Min (Rounded.GlobalBounds a).Max
  ⟨toDouble (S.X * (1 / 2)), toDouble (S.Y * (1 / 2)), toDouble (S.Z * (1 / 2))⟩

/-- The `float MaxDim` of `GenerateOctree`: the largest side of `GlobalBounds`, narrowed. -/
def Rounded.MaxDim (a : AVolumetricOctree) : ℚ :=
  let Size := Rounded.sub (Rounded.GlobalBounds a).Max (Rounded.GlobalBounds a).Min
  toFloat (Max3 Size.X Size.Y Size.Z)

/-- The `RootExtent` of `GenerateOctree`: the `float` product `MaxDim * 0.6f`. -/
def Rounded.RootExtent (a : AVolumetricOctree) : ℚ :=
  toFloat (Rounded.MaxDim a * toFloat (6 / 10))

/-- The method `AVolumetricOctree::GenerateOctree`; the first argument is the level bound handed
to `ProcessOctant`. -/
def Rounded.GenerateOctree (fuel : ℕ) (a : AVolumetricOctree) : Option AVolumetricOctree :=
  if a.Shapes.length = 0 ∨ a.MinVoxelSize < 1 then some a
  else
    let cleared : AVolumetricOctree := { a with Instances := [] }
    match Rounded.ProcessOctant cleared fuel (Rounded.RootCenter cleared)
        (Rounded.RootExtent cleared) with
    | some added => some { cleared with Instances := cleared.Instances ++ added }
    | none => none

/-- The position `(CenterIdx + offset) * MinVoxelSize` of a candidate cell on one axis: the
`int32` sum is converted to `float` and multiplied in `float`. -/
def Rounded.VoxelCoord (MinVoxelSize : ℚ) (CenterIdx offset : ℤ) : ℚ :=
  toFloat (toFloat ((wrapInt32 (CenterIdx + offset) : ℤ) : ℚ) * MinVoxelSize)

/-- The body of the innermost loop of `ApplyTool` on the pair (sculpt layer, `bChanged`). -/
def Rounded.ApplyToolCell (a : AVolumetricOctree) (ToolPosition : FVector)
    (ToolRadius : ℚ) (bAdd : Bool) (CenterIdx : FIntVector) (x y z : ℤ)
    (st : SculptMap × Bool) : SculptMap × Bool :=
  let VoxelPos : FVector :=
    ⟨Rounded.VoxelCoord a.MinVoxelSize CenterIdx.X x,
     Rounded.VoxelCoord a.MinVoxelSize CenterIdx.Y y,
     Rounded.VoxelCoord a.MinVoxelSize CenterIdx.Z z⟩
  if Rounded.Dist VoxelPos ToolPosition ≤ ToolRadius then
    let Key := Rounded.GetGridIndex a VoxelPos
    (st.1.Add Key (if bAdd then 1 else -1), true)
  else st

/-- The three nested loops of `ApplyTool`: the sculpt layer and `bChanged` after them. -/
def Rounded.ApplyToolLoops (a : AVolumetricOctree) (ToolPosition : FVector)
    (ToolRadius : ℚ) (bAdd : Bool) : SculptMap × Bool :=
  let Range := CeilToInt (toFloat (ToolRadius / a.MinVoxelSize))
  let CenterIdx := Rounded.GetGridIndex a ToolPosition
  (intRange (-Range) Range).foldl (fun st z =>
    (intRange (-Range) Range).foldl (fun st y =>
      (intRange (-Range) Range).foldl (fun st x =>
        Rounded.ApplyToolCell a ToolPosition ToolRadius bAdd CenterIdx x y z st) st) st)
    (a.SculptedModifications, false)

/-- The method `AVolumetricOctree::ApplyTool`; the first argument is the level bound of the
rebuild. -/
def Rounded.ApplyTool (fuel : ℕ) (a : AVolumetricOctree) (ToolPosition : FVector)
    (ToolRadius : ℚ) (bAdd : Bool) : Option AVolumetricOctree :=
  let r := Rounded.ApplyToolLoops a ToolPosition ToolRadius bAdd
  let edited : AVolumetricOctree := { a with SculptedModifications := r.1 }
  if r.2 then Rounded.GenerateOctree fuel edited else some edited

/-! ## Example inputs of the rounded arithmetic -/

/-- The point `(4 + 2⁻³⁰, 0, 0)`, outside `ringTorus` by `2⁻³⁰` at its outer equator. -/
def beyondRingTorus : FVector := ⟨4 + 1 / 2 ^ 30, 0, 0⟩

/-- The default sphere with voxel size 1, nothing sculpted, nothing built. -/
def fineActor : AVolumetricOctree :=
  ⟨1, [sphereAt 200 ⟨0, 0, 0⟩], EGridOperation.Union, [], []⟩

/-- The lattice position of the grid index `(20000001, 0, 0)` for voxel size 1; the integer
`20000001` is not a `float` value. -/
def farToolPosition : FVector := ⟨20000001, 0, 0⟩

/-- The torus of major radius `0.4` and minor radius `0.3` (the `double` values of these
literals) at the origin. -/
def thinTorus : FVolumetricShape :=
  ⟨EVolumetricShapeType.Torus, ⟨0, 0, 0⟩, ⟨toDouble (2 / 5), toDouble (3 / 10), 0⟩⟩

/-- The torus `thinTorus` alone, voxel size 20, Union, nothing sculpted. -/
def thinTorusActor : AVolumetricOctree :=
  ⟨20, [thinTorus], EGridOperation.Union, [], []⟩

/-- The point `(0.7, 0, 0)` (the `double` value of the literal). -/
def thinTorusRim : FVector := ⟨toDouble (7 / 10), 0, 0⟩

/-- A sphere of radius `2¹³⁰` (about `1.4 * 10³⁹`) at the origin, voxel size 20, Union, nothing
sculpted. -/
def hugeSphere : AVolumetricOctree :=
  ⟨20, [sphereAt (2 ^ 130) ⟨0, 0, 0⟩], EGridOperation.Union, [], []⟩

/-- Number of levels after which a `float` extent has been halved down to the leaf threshold
`MinVoxelSize * 0.51f` of the source: `ceil(log2(Extent / threshold))`, and `0` when the extent
is already that small. -/
def Rounded.octreeDepth (MinVoxelSize Extent : ℚ) : ℕ :=
  Nat.clog 2 ⌈Extent / Rounded.LeafThreshold MinVoxelSize⌉₊

/-- The box of half-extents `3.825` (the `double` value of the literal) at the origin with voxel
size 9, Union, nothing sculpted. -/
def nineBox : AVolumetricOctree :=
  ⟨9, [⟨EVolumetricShapeType.Box, ⟨0, 0, 0⟩,
    ⟨toDouble (153 / 40), toDouble (153 / 40), toDouble (153 / 40)⟩⟩],
    EGridOperation.Union, [], []⟩

/-- A sphere of radius `2²³ + 15/32 = 8388608.46875`, which is not a `float`, at the origin. -/
def wideSphere : FVolumetricShape := sphereAt (2 ^ 23 + 15 / 32) ⟨0, 0, 0⟩

/-- The center `(8388608.4333.., 0.3.., 0.3..)` of a leaf octant of the rebuild of
`surfaceActor`, just inside the surface of `wideSphere`. -/
def surfaceLeaf : FVector :=
  ⟨140737495625455 / 16777216, 5033165 / 16777216, 5033165 / 16777216⟩

/-- The intersection of `wideSphere` with a sphere of radius `1/64` around `surfaceLeaf`, voxel
size 1, nothing sculpted, nothing built. -/
def surfaceActor : AVolumetricOctree :=
  ⟨1, [wideSphere, sphereAt (1 / 64) surfaceLeaf], EGridOperation.Intersection, [], []⟩

/-- The octant `(Center, Extent)` that `ProcessOctant` reaches from an octant by descending into
the children named by a list of sign triples, outermost first. -/
def Rounded.Descend : List (ℚ × ℚ × ℚ) → FVector → ℚ → FVector × ℚ
  | [], Center, Extent => (Center, Extent)
  | s :: rest, Center, Extent =>
      let ChildExtent := toFloat (Extent * (1 / 2))
      Rounded.Descend rest (Rounded.add Center (Rounded.ChildOffset ChildExtent s)) ChildExtent

/-- Every octant on the way down a list of sign triples is split (its extent is above the leaf
threshold `T`), and every triple is one of the loops of `ProcessOctant`. -/
def Rounded.SplitsAlong (T : ℚ) : List (ℚ × ℚ × ℚ) → ℚ → Bool
  | [], _ => true
  | s :: rest, Extent =>
      decide (s ∈ ChildSigns) && (!decide (Extent ≤ T) &&
        Rounded.SplitsAlong T rest (toFloat (Extent * (1 / 2))))

/-- The sign triples that lead from the root octant of `surfaceActor` to the leaf octant
centered at `surfaceLeaf`. -/
def surfacePath : List (ℚ × ℚ × ℚ) :=
  [(1, 1, 1), (1, -1, -1), (1, -1, -1), (-1, -1, -1), (1, -1, -1), (-1, -1, -1), (1, -1, -1),
   (-1, -1, -1), (1, -1, -1), (-1, -1, -1), (1, -1, -1), (-1, -1, -1), (1, -1, -1),
   (-1, -1, -1), (1, -1, -1), (-1, -1, -1), (1, -1, -1), (-1, -1, -1), (1, -1, -1),
   (-1, -1, -1), (1, -1, -1), (-1, -1, -1), (1, -1, -1), (-1, -1, -1), (1, -1, -1)]

/-! ## Square-root-free comparisons are the comparisons with the real square root -/

/-- The test `DistTubeLE` decides `(sqrt(AxisSq) - MajorR)² + ZSq ≤ Bound` over the reals. -/
theorem DistTubeLE_iff (s a z c : ℚ) (hs : 0 ≤ s) :
    DistTubeLE s a z c = true ↔ (Real.sqrt (s : ℝ) - (a : ℝ)) ^ 2 + (z : ℝ) ≤ (c : ℝ) := by
  have hs' : (0 : ℝ) ≤ (s : ℝ) := by exact_mod_cast hs
  have ht : 0 ≤ Real.sqrt (s : ℝ) := Real.sqrt_nonneg _
  have htt : Real.sqrt (s : ℝ) * Real.sqrt (s : ℝ) = (s : ℝ) := Real.mul_self_sqrt hs'
  set t := Real.sqrt (s : ℝ) with ht_def
  have key : (t - (a : ℝ)) ^ 2 + (z : ℝ) ≤ (c : ℝ) ↔
      (s : ℝ) + a * a + z - c ≤ 2 * a * t := by
    constructor <;> intro h <;> nlinarith
  rw [key]
  unfold DistTubeLE
  by_cases ha : 0 ≤ a
  · have ha' : (0 : ℝ) ≤ (a : ℝ) := by exact_mod_cast ha
    simp only [ha, if_true, decide_eq_true_eq]
    have cast_iff : (s + a * a + z - c ≤ 0 ∨
        (s + a * a + z - c) * (s + a * a + z - c) ≤ 4 * (a * a) * s) ↔
        ((s : ℝ) + a * a + z - c ≤ 0 ∨
        ((s : ℝ) + a * a + z - c) * ((s : ℝ) + a * a + z - c) ≤ 4 * ((a : ℝ) * a) * s) := by
      constructor <;> intro h <;> rcases h with h | h
      · left; exact_mod_cast h
      · right; exact_mod_cast h
      · left; exact_mod_cast h
      · right; exact_mod_cast h
    rw [cast_iff]
    set A : ℝ := (s : ℝ) + a * a + z - c with hA
    have hB : 0 ≤ 2 * (a : ℝ) * t := by positivity
    have hBB : (2 * (a : ℝ) * t) * (2 * (a : ℝ) * t) = 4 * ((a : ℝ) * a) * s := by
      calc (2 * (a : ℝ) * t) * (2 * (a : ℝ) * t) = 4 * ((a : ℝ) * a) * (t * t) := by ring
        _ = 4 * ((a : ℝ) * a) * s := by rw [htt]
    rw [← hBB]
    constructor
    · rintro (h | h)
      · linarith
      · by_contra hlt
        push_neg at hlt
        nlinarith
    · intro h
      by_cases hA0 : A ≤ 0
      · left; exact hA0
      · right
        push_neg at hA0
        nlinarith
  · have ha' : (a : ℝ) < 0 := by
      have : a < 0 := lt_of_not_ge ha
      exact_mod_cast this
    simp only [ha, if_false, decide_eq_true_eq]
    have cast_iff : (s + a * a + z - c ≤ 0 ∧
        4 * (a * a) * s ≤ (s + a * a + z - c) * (s + a * a + z - c)) ↔
        ((s : ℝ) + a * a + z - c ≤ 0 ∧
        4 * ((a : ℝ) * a) * s ≤ ((s : ℝ) + a * a + z - c) * ((s : ℝ) + a * a + z - c)) := by
      constructor <;> rintro ⟨h1, h2⟩
      · exact ⟨by exact_mod_cast h1, by exact_mod_cast h2⟩
      · exact ⟨by exact_mod_cast h1, by exact_mod_cast h2⟩
    rw [cast_iff]
    set A : ℝ := (s : ℝ) + a * a + z - c with hA
    have hB : 2 * (a : ℝ) * t ≤ 0 := by nlinarith
    have hBB : (2 * (a : ℝ) * t) * (2 * (a : ℝ) * t) = 4 * ((a : ℝ) * a) * s := by
      calc (2 * (a : ℝ) * t) * (2 * (a : ℝ) * t) = 4 * ((a : ℝ) * a) * (t * t) := by ring
        _ = 4 * ((a : ℝ) * a) * s := by rw [htt]
    rw [← hBB]
    constructor
    · rintro ⟨h1, h2⟩
      by_contra hlt
      push_neg at hlt
      nlinarith
    · intro h
      refine ⟨by linarith, ?_⟩
      nlinarith

/-- The test `DistLE` decides `sqrt(|A - B|²) ≤ R` over the reals. -/
theorem DistLE_iff (A B : FVector) (R : ℚ) :
    DistLE A B R = true ↔ Real.sqrt (((A.sub B).SizeSquared : ℚ) : ℝ) ≤ (R : ℝ) := by
  unfold DistLE
  simp only [decide_eq_true_eq]
  have hnn : (0 : ℝ) ≤ (((A.sub B).SizeSquared : ℚ) : ℝ) := by
    have : (0 : ℚ) ≤ (A.sub B).SizeSquared := by
      unfold FVector.SizeSquared
      nlinarith [mul_self_nonneg (A.sub B).X, mul_self_nonneg (A.sub B).Y,
        mul_self_nonneg (A.sub B).Z]
    exact_mod_cast this
  constructor
  · rintro ⟨h0, h1⟩
    have h0' : (0 : ℝ) ≤ (R : ℝ) := by exact_mod_cast h0
    have h1' : (((A.sub B).SizeSquared : ℚ) : ℝ) ≤ (R : ℝ) ^ 2 := by
      have : (((A.sub B).SizeSquared : ℚ) : ℝ) ≤ ((R * R : ℚ) : ℝ) := by exact_mod_cast h1
      simpa [pow_two] using this
    exact Real.sqrt_le_iff.mpr ⟨h0', h1'⟩
  · intro h
    obtain ⟨h0, h1⟩ := Real.sqrt_le_iff.mp h
    refine ⟨by exact_mod_cast h0, ?_⟩
    have : (((A.sub B).SizeSquared : ℚ) : ℝ) ≤ ((R * R : ℚ) : ℝ) := by
      simpa [pow_two] using h1
    exact_mod_cast this

/-! ## Single-shape membership without rounding -/

/-- Without rounding, `IsPointInsideSingleShape` is true exactly when the reference
definition of the shape's kind holds for `local = p - center` (sphere: squared length at most the
squared radius; box: every `|local.axis|` at most the half-extent, boundary included; torus:
`(sqrt(x² + y²) - major)² + z² ≤ minor²`). -/
theorem IsPointInsideSingleShape_iff_reference (P : FVector) (Shape : FVolumetricShape) :
    IsPointInsideSingleShape P Shape = true ↔ referenceContains Shape P := by
  obtain ⟨k, c, d⟩ := Shape
  cases k
  · simp only [IsPointInsideSingleShape, referenceContains, FVector.sub, FVector.SizeSquared,
      decide_eq_true_eq]
    constructor
    · intro h
      have h' : (((P.X - c.X) * (P.X - c.X) + (P.Y - c.Y) * (P.Y - c.Y)
          + (P.Z - c.Z) * (P.Z - c.Z) : ℚ) : ℝ) ≤ ((d.X * d.X : ℚ) : ℝ) := by exact_mod_cast h
      push_cast at h' ⊢
      nlinarith
    · intro h
      have h' : (((P.X - c.X) * (P.X - c.X) + (P.Y - c.Y) * (P.Y - c.Y)
          + (P.Z - c.Z) * (P.Z - c.Z) : ℚ) : ℝ) ≤ ((d.X * d.X : ℚ) : ℝ) := by
        push_cast at h ⊢
        nlinarith
      exact_mod_cast h'
  · simp only [IsPointInsideSingleShape, referenceContains, FVector.sub, Bool.and_eq_true,
      decide_eq_true_eq]
    have e : ∀ u v : ℚ, |u| ≤ v ↔ |(u : ℝ)| ≤ (v : ℝ) := by
      intro u v
      rw [← Rat.cast_abs]
      exact Rat.cast_le.symm
    rw [e, e, e]
  · simp only [IsPointInsideSingleShape, referenceContains, FVector.sub]
    have hs : (0 : ℚ) ≤ (P.X - c.X) * (P.X - c.X) + (P.Y - c.Y) * (P.Y - c.Y) := by
      nlinarith [mul_self_nonneg (P.X - c.X), mul_self_nonneg (P.Y - c.Y)]
    rw [DistTubeLE_iff _ _ _ _ hs]
    push_cast
    simp only [pow_two]

/-! ## C2, C3: composite membership -/

/-- Under Union the shape loop is true exactly when some shape of the list contains the point. -/
theorem CheckGeometry_union (P : FVector) (l : List FVolumetricShape) :
    AVolumetricOctree.CheckGeometry EGridOperation.Union P l = true ↔
      ∃ s ∈ l, IsPointInsideSingleShape P s = true := by
  induction l with
  | nil => simp [AVolumetricOctree.CheckGeometry]
  | cons s rest ih =>
    by_cases hs : IsPointInsideSingleShape P s = true
    · simp [AVolumetricOctree.CheckGeometry, hs]
    · simp [AVolumetricOctree.CheckGeometry, hs, ih]

/-- Under Intersection the shape loop is true exactly when every shape of the list contains the
point. -/
theorem CheckGeometry_intersection (P : FVector) (l : List FVolumetricShape) :
    AVolumetricOctree.CheckGeometry EGridOperation.Intersection P l = true ↔
      ∀ s ∈ l, IsPointInsideSingleShape P s = true := by
  induction l with
  | nil => simp [AVolumetricOctree.CheckGeometry]
  | cons s rest ih =>
    by_cases hs : IsPointInsideSingleShape P s = true
    · simp [AVolumetricOctree.CheckGeometry, hs, ih]
    · simp [AVolumetricOctree.CheckGeometry, hs]

/-- Without an override at the point's grid index the composite test is the shape loop. -/
theorem IsPointInsideShapes_of_find_none (a : AVolumetricOctree) (P : FVector)
    (h : a.SculptedModifications.Find (a.GetGridIndex P) = none) :
    a.IsPointInsideShapes P = AVolumetricOctree.CheckGeometry a.OperationMode P a.Shapes := by
  simp [AVolumetricOctree.IsPointInsideShapes, h]

/-- C2: when the sculpt layer has no entry at `GetGridIndex(p)`, `IsPointInsideShapes(p)` is true
under Union iff at least one shape contains `p`, and under Intersection iff every shape contains
`p`; for the empty shape list it is false under Union and true under Intersection. -/
theorem IsPointInsideShapes_without_override (a : AVolumetricOctree) (P : FVector)
    (h : a.SculptedModifications.Find (a.GetGridIndex P) = none) :
    (a.OperationMode = EGridOperation.Union →
      (a.IsPointInsideShapes P = true ↔ ∃ s ∈ a.Shapes, IsPointInsideSingleShape P s = true)) ∧
    (a.OperationMode = EGridOperation.Intersection →
      (a.IsPointInsideShapes P = true ↔ ∀ s ∈ a.Shapes, IsPointInsideSingleShape P s = true)) ∧
    (a.Shapes = [] → a.OperationMode = EGridOperation.Union → a.IsPointInsideShapes P = false) ∧
    (a.Shapes = [] → a.OperationMode = EGridOperation.Intersection →
      a.IsPointInsideShapes P = true) := by
  rw [IsPointInsideShapes_of_find_none a P h]
  refine ⟨?_, ?_, ?_, ?_⟩
  · intro hm
    rw [hm]
    exact CheckGeometry_union P a.Shapes
  · intro hm
    rw [hm]
    exact CheckGeometry_intersection P a.Shapes
  · intro hs hm
    rw [hs, hm]
    rfl
  · intro hs hm
    rw [hs, hm]
    rfl

/-- The configuration `twoSpheres` at the center of its second sphere: the sculpt layer is empty, so
the lookup finds nothing, and the point is in the union because the second sphere contains it. -/
theorem IsPointInsideShapes_without_override_witness :
    twoSpheres.SculptedModifications.Find (twoSpheres.GetGridIndex ⟨5, 0, 0⟩) = none ∧
    (twoSpheres.OperationMode = EGridOperation.Union →
      (twoSpheres.IsPointInsideShapes ⟨5, 0, 0⟩ = true ↔
        ∃ s ∈ twoSpheres.Shapes, IsPointInsideSingleShape ⟨5, 0, 0⟩ s = true)) :=
  ⟨rfl, (IsPointInsideShapes_without_override twoSpheres ⟨5, 0, 0⟩ rfl).1⟩

/-- An override of `+1.0` at the point's grid index decides the composite test: true. -/
theorem IsPointInsideShapes_forced_solid (a : AVolumetricOctree) (P : FVector)
    (h : a.SculptedModifications.Find (a.GetGridIndex P) = some 1) :
    a.IsPointInsideShapes P = true := by
  simp only [AVolumetricOctree.IsPointInsideShapes, h]
  norm_num

/-- An override of `-1.0` at the point's grid index decides the composite test: false. -/
theorem IsPointInsideShapes_forced_empty (a : AVolumetricOctree) (P : FVector)
    (h : a.SculptedModifications.Find (a.GetGridIndex P) = some (-1)) :
    a.IsPointInsideShapes P = false := by
  simp only [AVolumetricOctree.IsPointInsideShapes, h]
  norm_num

/-- C3: an override of `-1.0` at `GetGridIndex(p)` makes `IsPointInsideShapes(p)` false and an
override of `+1.0` makes it true, whatever the shapes, the mode and the geometry at `p`. -/
theorem IsPointInsideShapes_override (a : AVolumetricOctree) (P : FVector)
    (_hm : 0 < a.MinVoxelSize) :
    (a.SculptedModifications.Find (a.GetGridIndex P) = some (-1) →
      a.IsPointInsideShapes P = false) ∧
    (a.SculptedModifications.Find (a.GetGridIndex P) = some 1 →
      a.IsPointInsideShapes P = true) := by
  exact ⟨IsPointInsideShapes_forced_empty a P, IsPointInsideShapes_forced_solid a P⟩

/-- The configuration `sculptedUnitSphere`: the origin is inside the sphere but is forced empty by
`-1.0`, and the point `(3, 0, 0)` is outside the sphere but is forced solid by `+1.0`. -/
theorem IsPointInsideShapes_override_witness :
    (AVolumetricOctree.CheckGeometry sculptedUnitSphere.OperationMode ⟨0, 0, 0⟩
        sculptedUnitSphere.Shapes = true ∧
      sculptedUnitSphere.IsPointInsideShapes ⟨0, 0, 0⟩ = false) ∧
    (AVolumetricOctree.CheckGeometry sculptedUnitSphere.OperationMode ⟨3, 0, 0⟩
        sculptedUnitSphere.Shapes = false ∧
      sculptedUnitSphere.IsPointInsideShapes ⟨3, 0, 0⟩ = true) :=
  ⟨⟨by decide!,
    (IsPointInsideShapes_override sculptedUnitSphere ⟨0, 0, 0⟩ (by decide!)).1 (by decide!)⟩,
   ⟨by decide!,
    (IsPointInsideShapes_override sculptedUnitSphere ⟨3, 0, 0⟩ (by decide!)).2 (by decide!)⟩⟩

/-! ## The recursion of `ProcessOctant` -/

/-- When every call returned, the sequenced output holds exactly the outputs of the calls. -/
theorem collectCalls_mem {α : Type} (l : List (Option (List α))) (r : List α)
    (h : collectCalls l = some r) (t : α) :
    t ∈ r ↔ ∃ r', some r' ∈ l ∧ t ∈ r' := by
  induction l generalizing r with
  | nil =>
    simp only [collectCalls, Option.some.injEq] at h
    subst h
    simp
  | cons o rest ih =>
    cases o with
    | none => simp [collectCalls] at h
    | some x =>
      cases hrest : collectCalls rest with
      | none => simp [collectCalls, hrest] at h
      | some rr =>
        simp only [collectCalls, hrest, Option.some.injEq] at h
        subst h
        rw [List.mem_append, ih rr hrest]
        constructor
        · rintro (h1 | ⟨r', h1, h2⟩)
          · exact ⟨x, by simp, h1⟩
          · exact ⟨r', by simp [h1], h2⟩
        · rintro ⟨r', h1, h2⟩
          rcases List.mem_cons.mp h1 with h3 | h3
          · left
            rw [Option.some.injEq] at h3
            rw [← h3]
            exact h2
          · exact Or.inr ⟨r', h3, h2⟩

/-- The sequenced output exists when every call returned. -/
theorem collectCalls_isSome {α : Type} (l : List (Option (List α)))
    (h : ∀ o ∈ l, o.isSome = true) : (collectCalls l).isSome = true := by
  induction l with
  | nil => rfl
  | cons o rest ih =>
    have ho := h o (by simp)
    have hr := ih (fun o' ho' => h o' (by simp [ho']))
    cases o with
    | none => simp at ho
    | some x =>
      cases hc : collectCalls rest with
      | none => simp [hc] at hr
      | some rr => simp [collectCalls, hc]

/-- A culled octant adds nothing. -/
theorem ProcessOctant_cull (a : AVolumetricOctree) (fuel : ℕ) (C : FVector) (E : ℚ)
    (hb : a.DoesBoxIntersectShapes (FBox.ofCorners (C.sub (FVector.splat E))
      (C.add (FVector.splat E))) = false) :
    a.ProcessOctant fuel C E = some [] := by
  cases fuel <;> simp [AVolumetricOctree.ProcessOctant, hb]

/-- A leaf octant adds its own transform when its center passes the composite test. -/
theorem ProcessOctant_leaf (a : AVolumetricOctree) (fuel : ℕ) (C : FVector) (E : ℚ)
    (hb : a.DoesBoxIntersectShapes (FBox.ofCorners (C.sub (FVector.splat E))
      (C.add (FVector.splat E))) = true)
    (hl : E ≤ a.MinVoxelSize * (51 / 100)) :
    a.ProcessOctant fuel C E =
      if a.IsPointInsideShapes C then some [⟨C, FVector.splat ((E * 2) / 100)⟩] else some [] := by
  cases fuel <;> simp [AVolumetricOctree.ProcessOctant, hb, hl]

/-- An octant that must be split but has no level left does not return. -/
theorem ProcessOctant_zero (a : AVolumetricOctree) (C : FVector) (E : ℚ)
    (hb : a.DoesBoxIntersectShapes (FBox.ofCorners (C.sub (FVector.splat E))
      (C.add (FVector.splat E))) = true)
    (hl : ¬ E ≤ a.MinVoxelSize * (51 / 100)) :
    a.ProcessOctant 0 C E = none := by
  simp [AVolumetricOctree.ProcessOctant, hb, hl]

/-- An octant that is split sequences the calls on its eight children. -/
theorem ProcessOctant_succ (a : AVolumetricOctree) (n : ℕ) (C : FVector) (E : ℚ)
    (hb : a.DoesBoxIntersectShapes (FBox.ofCorners (C.sub (FVector.splat E))
      (C.add (FVector.splat E))) = true)
    (hl : ¬ E ≤ a.MinVoxelSize * (51 / 100)) :
    a.ProcessOctant (n + 1) C E =
      collectCalls (ChildSigns.map (fun s =>
        a.ProcessOctant n (C.add (ChildOffset (E * (1 / 2)) s)) (E * (1 / 2)))) := by
  simp [AVolumetricOctree.ProcessOctant, hb, hl]

/-- With enough levels for the extent to be halved down to the leaf size, `ProcessOctant`
returns. -/
theorem ProcessOctant_isSome_of_le (a : AVolumetricOctree) :
    ∀ (fuel : ℕ) (C : FVector) (E : ℚ), E ≤ a.MinVoxelSize * (51 / 100) * 2 ^ fuel →
      (a.ProcessOctant fuel C E).isSome = true := by
  intro fuel
  induction fuel with
  | zero =>
    intro C E hE
    have hl : E ≤ a.MinVoxelSize * (51 / 100) := by simpa using hE
    cases hb : a.DoesBoxIntersectShapes (FBox.ofCorners (C.sub (FVector.splat E))
      (C.add (FVector.splat E)))
    · rw [ProcessOctant_cull a 0 C E hb]; rfl
    · rw [ProcessOctant_leaf a 0 C E hb hl]
      split <;> rfl
  | succ n ih =>
    intro C E hE
    cases hb : a.DoesBoxIntersectShapes (FBox.ofCorners (C.sub (FVector.splat E))
      (C.add (FVector.splat E)))
    · rw [ProcessOctant_cull a (n + 1) C E hb]; rfl
    · by_cases hl : E ≤ a.MinVoxelSize * (51 / 100)
      · rw [ProcessOctant_leaf a (n + 1) C E hb hl]
        split <;> rfl
      · rw [ProcessOctant_succ a n C E hb hl]
        apply collectCalls_isSome
        intro o ho
        obtain ⟨s, _, rfl⟩ := List.mem_map.mp ho
        apply ih
        rw [pow_succ] at hE
        linarith

/-- The level count `octreeDepth` is the least number of halvings that reach the leaf size. -/
theorem octreeDepth_le_iff (m E : ℚ) (hm : 0 < m) (d : ℕ) :
    octreeDepth m E ≤ d ↔ E ≤ m * (51 / 100) * 2 ^ d := by
  unfold octreeDepth
  have ht : 0 < m * (51 / 100) := by positivity
  rw [← Nat.le_pow_iff_clog_le (by norm_num : 1 < 2), Nat.ceil_le, div_le_iff₀ ht]
  push_cast
  constructor <;> intro h <;> linarith

/-- `ProcessOctant` returns whenever it is given at least `octreeDepth` levels. -/
theorem ProcessOctant_isSome (a : AVolumetricOctree) (hm : 0 < a.MinVoxelSize)
    (fuel : ℕ) (C : FVector) (E : ℚ) (hf : octreeDepth a.MinVoxelSize E ≤ fuel) :
    (a.ProcessOctant fuel C E).isSome = true :=
  ProcessOctant_isSome_of_le a fuel C E ((octreeDepth_le_iff _ _ hm fuel).mp hf)

/-- The bounds, root center and root extent of `GenerateOctree` do not read the instance list. -/
theorem RootExtent_clear (a : AVolumetricOctree) :
    ({ a with Instances := [] } : AVolumetricOctree).RootExtent = a.RootExtent := rfl

/-- With a non-empty shape list and `MinVoxelSize >= 1`, `GenerateOctree` replaces the instance
list by the output of `ProcessOctant` on the root octant. -/
theorem GenerateOctree_valid (fuel : ℕ) (a : AVolumetricOctree) (hS : a.Shapes ≠ [])
    (hm : 1 ≤ a.MinVoxelSize) (r : List FTransform)
    (h : ({ a with Instances := [] } : AVolumetricOctree).ProcessOctant fuel a.RootCenter
      a.RootExtent = some r) :
    a.GenerateOctree fuel = some { a with Instances := r } := by
  have h1 : ¬ (a.Shapes.length = 0 ∨ a.MinVoxelSize < 1) := by
    rintro (h1 | h1)
    · exact hS (List.length_eq_zero.mp h1)
    · exact absurd hm (not_le.mpr h1)
  have h2 : ({ a with Instances := [] } : AVolumetricOctree).ProcessOctant fuel
      ({ a with Instances := [] } : AVolumetricOctree).RootCenter
      ({ a with Instances := [] } : AVolumetricOctree).RootExtent = some r := h
  simp only [AVolumetricOctree.GenerateOctree, h1, if_false, h2, List.nil_append]

/-- With an empty shape list or `MinVoxelSize < 1`, `GenerateOctree` returns at its first line and
leaves the actor as it was. -/
theorem GenerateOctree_guard (fuel : ℕ) (a : AVolumetricOctree)
    (h : a.Shapes.length = 0 ∨ a.MinVoxelSize < 1) : a.GenerateOctree fuel = some a := by
  simp only [AVolumetricOctree.GenerateOctree, h, if_true]

/-- `GenerateOctree` returns whenever it is given `octreeDepth` levels for its root extent. -/
theorem GenerateOctree_isSome (a : AVolumetricOctree) (fuel : ℕ)
    (hf : octreeDepth a.MinVoxelSize a.RootExtent ≤ fuel) :
    (a.GenerateOctree fuel).isSome = true := by
  by_cases h : a.Shapes.length = 0 ∨ a.MinVoxelSize < 1
  · rw [GenerateOctree_guard fuel a h]; rfl
  · push_neg at h
    have hm : (0 : ℚ) < a.MinVoxelSize := by linarith [h.2]
    have hsome := ProcessOctant_isSome ({ a with Instances := [] } : AVolumetricOctree) hm fuel
      a.RootCenter a.RootExtent hf
    obtain ⟨r, hr⟩ := Option.isSome_iff_exists.mp hsome
    rw [GenerateOctree_valid fuel a (fun hnil => h.1 (by simp [hnil])) h.2 r hr]
    rfl

/-- For a positive extent the level count `octreeDepth` is `ceil(log2(Extent / (0.51 * m)))`
over the reals, cut off at zero. -/
theorem octreeDepth_eq_ceil_logb (m E : ℚ) (hm : 0 < m) (hE : 0 < E) :
    octreeDepth m E = ⌈Real.logb 2 ((E : ℝ) / ((51 / 100 : ℝ) * (m : ℝ)))⌉₊ := by
  apply eq_of_forall_ge_iff
  intro d
  have hq : (0 : ℝ) < (E : ℝ) / ((51 / 100 : ℝ) * (m : ℝ)) := by
    have h1 : (0 : ℝ) < (E : ℝ) := by exact_mod_cast hE
    have h2 : (0 : ℝ) < (m : ℝ) := by exact_mod_cast hm
    positivity
  have ht : (0 : ℝ) < (51 / 100 : ℝ) * (m : ℝ) := by
    have h2 : (0 : ℝ) < (m : ℝ) := by exact_mod_cast hm
    positivity
  rw [octreeDepth_le_iff m E hm d, Nat.ceil_le,
    Real.logb_le_iff_le_rpow (by norm_num : (1 : ℝ) < 2) hq, Real.rpow_natCast,
    div_le_iff₀ ht]
  constructor
  · intro h
    have h' : ((E : ℚ) : ℝ) ≤ ((m * (51 / 100) * 2 ^ d : ℚ) : ℝ) := by exact_mod_cast h
    push_cast at h'
    linarith
  · intro h
    have h' : ((E : ℚ) : ℝ) ≤ ((m * (51 / 100) * 2 ^ d : ℚ) : ℝ) := by
      push_cast
      linarith
    exact_mod_cast h'

/-- Without rounding: for `MinVoxelSize > 0` and every extent, `ProcessOctant` returns within
`octreeDepth = max(0, ceil(log2(Extent / (0.51 * MinVoxelSize))))` levels, because the extent is
halved at each level; for `MinVoxelSize = 20` and extent 1000 that is 7 levels; and
`GenerateOctree` returns for every configuration. -/
theorem ProcessOctant_terminates :
    (∀ (a : AVolumetricOctree) (C : FVector) (E : ℚ) (fuel : ℕ), 0 < a.MinVoxelSize →
      octreeDepth a.MinVoxelSize E ≤ fuel → (a.ProcessOctant fuel C E).isSome = true) ∧
    (∀ m E : ℚ, 0 < m → 0 < E →
      octreeDepth m E = ⌈Real.logb 2 ((E : ℝ) / ((51 / 100 : ℝ) * (m : ℝ)))⌉₊) ∧
    (∀ m E : ℚ, 0 < m → E ≤ 0 → octreeDepth m E = 0) ∧
    octreeDepth 20 1000 = 7 ∧
    (∀ (a : AVolumetricOctree) (fuel : ℕ), octreeDepth a.MinVoxelSize a.RootExtent ≤ fuel →
      (a.GenerateOctree fuel).isSome = true) := by
  refine ⟨?_, ?_, ?_, ?_, ?_⟩
  · intro a C E fuel hm hf
    exact ProcessOctant_isSome a hm fuel C E hf
  · intro m E hm hE
    exact octreeDepth_eq_ceil_logb m E hm hE
  · intro m E hm hE
    apply Nat.le_zero.mp
    rw [octreeDepth_le_iff m E hm 0]
    have : 0 ≤ m * (51 / 100) * 2 ^ 0 := by positivity
    linarith
  · apply le_antisymm
    · rw [octreeDepth_le_iff 20 1000 (by norm_num) 7]
      norm_num
    · by_contra h
      have h6 : octreeDepth 20 1000 ≤ 6 := by omega
      rw [octreeDepth_le_iff 20 1000 (by norm_num) 6] at h6
      norm_num at h6
  · intro a fuel hf
    exact GenerateOctree_isSome a fuel hf

/-- The root octant of extent 1000 with voxel size 20 (`offCenterSphere`): seven levels are
enough, and the default actor's rebuild returns with five. -/
theorem ProcessOctant_terminates_witness :
    (offCenterSphere.ProcessOctant 7 ⟨0, 0, 0⟩ 1000).isSome = true ∧
    (defaultActor.GenerateOctree 5).isSome = true :=
  ⟨ProcessOctant_terminates.1 offCenterSphere ⟨0, 0, 0⟩ 1000 7 (by decide!)
      ((octreeDepth_le_iff 20 1000 (by norm_num) 7).mpr (by norm_num)),
   ProcessOctant_terminates.2.2.2.2 defaultActor 5 (by
      rw [show defaultActor.RootExtent = 240 by decide!]
      exact (octreeDepth_le_iff 20 240 (by norm_num) 5).mpr (by norm_num))⟩

/-! ## C5: the guard of `GenerateOctree` -/

/-- C5 (evaluation of the code): the rebuild of `smallSphere` leaves one instance; when the shape
list is then emptied, or `MinVoxelSize` lowered below 1, `GenerateOctree` returns at its guard,
before `ClearInstances`, and the instance of the earlier rebuild is still there. -/
theorem GenerateOctree_guard_keeps_instances :
    (smallSphere.GenerateOctree 0).map (fun a => a.Instances)
      = some [⟨⟨0, 0, 0⟩, FVector.splat (3 / 125)⟩] ∧
    (∀ fuel : ℕ, (rebuiltThenEmptied.GenerateOctree fuel).map (fun a => a.Instances)
      = some [⟨⟨0, 0, 0⟩, FVector.splat (3 / 125)⟩]) ∧
    (∀ fuel : ℕ, (rebuiltThenTooFine.GenerateOctree fuel).map (fun a => a.Instances)
      = some [⟨⟨0, 0, 0⟩, FVector.splat (3 / 125)⟩]) := by
  refine ⟨by decide!, ?_, ?_⟩
  · intro fuel
    rw [GenerateOctree_guard fuel rebuiltThenEmptied (Or.inl rfl)]
    rfl
  · intro fuel
    rw [GenerateOctree_guard fuel rebuiltThenTooFine (Or.inr (by decide!))]
    rfl

/-! ## C9: placements of an unsculpted configuration -/

/-- With an empty sculpt layer the composite test is the shape loop. -/
theorem IsPointInsideShapes_unsculpted (a : AVolumetricOctree) (P : FVector)
    (h : a.SculptedModifications = []) :
    a.IsPointInsideShapes P = AVolumetricOctree.CheckGeometry a.OperationMode P a.Shapes := by
  apply IsPointInsideShapes_of_find_none
  rw [h]
  rfl

/-- The three arguments of `Max3` are below it. -/
theorem le_Max3 (x y z : ℚ) : x ≤ Max3 x y z ∧ y ≤ Max3 x y z ∧ z ≤ Max3 x y z := by
  unfold Max3
  exact ⟨le_trans (le_max_left x y) (le_max_left _ z),
    le_trans (le_max_right x y) (le_max_left _ z), le_max_right _ z⟩

/-- A point inside a torus with non-negative radii is within `major + minor` of the center. -/
theorem torus_sizeSquared_le (s R z r : ℚ) (hs : 0 ≤ s) (hR : 0 ≤ R) (hr : 0 ≤ r)
    (h : DistTubeLE s R (z * z) (r * r) = true) : s + z * z ≤ (R + r) * (R + r) := by
  have h' := (DistTubeLE_iff s R (z * z) (r * r) hs).mp h
  have hs' : (0 : ℝ) ≤ (s : ℝ) := by exact_mod_cast hs
  have hR' : (0 : ℝ) ≤ (R : ℝ) := by exact_mod_cast hR
  have hr' : (0 : ℝ) ≤ (r : ℝ) := by exact_mod_cast hr
  have ht : 0 ≤ Real.sqrt (s : ℝ) := Real.sqrt_nonneg _
  have htt : Real.sqrt (s : ℝ) * Real.sqrt (s : ℝ) = (s : ℝ) := Real.mul_self_sqrt hs'
  push_cast at h'
  set t := Real.sqrt (s : ℝ) with ht_def
  have hzz : (0 : ℝ) ≤ (z : ℝ) * z := mul_self_nonneg _
  have hle : t ≤ R + r := by
    by_contra hlt
    push_neg at hlt
    have h1 : (r : ℝ) < t - R := by linarith
    have h2 : (r : ℝ) * r < (t - R) * (t - R) := by nlinarith
    nlinarith
  have hreal : (s : ℝ) + z * z ≤ ((R : ℝ) + r) * (R + r) := by nlinarith
  have hcast : ((s + z * z : ℚ) : ℝ) ≤ (((R + r) * (R + r) : ℚ) : ℝ) := by
    push_cast
    exact hreal
  exact_mod_cast hcast

/-- A point inside a sphere or a torus with non-negative dimensions is within `GetMaxRadius` of
the center, in squared form. -/
theorem sizeSquared_le_GetMaxRadius (P : FVector) (Shape : FVolumetricShape)
    (hx : 0 ≤ Shape.Dimensions.X) (hy : 0 ≤ Shape.Dimensions.Y)
    (hk : Shape.ShapeType ≠ EVolumetricShapeType.Box)
    (hin : IsPointInsideSingleShape P Shape = true) :
    0 ≤ Shape.GetMaxRadius ∧
      (P.sub Shape.Center).SizeSquared ≤ Shape.GetMaxRadius * Shape.GetMaxRadius := by
  obtain ⟨k, c, d⟩ := Shape
  obtain ⟨m1, m2, -⟩ := le_Max3 d.X d.Y d.Z
  cases k with
  | Sphere =>
    simp only [IsPointInsideSingleShape, decide_eq_true_eq] at hin
    simp only [FVolumetricShape.GetMaxRadius]
    simp only [reduceCtorEq, if_false, add_zero]
    simp only at hx hy m1 m2
    refine ⟨by linarith, le_trans hin ?_⟩
    nlinarith
  | Box => exact absurd rfl hk
  | Torus =>
    simp only [IsPointInsideSingleShape] at hin
    simp only [FVolumetricShape.GetMaxRadius, if_true]
    simp only at hx hy m1 m2
    have hs : (0 : ℚ) ≤ (P.sub c).X * (P.sub c).X + (P.sub c).Y * (P.sub c).Y := by
      nlinarith [mul_self_nonneg (P.sub c).X, mul_self_nonneg (P.sub c).Y]
    have h1 := torus_sizeSquared_le _ d.X (P.sub c).Z d.Y hs hx hy hin
    refine ⟨by linarith, ?_⟩
    unfold FVector.SizeSquared
    nlinarith

/-! ## The leaves of the root octant -/

/-- Every call sequenced into a result returned. -/
theorem collectCalls_some_of_mem {α : Type} (l : List (Option (List α))) (r : List α)
    (h : collectCalls l = some r) (o : Option (List α)) (ho : o ∈ l) : ∃ x, o = some x := by
  induction l generalizing r with
  | nil => simp at ho
  | cons o' rest ih =>
    cases o' with
    | none => simp [collectCalls] at h
    | some x =>
      cases hrest : collectCalls rest with
      | none => simp [collectCalls, hrest] at h
      | some rr =>
        rcases List.mem_cons.mp ho with h1 | h1
        · exact ⟨x, h1⟩
        · exact ih rr hrest h1

/-- With a non-empty sculpt layer no octant is culled. -/
theorem DoesBoxIntersectShapes_sculpted (a : AVolumetricOctree)
    (h : a.SculptedModifications ≠ []) (Box : FBox) : a.DoesBoxIntersectShapes Box = true := by
  have hpos : a.SculptedModifications.Num > 0 := by
    unfold SculptMap.Num
    exact List.length_pos.mpr h
  simp [AVolumetricOctree.DoesBoxIntersectShapes, hpos]

/-- A leaf octant is its own list of leaves. -/
theorem LeafOctants_leaf (m : ℚ) (fuel : ℕ) (C : FVector) (E : ℚ) (hl : E ≤ m * (51 / 100)) :
    LeafOctants m fuel C E = some [(C, E)] := by
  cases fuel <;> simp [LeafOctants, hl]

/-- The leaves of a split octant are those of its eight children. -/
theorem LeafOctants_succ (m : ℚ) (n : ℕ) (C : FVector) (E : ℚ) (hl : ¬ E ≤ m * (51 / 100)) :
    LeafOctants m (n + 1) C E = collectCalls (ChildSigns.map (fun s =>
      LeafOctants m n (C.add (ChildOffset (E * (1 / 2)) s)) (E * (1 / 2)))) := by
  simp [LeafOctants, hl]

/-- The list of leaves exists with enough levels. -/
theorem LeafOctants_isSome (m : ℚ) :
    ∀ (fuel : ℕ) (C : FVector) (E : ℚ), E ≤ m * (51 / 100) * 2 ^ fuel →
      (LeafOctants m fuel C E).isSome = true := by
  intro fuel
  induction fuel with
  | zero =>
    intro C E hE
    rw [LeafOctants_leaf m 0 C E (by simpa using hE)]
    rfl
  | succ n ih =>
    intro C E hE
    by_cases hl : E ≤ m * (51 / 100)
    · rw [LeafOctants_leaf m (n + 1) C E hl]
      rfl
    · rw [LeafOctants_succ m n C E hl]
      apply collectCalls_isSome
      intro o ho
      obtain ⟨s, _, rfl⟩ := List.mem_map.mp ho
      apply ih
      rw [pow_succ] at hE
      linarith

/-- With a non-empty sculpt layer, `ProcessOctant` adds exactly the leaves of the octant whose
center passes the composite test. -/
theorem ProcessOctant_sculpted_mem (a : AVolumetricOctree) (hsc : a.SculptedModifications ≠ []) :
    ∀ (fuel : ℕ) (C : FVector) (E : ℚ) (r : List FTransform) (L : List (FVector × ℚ)),
      a.ProcessOctant fuel C E = some r → LeafOctants a.MinVoxelSize fuel C E = some L →
      ∀ t : FTransform, t ∈ r ↔ ∃ l ∈ L, a.IsPointInsideShapes l.1 = true ∧
        t = ⟨l.1, FVector.splat ((l.2 * 2) / 100)⟩ := by
  intro fuel
  induction fuel with
  | zero =>
    intro C E r L hr hL t
    have hb := DoesBoxIntersectShapes_sculpted a hsc (FBox.ofCorners (C.sub (FVector.splat E))
      (C.add (FVector.splat E)))
    by_cases hl : E ≤ a.MinVoxelSize * (51 / 100)
    · rw [ProcessOctant_leaf a 0 C E hb hl] at hr
      rw [LeafOctants_leaf _ 0 C E hl, Option.some.injEq] at hL
      subst hL
      by_cases hin : a.IsPointInsideShapes C = true
      · rw [if_pos hin, Option.some.injEq] at hr
        subst hr
        simp [hin]
      · rw [if_neg hin, Option.some.injEq] at hr
        subst hr
        simp [hin]
    · rw [ProcessOctant_zero a C E hb hl] at hr
      simp at hr
  | succ n ih =>
    intro C E r L hr hL t
    have hb := DoesBoxIntersectShapes_sculpted a hsc (FBox.ofCorners (C.sub (FVector.splat E))
      (C.add (FVector.splat E)))
    by_cases hl : E ≤ a.MinVoxelSize * (51 / 100)
    · rw [ProcessOctant_leaf a (n + 1) C E hb hl] at hr
      rw [LeafOctants_leaf _ (n + 1) C E hl, Option.some.injEq] at hL
      subst hL
      by_cases hin : a.IsPointInsideShapes C = true
      · rw [if_pos hin, Option.some.injEq] at hr
        subst hr
        simp [hin]
      · rw [if_neg hin, Option.some.injEq] at hr
        subst hr
        simp [hin]
    · rw [ProcessOctant_succ a n C E hb hl] at hr
      rw [LeafOctants_succ _ n C E hl] at hL
      rw [collectCalls_mem _ r hr t]
      constructor
      · rintro ⟨r', hr', ht⟩
        obtain ⟨s, hs, hsr⟩ := List.mem_map.mp hr'
        obtain ⟨L', hL'⟩ := collectCalls_some_of_mem _ L hL
          (LeafOctants a.MinVoxelSize n (C.add (ChildOffset (E * (1 / 2)) s)) (E * (1 / 2)))
          (List.mem_map.mpr ⟨s, hs, rfl⟩)
        obtain ⟨l, hl1, hl2⟩ := (ih _ _ r' L' hsr hL' t).mp ht
        refine ⟨l, ?_, hl2⟩
        refine (collectCalls_mem _ L hL l).mpr ⟨L', ?_, hl1⟩
        rw [← hL']
        exact List.mem_map.mpr ⟨s, hs, rfl⟩
      · rintro ⟨l, hl1, hl2⟩
        obtain ⟨L', hL', hlL'⟩ := (collectCalls_mem _ L hL l).mp hl1
        obtain ⟨s, hs, hsL⟩ := List.mem_map.mp hL'
        obtain ⟨r', hr'⟩ := collectCalls_some_of_mem _ r hr
          (a.ProcessOctant n (C.add (ChildOffset (E * (1 / 2)) s)) (E * (1 / 2)))
          (List.mem_map.mpr ⟨s, hs, rfl⟩)
        refine ⟨r', ?_, (ih _ _ r' L' hr' hsL t).mpr ⟨l, hlL', hl2⟩⟩
        rw [← hr']
        exact List.mem_map.mpr ⟨s, hs, rfl⟩

/-! ## The tool on the lattice, without rounding -/

/-- After `TMap::Add` the key holds the new value and every other key holds what it held. -/
theorem SculptMap.Find_Add (m : SculptMap) (Key : FIntVector) (Value : ℚ) (i : FIntVector) :
    (SculptMap.Add m Key Value).Find i = if Key = i then some Value else m.Find i := by
  induction m with
  | nil => simp [SculptMap.Add, SculptMap.Find]
  | cons e rest ih =>
    obtain ⟨k, v⟩ := e
    by_cases hk : k = Key
    · subst hk
      by_cases hi : k = i
      · simp [SculptMap.Add, SculptMap.Find, hi]
      · simp [SculptMap.Add, SculptMap.Find, hi]
    · by_cases hi : k = i
      · subst hi
        have hne : ¬ Key = k := fun h => hk h.symm
        simp [SculptMap.Add, SculptMap.Find, hk, hne]
      · simp [SculptMap.Add, SculptMap.Find, hk, hi, ih]

/-- The loop range `lo .. hi` holds exactly the integers between its ends. -/
theorem mem_intRange (lo hi k : ℤ) : k ∈ intRange lo hi ↔ lo ≤ k ∧ k ≤ hi := by
  unfold intRange
  rw [List.mem_map]
  constructor
  · rintro ⟨n, hn, rfl⟩
    rw [List.mem_range] at hn
    omega
  · rintro ⟨h1, h2⟩
    refine ⟨(k - lo).toNat, ?_, ?_⟩
    · rw [List.mem_range]
      omega
    · omega

/-- A loop whose body either leaves `i` alone or, for the elements selected by `Q`, writes `v`
at `i`: afterwards `i` holds `v` when some element was selected and its former value otherwise. -/
theorem foldl_Find {β : Type} (step : SculptMap × Bool → β → SculptMap × Bool) (Q : β → Prop)
    (v : ℚ) (i : FIntVector)
    (hstep : ∀ st e, (Q e → (step st e).1.Find i = some v) ∧
      (¬ Q e → (step st e).1.Find i = st.1.Find i)) :
    ∀ (l : List β) (st : SculptMap × Bool),
      ((∃ e ∈ l, Q e) → (l.foldl step st).1.Find i = some v) ∧
      ((¬ ∃ e ∈ l, Q e) → (l.foldl step st).1.Find i = st.1.Find i) := by
  intro l
  induction l using List.reverseRecOn with
  | nil =>
    intro st
    simp
  | append_singleton l e ih =>
    intro st
    rw [List.foldl_append]
    simp only [List.foldl_cons, List.foldl_nil]
    by_cases hq : Q e
    · constructor
      · intro _
        exact (hstep _ e).1 hq
      · intro hno
        exact absurd ⟨e, by simp, hq⟩ hno
    · constructor
      · rintro ⟨e', he', hq'⟩
        rw [(hstep _ e).2 hq]
        rcases List.mem_append.mp he' with h1 | h1
        · exact (ih st).1 ⟨e', h1, hq'⟩
        · rw [List.mem_singleton] at h1
          subst h1
          exact absurd hq' hq
      · intro hno
        rw [(hstep _ e).2 hq]
        apply (ih st).2
        rintro ⟨e', he', hq'⟩
        exact hno ⟨e', by simp [he'], hq'⟩

/-- Rounding an integer gives the integer. -/
theorem RoundToInt_intCast (k : ℤ) : RoundToInt (k : ℚ) = k := by
  unfold RoundToInt
  rw [Int.floor_eq_iff]
  constructor
  · linarith
  · linarith

/-- For a non-zero voxel size the grid index of a lattice position is the index it was built
from: the key written by `ApplyTool` is the candidate's own index. -/
theorem GetGridIndex_lattice (a : AVolumetricOctree) (hm : a.MinVoxelSize ≠ 0) (x y z : ℤ) :
    a.GetGridIndex ⟨(x : ℚ) * a.MinVoxelSize, (y : ℚ) * a.MinVoxelSize,
      (z : ℚ) * a.MinVoxelSize⟩ = ⟨x, y, z⟩ := by
  simp only [AVolumetricOctree.GetGridIndex, mul_div_assoc, div_self hm, mul_one,
    RoundToInt_intCast]

/-- On one axis, a lattice coordinate within `r` of the tool position is within
`ceil(r / m)` cells of the rounded tool position: the candidate range misses nothing. -/
theorem axis_in_range (m c r : ℚ) (k : ℤ) (hm : 0 < m) (hr : 0 ≤ r)
    (h : ((k : ℚ) * m - c) * ((k : ℚ) * m - c) ≤ r * r) :
    -CeilToInt (r / m) ≤ k - RoundToInt (c / m) ∧ k - RoundToInt (c / m) ≤ CeilToInt (r / m) := by
  unfold CeilToInt RoundToInt
  have hsq : ((k : ℚ) * m - c) ^ 2 ≤ r ^ 2 := by
    rw [pow_two, pow_two]
    exact h
  obtain ⟨h1, h2⟩ := abs_le_of_sq_le_sq' hsq hr
  have hc : c = c / m * m := by field_simp
  have hrm : r = r / m * m := by field_simp
  set q := c / m with hq
  set R := r / m with hR
  have hfl : ((⌊q + 1 / 2⌋ : ℤ) : ℚ) ≤ q + 1 / 2 := Int.floor_le _
  have hfu : q + 1 / 2 < ((⌊q + 1 / 2⌋ : ℤ) : ℚ) + 1 := Int.lt_floor_add_one _
  have hce : R ≤ ((⌈R⌉ : ℤ) : ℚ) := Int.le_ceil _
  have hlo : -R ≤ (k : ℚ) - q := by
    by_contra hlt
    push_neg at hlt
    have : ((k : ℚ) - q + R) * m < 0 := mul_neg_of_neg_of_pos (by linarith) hm
    nlinarith
  have hhi : (k : ℚ) - q ≤ R := by
    by_contra hlt
    push_neg at hlt
    have : 0 < ((k : ℚ) - q - R) * m := mul_pos (by linarith) hm
    nlinarith
  constructor
  · have : ((-⌈R⌉ - 1 : ℤ) : ℚ) < ((k - ⌊q + 1 / 2⌋ : ℤ) : ℚ) := by
      push_cast
      linarith
    have := Int.cast_lt.mp this
    omega
  · have : ((k - ⌊q + 1 / 2⌋ : ℤ) : ℚ) < ((⌈R⌉ + 1 : ℤ) : ℚ) := by
      push_cast
      linarith
    have := Int.cast_lt.mp this
    omega

/-- One candidate cell: its own index receives the tool value when its lattice position is within
the radius, and nothing else changes. -/
theorem ApplyToolCell_Find (a : AVolumetricOctree) (hm : a.MinVoxelSize ≠ 0) (c : FVector)
    (r : ℚ) (bAdd : Bool) (Idx : FIntVector) (x y z : ℤ) (i : FIntVector)
    (st : SculptMap × Bool) :
    ((DistLE ⟨((Idx.X + x : ℤ) : ℚ) * a.MinVoxelSize, ((Idx.Y + y : ℤ) : ℚ) * a.MinVoxelSize,
          ((Idx.Z + z : ℤ) : ℚ) * a.MinVoxelSize⟩ c r = true ∧
        (⟨Idx.X + x, Idx.Y + y, Idx.Z + z⟩ : FIntVector) = i) →
      (a.ApplyToolCell c r bAdd Idx x y z st).1.Find i = some (if bAdd then 1 else -1)) ∧
    (¬ (DistLE ⟨((Idx.X + x : ℤ) : ℚ) * a.MinVoxelSize, ((Idx.Y + y : ℤ) : ℚ) * a.MinVoxelSize,
          ((Idx.Z + z : ℤ) : ℚ) * a.MinVoxelSize⟩ c r = true ∧
        (⟨Idx.X + x, Idx.Y + y, Idx.Z + z⟩ : FIntVector) = i) →
      (a.ApplyToolCell c r bAdd Idx x y z st).1.Find i = st.1.Find i) := by
  have hkey := GetGridIndex_lattice a hm (Idx.X + x) (Idx.Y + y) (Idx.Z + z)
  unfold AVolumetricOctree.ApplyToolCell
  simp only [hkey]
  constructor
  · rintro ⟨hd, hi⟩
    rw [if_pos hd]
    simp only [SculptMap.Find_Add, hi, if_true]
  · intro hno
    by_cases hd : DistLE ⟨((Idx.X + x : ℤ) : ℚ) * a.MinVoxelSize,
        ((Idx.Y + y : ℤ) : ℚ) * a.MinVoxelSize, ((Idx.Z + z : ℤ) : ℚ) * a.MinVoxelSize⟩ c r = true
    · rw [if_pos hd]
      have hi : ¬ (⟨Idx.X + x, Idx.Y + y, Idx.Z + z⟩ : FIntVector) = i := fun h => hno ⟨hd, h⟩
      simp only [SculptMap.Find_Add, hi, if_false]
    · rw [if_neg hd]

/-- The sculpt layer after the three loops of `ApplyTool`, for a positive voxel size: an index
whose lattice position is within the radius of the tool position holds the tool value, and every
other index holds what it held before. -/
theorem ApplyToolLoops_Find (a : AVolumetricOctree) (hm : 0 < a.MinVoxelSize) (c : FVector)
    (r : ℚ) (bAdd : Bool) (i : FIntVector) :
    (DistLE ⟨(i.X : ℚ) * a.MinVoxelSize, (i.Y : ℚ) * a.MinVoxelSize,
        (i.Z : ℚ) * a.MinVoxelSize⟩ c r = true →
      (a.ApplyToolLoops c r bAdd).1.Find i = some (if bAdd then 1 else -1)) ∧
    (¬ DistLE ⟨(i.X : ℚ) * a.MinVoxelSize, (i.Y : ℚ) * a.MinVoxelSize,
        (i.Z : ℚ) * a.MinVoxelSize⟩ c r = true →
      (a.ApplyToolLoops c r bAdd).1.Find i = a.SculptedModifications.Find i) := by
  have hm0 : a.MinVoxelSize ≠ 0 := ne_of_gt hm
  set Rg := CeilToInt (r / a.MinVoxelSize) with hRg
  set Idx := a.GetGridIndex c with hIdx
  have inner : ∀ (z y : ℤ), ∀ st : SculptMap × Bool, _ :=
    fun z y => foldl_Find
      (fun st x => a.ApplyToolCell c r bAdd Idx x y z st)
      (fun x => DistLE ⟨((Idx.X + x : ℤ) : ℚ) * a.MinVoxelSize,
          ((Idx.Y + y : ℤ) : ℚ) * a.MinVoxelSize, ((Idx.Z + z : ℤ) : ℚ) * a.MinVoxelSize⟩ c r
            = true ∧ (⟨Idx.X + x, Idx.Y + y, Idx.Z + z⟩ : FIntVector) = i)
      (if bAdd then 1 else -1) i
      (fun st x => ApplyToolCell_Find a hm0 c r bAdd Idx x y z i st)
      (intRange (-Rg) Rg)
  have middle : ∀ (z : ℤ), ∀ st : SculptMap × Bool, _ :=
    fun z => foldl_Find
      (fun st y => (intRange (-Rg) Rg).foldl
        (fun st x => a.ApplyToolCell c r bAdd Idx x y z st) st)
      (fun y => ∃ x ∈ intRange (-Rg) Rg,
        DistLE ⟨((Idx.X + x : ℤ) : ℚ) * a.MinVoxelSize,
          ((Idx.Y + y : ℤ) : ℚ) * a.MinVoxelSize, ((Idx.Z + z : ℤ) : ℚ) * a.MinVoxelSize⟩ c r
            = true ∧ (⟨Idx.X + x, Idx.Y + y, Idx.Z + z⟩ : FIntVector) = i)
      (if bAdd then 1 else -1) i
      (fun st y => inner z y st)
      (intRange (-Rg) Rg)
  have outer := foldl_Find
      (fun st z => (intRange (-Rg) Rg).foldl (fun st y => (intRange (-Rg) Rg).foldl
        (fun st x => a.ApplyToolCell c r bAdd Idx x y z st) st) st)
      (fun z => ∃ y ∈ intRange (-Rg) Rg, ∃ x ∈ intRange (-Rg) Rg,
        DistLE ⟨((Idx.X + x : ℤ) : ℚ) * a.MinVoxelSize,
          ((Idx.Y + y : ℤ) : ℚ) * a.MinVoxelSize, ((Idx.Z + z : ℤ) : ℚ) * a.MinVoxelSize⟩ c r
            = true ∧ (⟨Idx.X + x, Idx.Y + y, Idx.Z + z⟩ : FIntVector) = i)
      (if bAdd then 1 else -1) i
      (fun st z => middle z st)
      (intRange (-Rg) Rg) (a.SculptedModifications, false)
  have hloops : a.ApplyToolLoops c r bAdd =
      (intRange (-Rg) Rg).foldl (fun st z => (intRange (-Rg) Rg).foldl
        (fun st y => (intRange (-Rg) Rg).foldl
          (fun st x => a.ApplyToolCell c r bAdd Idx x y z st) st) st)
        (a.SculptedModifications, false) := rfl
  rw [hloops]
  have hiff : (∃ z ∈ intRange (-Rg) Rg, ∃ y ∈ intRange (-Rg) Rg, ∃ x ∈ intRange (-Rg) Rg,
        DistLE ⟨((Idx.X + x : ℤ) : ℚ) * a.MinVoxelSize,
          ((Idx.Y + y : ℤ) : ℚ) * a.MinVoxelSize, ((Idx.Z + z : ℤ) : ℚ) * a.MinVoxelSize⟩ c r
            = true ∧ (⟨Idx.X + x, Idx.Y + y, Idx.Z + z⟩ : FIntVector) = i) ↔
      DistLE ⟨(i.X : ℚ) * a.MinVoxelSize, (i.Y : ℚ) * a.MinVoxelSize,
        (i.Z : ℚ) * a.MinVoxelSize⟩ c r = true := by
    constructor
    · rintro ⟨z, -, y, -, x, -, hd, rfl⟩
      exact hd
    · intro hd
      have hd' := hd
      simp only [DistLE, FVector.sub, FVector.SizeSquared, decide_eq_true_eq] at hd'
      obtain ⟨hr0, hss⟩ := hd'
      have hX := mul_self_nonneg ((i.X : ℚ) * a.MinVoxelSize - c.X)
      have hY := mul_self_nonneg ((i.Y : ℚ) * a.MinVoxelSize - c.Y)
      have hZ := mul_self_nonneg ((i.Z : ℚ) * a.MinVoxelSize - c.Z)
      have rx := axis_in_range a.MinVoxelSize c.X r i.X hm hr0 (by linarith)
      have ry := axis_in_range a.MinVoxelSize c.Y r i.Y hm hr0 (by linarith)
      have rz := axis_in_range a.MinVoxelSize c.Z r i.Z hm hr0 (by linarith)
      have eX : Idx.X + (i.X - Idx.X) = i.X := by ring
      have eY : Idx.Y + (i.Y - Idx.Y) = i.Y := by ring
      have eZ : Idx.Z + (i.Z - Idx.Z) = i.Z := by ring
      refine ⟨i.Z - Idx.Z, (mem_intRange _ _ _).mpr rz, i.Y - Idx.Y, (mem_intRange _ _ _).mpr ry,
        i.X - Idx.X, (mem_intRange _ _ _).mpr rx, ?_, ?_⟩
      · rw [eX, eY, eZ]
        exact hd
      · rw [eX, eY, eZ]
  rw [← hiff]
  exact outer

/-- The method `GenerateOctree` does not touch the sculpt layer. -/
theorem GenerateOctree_SculptedModifications (fuel : ℕ) (a a' : AVolumetricOctree)
    (h : a.GenerateOctree fuel = some a') :
    a'.SculptedModifications = a.SculptedModifications := by
  by_cases hg : a.Shapes.length = 0 ∨ a.MinVoxelSize < 1
  · rw [GenerateOctree_guard fuel a hg, Option.some.injEq] at h
    rw [← h]
  · simp only [AVolumetricOctree.GenerateOctree, hg, if_false] at h
    split at h
    · rw [Option.some.injEq] at h
      rw [← h]
    · simp at h

/-- Without rounding: for a positive voxel size, any tool center, radius and mode and any prior
sculpt layer, `ApplyTool` returns (given enough levels for its rebuild), and afterwards every grid index whose
lattice position `i * MinVoxelSize` is at Euclidean distance at most the radius from the tool
center holds `+1.0` (add) or `-1.0` (remove), and every other index holds exactly what the layer
held before (absent stays absent). -/
theorem ApplyTool_sculpt_layer (a : AVolumetricOctree) (c : FVector) (r : ℚ) (bAdd : Bool)
    (hm : 0 < a.MinVoxelSize) :
    ∃ N : ℕ, ∀ fuel : ℕ, N ≤ fuel → ∃ a', a.ApplyTool fuel c r bAdd = some a' ∧
      ∀ i : FIntVector,
        (Real.sqrt ((((⟨(i.X : ℚ) * a.MinVoxelSize, (i.Y : ℚ) * a.MinVoxelSize,
            (i.Z : ℚ) * a.MinVoxelSize⟩ : FVector).sub c).SizeSquared : ℚ) : ℝ) ≤ (r : ℝ) →
          a'.SculptedModifications.Find i = some (if bAdd then 1 else -1)) ∧
        (¬ Real.sqrt ((((⟨(i.X : ℚ) * a.MinVoxelSize, (i.Y : ℚ) * a.MinVoxelSize,
            (i.Z : ℚ) * a.MinVoxelSize⟩ : FVector).sub c).SizeSquared : ℚ) : ℝ) ≤ (r : ℝ) →
          a'.SculptedModifications.Find i = a.SculptedModifications.Find i) := by
  refine ⟨octreeDepth a.MinVoxelSize
    ({ a with SculptedModifications := (a.ApplyToolLoops c r bAdd).1 } :
      AVolumetricOctree).RootExtent, ?_⟩
  intro fuel hfuel
  have hlayer : ∃ a', a.ApplyTool fuel c r bAdd = some a' ∧
      a'.SculptedModifications = (a.ApplyToolLoops c r bAdd).1 := by
    unfold AVolumetricOctree.ApplyTool
    by_cases hch : (a.ApplyToolLoops c r bAdd).2 = true
    · simp only [hch, if_true]
      obtain ⟨a', ha'⟩ := Option.isSome_iff_exists.mp (GenerateOctree_isSome
        ({ a with SculptedModifications := (a.ApplyToolLoops c r bAdd).1 } : AVolumetricOctree)
        fuel hfuel)
      exact ⟨a', ha', GenerateOctree_SculptedModifications fuel _ a' ha'⟩
    · simp only [hch]
      exact ⟨_, rfl, rfl⟩
  obtain ⟨a', ha', hsc⟩ := hlayer
  refine ⟨a', ha', ?_⟩
  intro i
  rw [hsc, ← DistLE_iff]
  exact ApplyToolLoops_Find a hm c r bAdd i

/-- The tool applied to `smallSphere` (voxel size 20) at the off-origin center `(3, 5, -7)` with
radius 40 in add mode. -/
theorem ApplyTool_sculpt_layer_witness :
    0 < smallSphere.MinVoxelSize ∧
    ∃ N : ℕ, ∀ fuel : ℕ, N ≤ fuel → ∃ a', smallSphere.ApplyTool fuel ⟨3, 5, -7⟩ 40 true = some a' ∧
      ∀ i : FIntVector,
        (Real.sqrt ((((⟨(i.X : ℚ) * smallSphere.MinVoxelSize,
            (i.Y : ℚ) * smallSphere.MinVoxelSize,
            (i.Z : ℚ) * smallSphere.MinVoxelSize⟩ : FVector).sub ⟨3, 5, -7⟩).SizeSquared : ℚ) : ℝ)
              ≤ ((40 : ℚ) : ℝ) →
          a'.SculptedModifications.Find i = some (if true = true then 1 else -1)) ∧
        (¬ Real.sqrt ((((⟨(i.X : ℚ) * smallSphere.MinVoxelSize,
            (i.Y : ℚ) * smallSphere.MinVoxelSize,
            (i.Z : ℚ) * smallSphere.MinVoxelSize⟩ : FVector).sub ⟨3, 5, -7⟩).SizeSquared : ℚ) : ℝ)
              ≤ ((40 : ℚ) : ℝ) →
          a'.SculptedModifications.Find i = smallSphere.SculptedModifications.Find i) :=
  ⟨by decide!, ApplyTool_sculpt_layer smallSphere ⟨3, 5, -7⟩ 40 true (by decide!)⟩

/-! ## C14: the order of the shape list -/

/-- The shape loop gives the same answer on two shape lists that are permutations of each
other. -/
theorem CheckGeometry_perm (Mode : EGridOperation) (P : FVector)
    (l₁ l₂ : List FVolumetricShape) (h : l₁.Perm l₂) :
    AVolumetricOctree.CheckGeometry Mode P l₁ = AVolumetricOctree.CheckGeometry Mode P l₂ := by
  rw [Bool.eq_iff_iff]
  cases Mode with
  | Union =>
    rw [CheckGeometry_union, CheckGeometry_union]
    constructor
    · rintro ⟨s, hs, hin⟩
      exact ⟨s, h.mem_iff.mp hs, hin⟩
    · rintro ⟨s, hs, hin⟩
      exact ⟨s, h.mem_iff.mpr hs, hin⟩
  | Intersection =>
    rw [CheckGeometry_intersection, CheckGeometry_intersection]
    constructor
    · intro hall s hs
      exact hall s (h.mem_iff.mpr hs)
    · intro hall s hs
      exact hall s (h.mem_iff.mp hs)

/-- C14: for every point, mode and sculpt layer, two actors that differ only in the order of
their shape lists give the same `IsPointInsideShapes` result. -/
theorem IsPointInsideShapes_perm (a : AVolumetricOctree) (Shapes₂ : List FVolumetricShape)
    (P : FVector) (h : a.Shapes.Perm Shapes₂) :
    a.IsPointInsideShapes P =
      ({ a with Shapes := Shapes₂ } : AVolumetricOctree).IsPointInsideShapes P := by
  simp only [AVolumetricOctree.IsPointInsideShapes, AVolumetricOctree.GetGridIndex,
    CheckGeometry_perm a.OperationMode P a.Shapes Shapes₂ h]

/-- The two spheres of `twoSpheres` in the other order, at the center of the second sphere. -/
theorem IsPointInsideShapes_perm_witness :
    twoSpheres.Shapes.Perm [sphereAt 1 ⟨5, 0, 0⟩, sphereAt 1 ⟨0, 0, 0⟩] ∧
    twoSpheres.IsPointInsideShapes ⟨5, 0, 0⟩ =
      ({ twoSpheres with Shapes := [sphereAt 1 ⟨5, 0, 0⟩, sphereAt 1 ⟨0, 0, 0⟩] } :
        AVolumetricOctree).IsPointInsideShapes ⟨5, 0, 0⟩ :=
  ⟨List.Perm.swap _ _ _,
    IsPointInsideShapes_perm twoSpheres [sphereAt 1 ⟨5, 0, 0⟩, sphereAt 1 ⟨0, 0, 0⟩] ⟨5, 0, 0⟩
      (List.Perm.swap _ _ _)⟩


/-! ## C13: the split into eight children -/

/-- The sign triples of the loops are exactly the triples of `±1`. -/
theorem mem_ChildSigns (s : ℚ × ℚ × ℚ) :
    s ∈ ChildSigns ↔
      (s.1 = 1 ∨ s.1 = -1) ∧ (s.2.1 = 1 ∨ s.2.1 = -1) ∧ (s.2.2 = 1 ∨ s.2.2 = -1) := by
  obtain ⟨x, y, z⟩ := s
  simp only [ChildSigns, List.mem_cons, Prod.mk.injEq, List.mem_singleton, List.not_mem_nil,
    or_false]
  constructor
  · intro h
    rcases h with h | h | h | h | h | h | h | h <;> obtain ⟨rfl, rfl, rfl⟩ := h <;> simp
  · rintro ⟨hx | hx, hy | hy, hz | hz⟩ <;> subst hx <;> subst hy <;> subst hz <;> simp

/-- On one axis, the child interval lies in the parent interval. -/
theorem child_axis_subset {K : Type} [LinearOrderedField K] (c E x σ : K)
    (hσ : σ = 1 ∨ σ = -1) (hE : 0 ≤ E) (h : |x - (c + σ * (E * (1 / 2)))| ≤ E * (1 / 2)) :
    |x - c| ≤ E := by
  rw [abs_le] at h ⊢
  rcases hσ with rfl | rfl <;> constructor <;> linarith [h.1, h.2]

/-- The extent halved `octreeDepth` times is at most the leaf size, and no smaller number of
halvings achieves that. -/
theorem octreeDepth_least (m E : ℚ) (hm : 0 < m) :
    E / 2 ^ octreeDepth m E ≤ 51 / 100 * m ∧
    ∀ j : ℕ, E / 2 ^ j ≤ 51 / 100 * m → octreeDepth m E ≤ j := by
  have hpow : ∀ j : ℕ, (0 : ℚ) < 2 ^ j := fun j => by positivity
  constructor
  · rw [div_le_iff₀ (hpow _)]
    have := (octreeDepth_le_iff m E hm (octreeDepth m E)).mp (le_refl _)
    linarith
  · intro j hj
    rw [div_le_iff₀ (hpow _)] at hj
    rw [octreeDepth_le_iff m E hm j]
    linarith

/-! ## When `ApplyTool` rebuilds, without rounding -/

/-- A loop whose body sets the flag for the elements selected by `Q` and leaves the state alone
for the others: the flag is set when some element was selected (or it was set before), and the
state is untouched otherwise. -/
theorem foldl_changed {β : Type} (step : SculptMap × Bool → β → SculptMap × Bool)
    (Q : β → Prop)
    (hstep : ∀ st e, (Q e → (step st e).2 = true) ∧ (¬ Q e → step st e = st)) :
    ∀ (l : List β) (st : SculptMap × Bool),
      ((∃ e ∈ l, Q e) → (l.foldl step st).2 = true) ∧
      ((¬ ∃ e ∈ l, Q e) → l.foldl step st = st) ∧
      (st.2 = true → (l.foldl step st).2 = true) := by
  intro l
  induction l with
  | nil =>
    intro st
    simp
  | cons e l ih =>
    intro st
    simp only [List.foldl_cons]
    have hkeep : st.2 = true → (step st e).2 = true := by
      intro h
      by_cases hq : Q e
      · exact (hstep st e).1 hq
      · rw [(hstep st e).2 hq]
        exact h
    refine ⟨?_, ?_, ?_⟩
    · rintro ⟨e', he', hq'⟩
      rcases List.mem_cons.mp he' with h1 | h1
      · subst h1
        exact (ih _).2.2 ((hstep st e').1 hq')
      · exact (ih _).1 ⟨e', h1, hq'⟩
    · intro hno
      have hq : ¬ Q e := fun hq => hno ⟨e, by simp, hq⟩
      rw [(hstep st e).2 hq]
      apply (ih st).2.1
      rintro ⟨e', he', hq'⟩
      exact hno ⟨e', by simp [he'], hq'⟩
    · intro h
      exact (ih _).2.2 (hkeep h)

/-- One candidate cell sets `bChanged` when its lattice position is within the radius and leaves
the state alone otherwise. -/
theorem ApplyToolCell_changed (a : AVolumetricOctree) (c : FVector) (r : ℚ) (bAdd : Bool)
    (Idx : FIntVector) (x y z : ℤ) (st : SculptMap × Bool) :
    (DistLE ⟨((Idx.X + x : ℤ) : ℚ) * a.MinVoxelSize, ((Idx.Y + y : ℤ) : ℚ) * a.MinVoxelSize,
        ((Idx.Z + z : ℤ) : ℚ) * a.MinVoxelSize⟩ c r = true →
      (a.ApplyToolCell c r bAdd Idx x y z st).2 = true) ∧
    (¬ DistLE ⟨((Idx.X + x : ℤ) : ℚ) * a.MinVoxelSize, ((Idx.Y + y : ℤ) : ℚ) * a.MinVoxelSize,
        ((Idx.Z + z : ℤ) : ℚ) * a.MinVoxelSize⟩ c r = true →
      a.ApplyToolCell c r bAdd Idx x y z st = st) := by
  unfold AVolumetricOctree.ApplyToolCell
  constructor
  · intro hd
    simp only [hd, if_true]
  · intro hd
    simp only [hd]
    rfl

/-- The candidate cube of `ApplyTool` holds a cell within the radius exactly when some grid
index has its lattice position within the radius (positive voxel size). -/
theorem exists_candidate_iff (a : AVolumetricOctree) (hm : 0 < a.MinVoxelSize) (c : FVector)
    (r : ℚ) :
    (∃ z ∈ intRange (-CeilToInt (r / a.MinVoxelSize)) (CeilToInt (r / a.MinVoxelSize)),
      ∃ y ∈ intRange (-CeilToInt (r / a.MinVoxelSize)) (CeilToInt (r / a.MinVoxelSize)),
      ∃ x ∈ intRange (-CeilToInt (r / a.MinVoxelSize)) (CeilToInt (r / a.MinVoxelSize)),
        DistLE ⟨(((a.GetGridIndex c).X + x : ℤ) : ℚ) * a.MinVoxelSize,
          (((a.GetGridIndex c).Y + y : ℤ) : ℚ) * a.MinVoxelSize,
          (((a.GetGridIndex c).Z + z : ℤ) : ℚ) * a.MinVoxelSize⟩ c r = true) ↔
    ∃ i : FIntVector, DistLE ⟨(i.X : ℚ) * a.MinVoxelSize, (i.Y : ℚ) * a.MinVoxelSize,
      (i.Z : ℚ) * a.MinVoxelSize⟩ c r = true := by
  constructor
  · rintro ⟨z, -, y, -, x, -, hd⟩
    exact ⟨⟨(a.GetGridIndex c).X + x, (a.GetGridIndex c).Y + y, (a.GetGridIndex c).Z + z⟩, hd⟩
  · rintro ⟨i, hd⟩
    have hd' := hd
    simp only [DistLE, FVector.sub, FVector.SizeSquared, decide_eq_true_eq] at hd'
    obtain ⟨hr0, hss⟩ := hd'
    have hX := mul_self_nonneg ((i.X : ℚ) * a.MinVoxelSize - c.X)
    have hY := mul_self_nonneg ((i.Y : ℚ) * a.MinVoxelSize - c.Y)
    have hZ := mul_self_nonneg ((i.Z : ℚ) * a.MinVoxelSize - c.Z)
    have rx := axis_in_range a.MinVoxelSize c.X r i.X hm hr0 (by linarith)
    have ry := axis_in_range a.MinVoxelSize c.Y r i.Y hm hr0 (by linarith)
    have rz := axis_in_range a.MinVoxelSize c.Z r i.Z hm hr0 (by linarith)
    have eX : (a.GetGridIndex c).X + (i.X - (a.GetGridIndex c).X) = i.X := by ring
    have eY : (a.GetGridIndex c).Y + (i.Y - (a.GetGridIndex c).Y) = i.Y := by ring
    have eZ : (a.GetGridIndex c).Z + (i.Z - (a.GetGridIndex c).Z) = i.Z := by ring
    refine ⟨i.Z - (a.GetGridIndex c).Z, (mem_intRange _ _ _).mpr rz,
      i.Y - (a.GetGridIndex c).Y, (mem_intRange _ _ _).mpr ry,
      i.X - (a.GetGridIndex c).X, (mem_intRange _ _ _).mpr rx, ?_⟩
    rw [eX, eY, eZ]
    exact hd

/-- The flag `bChanged` after the loops of `ApplyTool`, and the layer when it stays unset. -/
theorem ApplyToolLoops_changed (a : AVolumetricOctree) (hm : 0 < a.MinVoxelSize) (c : FVector)
    (r : ℚ) (bAdd : Bool) :
    ((∃ i : FIntVector, DistLE ⟨(i.X : ℚ) * a.MinVoxelSize, (i.Y : ℚ) * a.MinVoxelSize,
        (i.Z : ℚ) * a.MinVoxelSize⟩ c r = true) →
      (a.ApplyToolLoops c r bAdd).2 = true) ∧
    ((¬ ∃ i : FIntVector, DistLE ⟨(i.X : ℚ) * a.MinVoxelSize, (i.Y : ℚ) * a.MinVoxelSize,
        (i.Z : ℚ) * a.MinVoxelSize⟩ c r = true) →
      a.ApplyToolLoops c r bAdd = (a.SculptedModifications, false)) := by
  set Rg := CeilToInt (r / a.MinVoxelSize) with hRg
  set Idx := a.GetGridIndex c with hIdx
  have inner : ∀ (z y : ℤ), ∀ st : SculptMap × Bool, _ :=
    fun z y => foldl_changed
      (fun st x => a.ApplyToolCell c r bAdd Idx x y z st)
      (fun x => DistLE ⟨((Idx.X + x : ℤ) : ℚ) * a.MinVoxelSize,
          ((Idx.Y + y : ℤ) : ℚ) * a.MinVoxelSize, ((Idx.Z + z : ℤ) : ℚ) * a.MinVoxelSize⟩ c r
            = true)
      (fun st x => ApplyToolCell_changed a c r bAdd Idx x y z st)
      (intRange (-Rg) Rg)
  have middle : ∀ (z : ℤ), ∀ st : SculptMap × Bool, _ :=
    fun z => foldl_changed
      (fun st y => (intRange (-Rg) Rg).foldl
        (fun st x => a.ApplyToolCell c r bAdd Idx x y z st) st)
      (fun y => ∃ x ∈ intRange (-Rg) Rg,
        DistLE ⟨((Idx.X + x : ℤ) : ℚ) * a.MinVoxelSize,
          ((Idx.Y + y : ℤ) : ℚ) * a.MinVoxelSize, ((Idx.Z + z : ℤ) : ℚ) * a.MinVoxelSize⟩ c r
            = true)
      (fun st y => ⟨(inner z y st).1, (inner z y st).2.1⟩)
      (intRange (-Rg) Rg)
  have outer := foldl_changed
      (fun st z => (intRange (-Rg) Rg).foldl (fun st y => (intRange (-Rg) Rg).foldl
        (fun st x => a.ApplyToolCell c r bAdd Idx x y z st) st) st)
      (fun z => ∃ y ∈ intRange (-Rg) Rg, ∃ x ∈ intRange (-Rg) Rg,
        DistLE ⟨((Idx.X + x : ℤ) : ℚ) * a.MinVoxelSize,
          ((Idx.Y + y : ℤ) : ℚ) * a.MinVoxelSize, ((Idx.Z + z : ℤ) : ℚ) * a.MinVoxelSize⟩ c r
            = true)
      (fun st z => ⟨(middle z st).1, (middle z st).2.1⟩)
      (intRange (-Rg) Rg) (a.SculptedModifications, false)
  have hloops : a.ApplyToolLoops c r bAdd =
      (intRange (-Rg) Rg).foldl (fun st z => (intRange (-Rg) Rg).foldl
        (fun st y => (intRange (-Rg) Rg).foldl
          (fun st x => a.ApplyToolCell c r bAdd Idx x y z st) st) st)
        (a.SculptedModifications, false) := rfl
  rw [hloops, ← exists_candidate_iff a hm c r]
  exact ⟨outer.1, outer.2.1⟩

/-- Without rounding: for a positive voxel size, `ApplyTool` sets `bChanged`, and so calls
`GenerateOctree`,
exactly when some grid index `i` has its lattice position `i * MinVoxelSize` at Euclidean
distance at most the radius from the tool center; when there is no such index (as for a negative
radius) it returns with the sculpt layer and the placement list as they were. -/
theorem ApplyTool_rebuild_iff_touched (a : AVolumetricOctree) (c : FVector) (r : ℚ)
    (bAdd : Bool) (hm : 0 < a.MinVoxelSize) :
    ((a.ApplyToolLoops c r bAdd).2 = true ↔
      ∃ i : FIntVector, Real.sqrt ((((⟨(i.X : ℚ) * a.MinVoxelSize, (i.Y : ℚ) * a.MinVoxelSize,
        (i.Z : ℚ) * a.MinVoxelSize⟩ : FVector).sub c).SizeSquared : ℚ) : ℝ) ≤ (r : ℝ)) ∧
    (∀ fuel : ℕ, a.ApplyTool fuel c r bAdd =
      if (a.ApplyToolLoops c r bAdd).2 then
        ({ a with SculptedModifications := (a.ApplyToolLoops c r bAdd).1 } :
          AVolumetricOctree).GenerateOctree fuel
      else some { a with SculptedModifications := (a.ApplyToolLoops c r bAdd).1 }) ∧
    ((¬ ∃ i : FIntVector, Real.sqrt ((((⟨(i.X : ℚ) * a.MinVoxelSize,
        (i.Y : ℚ) * a.MinVoxelSize, (i.Z : ℚ) * a.MinVoxelSize⟩ : FVector).sub c).SizeSquared
          : ℚ) : ℝ) ≤ (r : ℝ)) →
      ∀ fuel : ℕ, a.ApplyTool fuel c r bAdd = some a) ∧
    (r < 0 → ¬ ∃ i : FIntVector, Real.sqrt ((((⟨(i.X : ℚ) * a.MinVoxelSize,
        (i.Y : ℚ) * a.MinVoxelSize, (i.Z : ℚ) * a.MinVoxelSize⟩ : FVector).sub c).SizeSquared
          : ℚ) : ℝ) ≤ (r : ℝ)) := by
  have hex : (∃ i : FIntVector, Real.sqrt ((((⟨(i.X : ℚ) * a.MinVoxelSize,
        (i.Y : ℚ) * a.MinVoxelSize, (i.Z : ℚ) * a.MinVoxelSize⟩ : FVector).sub c).SizeSquared
          : ℚ) : ℝ) ≤ (r : ℝ)) ↔
      ∃ i : FIntVector, DistLE ⟨(i.X : ℚ) * a.MinVoxelSize, (i.Y : ℚ) * a.MinVoxelSize,
        (i.Z : ℚ) * a.MinVoxelSize⟩ c r = true := by
    constructor
    · rintro ⟨i, hi⟩
      exact ⟨i, (DistLE_iff _ _ _).mpr hi⟩
    · rintro ⟨i, hi⟩
      exact ⟨i, (DistLE_iff _ _ _).mp hi⟩
  obtain ⟨hyes, hno⟩ := ApplyToolLoops_changed a hm c r bAdd
  rw [hex]
  refine ⟨?_, fun fuel => rfl, ?_, ?_⟩
  · constructor
    · intro h
      by_contra hnone
      rw [hno hnone] at h
      simp at h
    · exact hyes
  · intro hnone fuel
    unfold AVolumetricOctree.ApplyTool
    rw [hno hnone]
    simp
  · rintro hr ⟨i, hi⟩
    simp only [DistLE, decide_eq_true_eq] at hi
    linarith [hi.1]

/-- The tool applied to `smallSphere` (voxel size 20) at `(3, 5, -7)`: with radius 40 the cell of
the origin is touched, and with radius `-1` no cell is. -/
theorem ApplyTool_rebuild_iff_touched_witness :
    (smallSphere.ApplyToolLoops ⟨3, 5, -7⟩ 40 true).2 = true ∧
    (∀ fuel : ℕ, smallSphere.ApplyTool fuel ⟨3, 5, -7⟩ (-1) true = some smallSphere) :=
  ⟨(ApplyTool_rebuild_iff_touched smallSphere ⟨3, 5, -7⟩ 40 true (by decide!)).1.mpr
      ⟨⟨0, 0, 0⟩, (DistLE_iff _ _ _).mp (by decide!)⟩,
    (ApplyTool_rebuild_iff_touched smallSphere ⟨3, 5, -7⟩ (-1) true (by decide!)).2.2.1
      ((ApplyTool_rebuild_iff_touched smallSphere ⟨3, 5, -7⟩ (-1) true (by decide!)).2.2.2
        (by norm_num))⟩


/-! ## C15: divisions by `MinVoxelSize` -/

/-- For a non-zero voxel size the checked head of `ApplyTool` computes the `Range` and the
`CenterIdx` of the source. -/
theorem ApplyToolHeadChecked_of_ne_zero (a : AVolumetricOctree) (c : FVector) (r : ℚ)
    (hm : a.MinVoxelSize ≠ 0) :
    a.ApplyToolHeadChecked c r = some (CeilToInt (r / a.MinVoxelSize), a.GetGridIndex c) := by
  simp [AVolumetricOctree.ApplyToolHeadChecked, AVolumetricOctree.GetGridIndexChecked,
    AVolumetricOctree.GetGridIndex, checkedDiv, hm]

/-- For a zero voxel size the first statement of `ApplyTool` divides by zero, whatever the tool
position and radius. -/
theorem ApplyToolHeadChecked_of_eq_zero (a : AVolumetricOctree) (c : FVector) (r : ℚ)
    (hm : a.MinVoxelSize = 0) : a.ApplyToolHeadChecked c r = none := by
  simp [AVolumetricOctree.ApplyToolHeadChecked, checkedDiv, hm]

/-- C15 (evaluation of the code): with `MinVoxelSize = 0`, `GenerateOctree` returns at its guard
for every level bound, before any division, but `ApplyTool((0, 0, 0), 50, add)` evaluates
`ToolRadius / MinVoxelSize` on its first line: the checked head of `ApplyTool` reports the
division by zero, and so does `GetGridIndex` for the tool position. -/
theorem ApplyTool_divides_by_zero :
    zeroVoxel.MinVoxelSize = 0 ∧
    (∀ fuel : ℕ, zeroVoxel.GenerateOctree fuel = some zeroVoxel) ∧
    checkedDiv 50 zeroVoxel.MinVoxelSize = none ∧
    zeroVoxel.GetGridIndexChecked ⟨0, 0, 0⟩ = none ∧
    zeroVoxel.ApplyToolHeadChecked ⟨0, 0, 0⟩ 50 = none := by
  refine ⟨rfl, ?_, by decide!, by decide!, by decide!⟩
  intro fuel
  exact GenerateOctree_guard fuel zeroVoxel (Or.inr (by decide!))


/-! ## The root cube and the shapes, without rounding -/

/-- A point inside a torus is within the minor radius of the torus plane, in squared form. -/
theorem torus_z_sq_le (s R z r : ℚ) (hs : 0 ≤ s)
    (h : DistTubeLE s R (z * z) (r * r) = true) : z * z ≤ r * r := by
  have h' := (DistTubeLE_iff s R (z * z) (r * r) hs).mp h
  have hsq : (0 : ℝ) ≤ (Real.sqrt (s : ℝ) - (R : ℝ)) ^ 2 := sq_nonneg _
  have hcast : ((z * z : ℚ) : ℝ) ≤ ((r * r : ℚ) : ℝ) := by linarith
  exact_mod_cast hcast

/-- From `x² ≤ b²` with `b ≥ 0` to `|x| ≤ b`, in product form. -/
theorem abs_le_of_mul_self_le (x b : ℚ) (hb : 0 ≤ b) (h : x * x ≤ b * b) : |x| ≤ b := by
  apply abs_le.mpr
  apply abs_le_of_sq_le_sq' _ hb
  rw [pow_two, pow_two]
  exact h

/-- A point inside a shape with non-negative dimensions is within the shape's `Extent` of step 1
of `GenerateOctree` on every axis. -/
theorem inside_le_BoundsExtent (P : FVector) (Shape : FVolumetricShape)
    (hx : 0 ≤ Shape.Dimensions.X) (hy : 0 ≤ Shape.Dimensions.Y)
    (hin : IsPointInsideSingleShape P Shape = true) :
    |P.X - Shape.Center.X| ≤ Shape.BoundsExtent.X ∧
    |P.Y - Shape.Center.Y| ≤ Shape.BoundsExtent.Y ∧
    |P.Z - Shape.Center.Z| ≤ Shape.BoundsExtent.Z := by
  obtain ⟨k, c, d⟩ := Shape
  have hX := mul_self_nonneg (P.X - c.X)
  have hY := mul_self_nonneg (P.Y - c.Y)
  have hZ := mul_self_nonneg (P.Z - c.Z)
  cases k with
  | Sphere =>
    simp only [IsPointInsideSingleShape, FVector.sub, FVector.SizeSquared,
      decide_eq_true_eq] at hin
    simp only [FVolumetricShape.BoundsExtent, FVector.splat]
    simp only at hx
    exact ⟨abs_le_of_mul_self_le _ _ hx (by linarith), abs_le_of_mul_self_le _ _ hx (by linarith),
      abs_le_of_mul_self_le _ _ hx (by linarith)⟩
  | Box =>
    simp only [IsPointInsideSingleShape, FVector.sub, Bool.and_eq_true,
      decide_eq_true_eq] at hin
    exact ⟨hin.1, hin.2.1, hin.2.2⟩
  | Torus =>
    simp only [IsPointInsideSingleShape, FVector.sub] at hin
    simp only [FVolumetricShape.BoundsExtent]
    simp only at hx hy
    have hs : (0 : ℚ) ≤ (P.X - c.X) * (P.X - c.X) + (P.Y - c.Y) * (P.Y - c.Y) := by linarith
    have h1 := torus_sizeSquared_le _ d.X (P.Z - c.Z) d.Y hs hx hy hin
    have h2 := torus_z_sq_le _ d.X (P.Z - c.Z) d.Y hs hin
    have hRr : 0 ≤ d.X + d.Y := by linarith
    exact ⟨abs_le_of_mul_self_le _ _ hRr (by linarith),
      abs_le_of_mul_self_le _ _ hRr (by linarith), abs_le_of_mul_self_le _ _ hy h2⟩

/-- The box grown by a point holds the point. -/
theorem addPoint_self (b : FBox) (v : FVector) : (b.addPoint v).IsInsideOrOn v := by
  unfold FBox.addPoint FBox.IsInsideOrOn
  by_cases hv : b.IsValid = true
  · simp only [hv, if_true]
    exact ⟨min_le_right _ _, le_max_right _ _, min_le_right _ _, le_max_right _ _,
      min_le_right _ _, le_max_right _ _⟩
  · simp only [hv]
    exact ⟨le_refl _, le_refl _, le_refl _, le_refl _, le_refl _, le_refl _⟩

/-- A valid box grown by a point still holds what it held. -/
theorem addPoint_mono (b : FBox) (v p : FVector) (hv : b.IsValid = true)
    (hp : b.IsInsideOrOn p) : (b.addPoint v).IsInsideOrOn p := by
  unfold FBox.addPoint
  unfold FBox.IsInsideOrOn at hp ⊢
  simp only [hv, if_true]
  obtain ⟨h1, h2, h3, h4, h5, h6⟩ := hp
  exact ⟨le_trans (min_le_left _ _) h1, le_trans h2 (le_max_left _ _),
    le_trans (min_le_left _ _) h3, le_trans h4 (le_max_left _ _),
    le_trans (min_le_left _ _) h5, le_trans h6 (le_max_left _ _)⟩

/-- The box grown by a point is valid. -/
theorem addPoint_valid (b : FBox) (v : FVector) : (b.addPoint v).IsValid = true := by
  unfold FBox.addPoint
  by_cases hv : b.IsValid = true
  · simp only [hv, if_true]
  · simp only [hv]
    rfl

/-- The loop over the shapes in step 1 of `GenerateOctree`: the resulting box keeps what a valid
starting box held and holds both corners `Center ± Extent` of every shape of the list. -/
theorem shapes_fold_bounds (l : List FVolumetricShape) :
    ∀ b : FBox,
      (b.IsValid = true → ∀ p, b.IsInsideOrOn p →
        (l.foldl (fun (acc : FBox) Shape =>
          (acc.addPoint (Shape.Center.add Shape.BoundsExtent)).addPoint
            (Shape.Center.sub Shape.BoundsExtent)) b).IsInsideOrOn p) ∧
      (∀ s ∈ l,
        (l.foldl (fun (acc : FBox) Shape =>
          (acc.addPoint (Shape.Center.add Shape.BoundsExtent)).addPoint
            (Shape.Center.sub Shape.BoundsExtent)) b).IsInsideOrOn
              (s.Center.add s.BoundsExtent) ∧
        (l.foldl (fun (acc : FBox) Shape =>
          (acc.addPoint (Shape.Center.add Shape.BoundsExtent)).addPoint
            (Shape.Center.sub Shape.BoundsExtent)) b).IsInsideOrOn
              (s.Center.sub s.BoundsExtent)) := by
  induction l with
  | nil =>
    intro b
    simp
  | cons s0 rest ih =>
    intro b
    simp only [List.foldl_cons]
    have hvalid : ((b.addPoint (s0.Center.add s0.BoundsExtent)).addPoint
        (s0.Center.sub s0.BoundsExtent)).IsValid = true := addPoint_valid _ _
    obtain ⟨ih1, ih2⟩ := ih ((b.addPoint (s0.Center.add s0.BoundsExtent)).addPoint
        (s0.Center.sub s0.BoundsExtent))
    constructor
    · intro hb p hp
      exact ih1 hvalid p (addPoint_mono _ _ _ (addPoint_valid _ _) (addPoint_mono _ _ _ hb hp))
    · intro s hs
      rcases List.mem_cons.mp hs with h | h
      · subst h
        exact ⟨ih1 hvalid _ (addPoint_mono _ _ _ (addPoint_valid _ _) (addPoint_self _ _)),
          ih1 hvalid _ (addPoint_self _ _)⟩
      · exact ih2 s h

/-- A box that holds both corners `Center ± Extent` holds every point within `Extent` of
`Center` on each axis. -/
theorem IsInsideOrOn_of_corners (b : FBox) (c e p : FVector)
    (h1 : b.IsInsideOrOn (c.add e)) (h2 : b.IsInsideOrOn (c.sub e))
    (hp : |p.X - c.X| ≤ e.X ∧ |p.Y - c.Y| ≤ e.Y ∧ |p.Z - c.Z| ≤ e.Z) : b.IsInsideOrOn p := by
  unfold FBox.IsInsideOrOn at h1 h2 ⊢
  simp only [FVector.add, FVector.sub] at h1 h2
  obtain ⟨hx, hy, hz⟩ := hp
  rw [abs_le] at hx hy hz
  refine ⟨?_, ?_, ?_, ?_, ?_, ?_⟩ <;> linarith [h1.1, h1.2.1, h1.2.2.1, h1.2.2.2.1,
    h1.2.2.2.2.1, h1.2.2.2.2.2, h2.1, h2.2.1, h2.2.2.1, h2.2.2.2.1, h2.2.2.2.2.1,
    h2.2.2.2.2.2, hx.1, hx.2, hy.1, hy.2, hz.1, hz.2]

/-- The box expanded by a non-negative margin holds what the box held. -/
theorem ExpandBy_mono (b : FBox) (W : ℚ) (hW : 0 ≤ W) (p : FVector) (hp : b.IsInsideOrOn p) :
    (b.ExpandBy W).IsInsideOrOn p := by
  unfold FBox.IsInsideOrOn at hp ⊢
  simp only [FBox.ExpandBy, FBox.ofCorners, FVector.sub, FVector.add, FVector.splat]
  obtain ⟨h1, h2, h3, h4, h5, h6⟩ := hp
  refine ⟨?_, ?_, ?_, ?_, ?_, ?_⟩ <;> linarith

/-- The root cube of `GenerateOctree` holds `GlobalBounds`. -/
theorem root_cube_contains_bounds (a : AVolumetricOctree) (p : FVector)
    (hp : a.GlobalBounds.IsInsideOrOn p) :
    |p.X - a.RootCenter.X| ≤ a.RootExtent ∧ |p.Y - a.RootCenter.Y| ≤ a.RootExtent ∧
      |p.Z - a.RootCenter.Z| ≤ a.RootExtent := by
  unfold FBox.IsInsideOrOn at hp
  obtain ⟨h1, h2, h3, h4, h5, h6⟩ := hp
  obtain ⟨m1, m2, m3⟩ := le_Max3 (a.GlobalBounds.GetSize).X (a.GlobalBounds.GetSize).Y
    (a.GlobalBounds.GetSize).Z
  simp only [FBox.GetSize, FVector.sub] at m1 m2 m3
  simp only [AVolumetricOctree.RootCenter, AVolumetricOctree.RootExtent, FBox.GetCenter,
    FBox.GetSize, FVector.scale, FVector.add, FVector.sub]
  refine ⟨abs_le.mpr ⟨?_, ?_⟩, abs_le.mpr ⟨?_, ?_⟩, abs_le.mpr ⟨?_, ?_⟩⟩ <;> linarith

/-- The `GlobalBounds` of `GenerateOctree` hold every point that is within a shape's `Extent` of
the shape's center on each axis. -/
theorem GlobalBounds_contains (a : AVolumetricOctree) (s : FVolumetricShape) (hs : s ∈ a.Shapes)
    (p : FVector)
    (hp : |p.X - s.Center.X| ≤ s.BoundsExtent.X ∧ |p.Y - s.Center.Y| ≤ s.BoundsExtent.Y ∧
      |p.Z - s.Center.Z| ≤ s.BoundsExtent.Z) :
    a.GlobalBounds.IsInsideOrOn p := by
  obtain ⟨h1, h2⟩ := (shapes_fold_bounds a.Shapes FBox.ForceInit).2 s hs
  have hfold := IsInsideOrOn_of_corners _ s.Center s.BoundsExtent p h1 h2 hp
  unfold AVolumetricOctree.GlobalBounds
  by_cases hn : a.SculptedModifications.Num > 0
  · simp only [hn, if_true]
    exact ExpandBy_mono _ 500 (by norm_num) p hfold
  · simp only [hn, if_false]
    exact hfold

/-- Without rounding: for a non-empty shape list with non-negative dimensions, the root cube of
`GenerateOctree` (center of `GlobalBounds`, half-extent `0.6 ×` its largest side) holds
`GlobalBounds`, and every point inside a shape of the list is within the shape's per-kind extent
of its center (sphere `(r, r, r)`, box `Dimensions`, torus `(R + r, R + r, r)`), hence inside
`GlobalBounds` and inside the root cube. -/
theorem root_cube_contains_shapes (a : AVolumetricOctree) (_hS : a.Shapes ≠ [])
    (hdim : ∀ s ∈ a.Shapes,
      0 ≤ s.Dimensions.X ∧ 0 ≤ s.Dimensions.Y ∧ 0 ≤ s.Dimensions.Z) :
    (∀ p : FVector, a.GlobalBounds.IsInsideOrOn p →
      |p.X - a.RootCenter.X| ≤ a.RootExtent ∧ |p.Y - a.RootCenter.Y| ≤ a.RootExtent ∧
        |p.Z - a.RootCenter.Z| ≤ a.RootExtent) ∧
    (∀ s ∈ a.Shapes, ∀ p : FVector, IsPointInsideSingleShape p s = true →
      (|p.X - s.Center.X| ≤ s.BoundsExtent.X ∧ |p.Y - s.Center.Y| ≤ s.BoundsExtent.Y ∧
        |p.Z - s.Center.Z| ≤ s.BoundsExtent.Z) ∧
      a.GlobalBounds.IsInsideOrOn p ∧
      (|p.X - a.RootCenter.X| ≤ a.RootExtent ∧ |p.Y - a.RootCenter.Y| ≤ a.RootExtent ∧
        |p.Z - a.RootCenter.Z| ≤ a.RootExtent)) := by
  refine ⟨fun p hp => root_cube_contains_bounds a p hp, ?_⟩
  intro s hs p hin
  obtain ⟨hx, hy, -⟩ := hdim s hs
  have hext := inside_le_BoundsExtent p s hx hy hin
  have hgb := GlobalBounds_contains a s hs p hext
  exact ⟨hext, hgb, root_cube_contains_bounds a p hgb⟩

/-- The default actor (one sphere of radius 200): its root cube has half-extent 240 and holds the
sphere. -/
theorem root_cube_contains_shapes_witness :
    defaultActor.RootExtent = 240 ∧
    (∀ s ∈ defaultActor.Shapes, ∀ p : FVector, IsPointInsideSingleShape p s = true →
      (|p.X - s.Center.X| ≤ s.BoundsExtent.X ∧ |p.Y - s.Center.Y| ≤ s.BoundsExtent.Y ∧
        |p.Z - s.Center.Z| ≤ s.BoundsExtent.Z) ∧
      defaultActor.GlobalBounds.IsInsideOrOn p ∧
      (|p.X - defaultActor.RootCenter.X| ≤ defaultActor.RootExtent ∧
        |p.Y - defaultActor.RootCenter.Y| ≤ defaultActor.RootExtent ∧
        |p.Z - defaultActor.RootCenter.Z| ≤ defaultActor.RootExtent)) :=
  ⟨by decide!, (root_cube_contains_shapes defaultActor (by decide!) (by
    intro s hs
    have hs' : s = sphereAt 200 ⟨0, 0, 0⟩ := List.mem_singleton.mp hs
    subst hs'
    exact ⟨by decide!, by decide!, by decide!⟩)).2⟩


/-! ## Culling without rounding -/

/-- A leaf octant of the recursion without cull test. -/
theorem ProcessOctantNoCull_leaf (a : AVolumetricOctree) (fuel : ℕ) (C : FVector) (E : ℚ)
    (hl : E ≤ a.MinVoxelSize * (51 / 100)) :
    a.ProcessOctantNoCull fuel C E =
      if a.IsPointInsideShapes C then some [⟨C, FVector.splat ((E * 2) / 100)⟩] else some [] := by
  cases fuel <;> simp [AVolumetricOctree.ProcessOctantNoCull, hl]

/-- An octant that must be split, without a level left, in the recursion without cull test. -/
theorem ProcessOctantNoCull_zero (a : AVolumetricOctree) (C : FVector) (E : ℚ)
    (hl : ¬ E ≤ a.MinVoxelSize * (51 / 100)) :
    a.ProcessOctantNoCull 0 C E = none := by
  simp [AVolumetricOctree.ProcessOctantNoCull, hl]

/-- A split octant of the recursion without cull test. -/
theorem ProcessOctantNoCull_succ (a : AVolumetricOctree) (n : ℕ) (C : FVector) (E : ℚ)
    (hl : ¬ E ≤ a.MinVoxelSize * (51 / 100)) :
    a.ProcessOctantNoCull (n + 1) C E =
      collectCalls (ChildSigns.map (fun s =>
        a.ProcessOctantNoCull n (C.add (ChildOffset (E * (1 / 2)) s)) (E * (1 / 2)))) := by
  simp [AVolumetricOctree.ProcessOctantNoCull, hl]

/-- The recursion without cull test returns with enough levels. -/
theorem ProcessOctantNoCull_isSome_of_le (a : AVolumetricOctree) :
    ∀ (fuel : ℕ) (C : FVector) (E : ℚ), E ≤ a.MinVoxelSize * (51 / 100) * 2 ^ fuel →
      (a.ProcessOctantNoCull fuel C E).isSome = true := by
  intro fuel
  induction fuel with
  | zero =>
    intro C E hE
    rw [ProcessOctantNoCull_leaf a 0 C E (by simpa using hE)]
    split <;> rfl
  | succ n ih =>
    intro C E hE
    by_cases hl : E ≤ a.MinVoxelSize * (51 / 100)
    · rw [ProcessOctantNoCull_leaf a (n + 1) C E hl]
      split <;> rfl
    · rw [ProcessOctantNoCull_succ a n C E hl]
      apply collectCalls_isSome
      intro o ho
      obtain ⟨s, _, rfl⟩ := List.mem_map.mp ho
      apply ih
      rw [pow_succ] at hE
      linarith

/-- Every transform added by the recursion without cull test lies in the closed cube of the
octant and passes the composite test. -/
theorem ProcessOctantNoCull_mem (a : AVolumetricOctree) :
    ∀ (fuel : ℕ) (C : FVector) (E : ℚ) (r : List FTransform), 0 ≤ E →
      a.ProcessOctantNoCull fuel C E = some r → ∀ t ∈ r,
        (|t.Location.X - C.X| ≤ E ∧ |t.Location.Y - C.Y| ≤ E ∧ |t.Location.Z - C.Z| ≤ E) ∧
        a.IsPointInsideShapes t.Location = true := by
  intro fuel
  induction fuel with
  | zero =>
    intro C E r hE h t ht
    by_cases hl : E ≤ a.MinVoxelSize * (51 / 100)
    · rw [ProcessOctantNoCull_leaf a 0 C E hl] at h
      by_cases hin : a.IsPointInsideShapes C = true
      · rw [if_pos hin, Option.some.injEq] at h
        subst h
        simp only [List.mem_singleton] at ht
        subst ht
        simp [hE, hin]
      · rw [if_neg hin, Option.some.injEq] at h
        subst h
        simp at ht
    · rw [ProcessOctantNoCull_zero a C E hl] at h
      simp at h
  | succ n ih =>
    intro C E r hE h t ht
    by_cases hl : E ≤ a.MinVoxelSize * (51 / 100)
    · rw [ProcessOctantNoCull_leaf a (n + 1) C E hl] at h
      by_cases hin : a.IsPointInsideShapes C = true
      · rw [if_pos hin, Option.some.injEq] at h
        subst h
        simp only [List.mem_singleton] at ht
        subst ht
        simp [hE, hin]
      · rw [if_neg hin, Option.some.injEq] at h
        subst h
        simp at ht
    · rw [ProcessOctantNoCull_succ a n C E hl] at h
      obtain ⟨r', hr', htr'⟩ := (collectCalls_mem _ r h t).mp ht
      obtain ⟨s, hs, hsr⟩ := List.mem_map.mp hr'
      obtain ⟨h1, h2, h3⟩ := (mem_ChildSigns s).mp hs
      have hE2 : 0 ≤ E * (1 / 2) := by linarith
      obtain ⟨⟨hx, hy, hz⟩, hin⟩ := ih _ _ r' hE2 hsr t htr'
      simp only [FVector.add, ChildOffset] at hx hy hz
      exact ⟨⟨child_axis_subset _ _ _ _ h1 hE hx, child_axis_subset _ _ _ _ h2 hE hy,
        child_axis_subset _ _ _ _ h3 hE hz⟩, hin⟩

/-- The per-kind `Extent` of a shape with non-negative dimensions is at most `GetMaxRadius` on
every axis. -/
theorem BoundsExtent_le_GetMaxRadius (s : FVolumetricShape) (hx : 0 ≤ s.Dimensions.X) :
    s.BoundsExtent.X ≤ s.GetMaxRadius ∧ s.BoundsExtent.Y ≤ s.GetMaxRadius ∧
      s.BoundsExtent.Z ≤ s.GetMaxRadius := by
  obtain ⟨k, c, d⟩ := s
  obtain ⟨m1, m2, m3⟩ := le_Max3 d.X d.Y d.Z
  simp only at hx
  cases k with
  | Sphere =>
    simp only [FVolumetricShape.BoundsExtent, FVolumetricShape.GetMaxRadius, FVector.splat,
      reduceCtorEq, if_false, add_zero]
    exact ⟨m1, m1, m1⟩
  | Box =>
    simp only [FVolumetricShape.BoundsExtent, FVolumetricShape.GetMaxRadius,
      reduceCtorEq, if_false, add_zero]
    exact ⟨m1, m2, m3⟩
  | Torus =>
    simp only [FVolumetricShape.BoundsExtent, FVolumetricShape.GetMaxRadius, if_true]
    refine ⟨?_, ?_, ?_⟩ <;> linarith

/-- Two boxes with a common point intersect. -/
theorem Intersect_of_common_point (b o : FBox) (p : FVector) (hb : b.IsInsideOrOn p)
    (ho : o.IsInsideOrOn p) : b.Intersect o = true := by
  unfold FBox.IsInsideOrOn at hb ho
  obtain ⟨b1, b2, b3, b4, b5, b6⟩ := hb
  obtain ⟨o1, o2, o3, o4, o5, o6⟩ := ho
  have hX : ¬ (b.Min.X > o.Max.X ∨ o.Min.X > b.Max.X) := by
    rintro (h | h) <;> linarith
  have hY : ¬ (b.Min.Y > o.Max.Y ∨ o.Min.Y > b.Max.Y) := by
    rintro (h | h) <;> linarith
  have hZ : ¬ (b.Min.Z > o.Max.Z ∨ o.Min.Z > b.Max.Z) := by
    rintro (h | h) <;> linarith
  simp only [FBox.Intersect, hX, hY, hZ, if_false]

/-- A point inside a shape with non-negative dimensions lies in the bounding cube of the shape
that the cull test uses. -/
theorem inside_ShapeBounds (p : FVector) (s : FVolumetricShape)
    (hx : 0 ≤ s.Dimensions.X) (hy : 0 ≤ s.Dimensions.Y)
    (hin : IsPointInsideSingleShape p s = true) : s.ShapeBounds.IsInsideOrOn p := by
  obtain ⟨e1, e2, e3⟩ := inside_le_BoundsExtent p s hx hy hin
  obtain ⟨g1, g2, g3⟩ := BoundsExtent_le_GetMaxRadius s hx
  rw [abs_le] at e1 e2 e3
  simp only [FBox.IsInsideOrOn, FVolumetricShape.ShapeBounds, FBox.ofCorners, FVector.sub,
    FVector.add, FVector.splat]
  refine ⟨?_, ?_, ?_, ?_, ?_, ?_⟩ <;> linarith [e1.1, e1.2, e2.1, e2.2, e3.1, e3.2]

/-- Without sculpting and with non-negative shape dimensions, a box that holds a point passing
the composite test is not culled. -/
theorem DoesBoxIntersectShapes_of_inside (a : AVolumetricOctree)
    (hsc : a.SculptedModifications = [])
    (hdim : ∀ s ∈ a.Shapes, 0 ≤ s.Dimensions.X ∧ 0 ≤ s.Dimensions.Y ∧ 0 ≤ s.Dimensions.Z)
    (Box : FBox) (p : FVector) (hp : Box.IsInsideOrOn p)
    (hin : a.IsPointInsideShapes p = true) : a.DoesBoxIntersectShapes Box = true := by
  rw [IsPointInsideShapes_unsculpted a p hsc] at hin
  have hnum : ¬ a.SculptedModifications.Num > 0 := by
    rw [hsc]
    simp [SculptMap.Num]
  unfold AVolumetricOctree.DoesBoxIntersectShapes
  simp only [hnum, if_false]
  cases hmode : a.OperationMode with
  | Union =>
    rw [hmode] at hin
    obtain ⟨s, hs, hs_in⟩ := (CheckGeometry_union p a.Shapes).mp hin
    simp only [if_true]
    rw [List.any_eq_true]
    exact ⟨s, hs, Intersect_of_common_point _ _ p hp
      (inside_ShapeBounds p s (hdim s hs).1 (hdim s hs).2.1 hs_in)⟩
  | Intersection =>
    rw [hmode] at hin
    have hall := (CheckGeometry_intersection p a.Shapes).mp hin
    simp only [reduceCtorEq, if_false]
    rw [List.all_eq_true]
    intro s hs
    exact Intersect_of_common_point _ _ p hp
      (inside_ShapeBounds p s (hdim s hs).1 (hdim s hs).2.1 (hall s hs))

/-- Without sculpting and with non-negative shape dimensions, whenever the recursion without
cull test returns a list for an octant of extent `≥ 0`, `ProcessOctant` returns the same list. -/
theorem ProcessOctant_eq_of_NoCull (a : AVolumetricOctree)
    (hsc : a.SculptedModifications = [])
    (hdim : ∀ s ∈ a.Shapes, 0 ≤ s.Dimensions.X ∧ 0 ≤ s.Dimensions.Y ∧ 0 ≤ s.Dimensions.Z) :
    ∀ (fuel : ℕ) (C : FVector) (E : ℚ) (r : List FTransform), 0 ≤ E →
      a.ProcessOctantNoCull fuel C E = some r → a.ProcessOctant fuel C E = some r := by
  have culled : ∀ (fuel : ℕ) (C : FVector) (E : ℚ) (r : List FTransform), 0 ≤ E →
      a.ProcessOctantNoCull fuel C E = some r →
      a.DoesBoxIntersectShapes (FBox.ofCorners (C.sub (FVector.splat E))
        (C.add (FVector.splat E))) = false → r = [] := by
    intro fuel C E r hE h hb
    apply List.eq_nil_iff_forall_not_mem.mpr
    intro t ht
    obtain ⟨⟨hx, hy, hz⟩, hin⟩ := ProcessOctantNoCull_mem a fuel C E r hE h t ht
    rw [abs_le] at hx hy hz
    have hbox : (FBox.ofCorners (C.sub (FVector.splat E))
        (C.add (FVector.splat E))).IsInsideOrOn t.Location := by
      simp only [FBox.IsInsideOrOn, FBox.ofCorners, FVector.sub, FVector.add, FVector.splat]
      refine ⟨?_, ?_, ?_, ?_, ?_, ?_⟩ <;> linarith [hx.1, hx.2, hy.1, hy.2, hz.1, hz.2]
    rw [DoesBoxIntersectShapes_of_inside a hsc hdim _ t.Location hbox hin] at hb
    exact absurd hb (by simp)
  intro fuel
  induction fuel with
  | zero =>
    intro C E r hE h
    cases hb : a.DoesBoxIntersectShapes (FBox.ofCorners (C.sub (FVector.splat E))
      (C.add (FVector.splat E)))
    · rw [ProcessOctant_cull a 0 C E hb, culled 0 C E r hE h hb]
    · by_cases hl : E ≤ a.MinVoxelSize * (51 / 100)
      · rw [ProcessOctant_leaf a 0 C E hb hl, ← h, ProcessOctantNoCull_leaf a 0 C E hl]
      · rw [ProcessOctantNoCull_zero a C E hl] at h
        simp at h
  | succ n ih =>
    intro C E r hE h
    cases hb : a.DoesBoxIntersectShapes (FBox.ofCorners (C.sub (FVector.splat E))
      (C.add (FVector.splat E)))
    · rw [ProcessOctant_cull a (n + 1) C E hb, culled (n + 1) C E r hE h hb]
    · by_cases hl : E ≤ a.MinVoxelSize * (51 / 100)
      · rw [ProcessOctant_leaf a (n + 1) C E hb hl, ← h,
          ProcessOctantNoCull_leaf a (n + 1) C E hl]
      · rw [ProcessOctant_succ a n C E hb hl, ← h, ProcessOctantNoCull_succ a n C E hl]
        rw [ProcessOctantNoCull_succ a n C E hl] at h
        congr 1
        apply List.map_congr_left
        intro s hs
        obtain ⟨x, hx⟩ := collectCalls_some_of_mem _ r h
          (a.ProcessOctantNoCull n (C.add (ChildOffset (E * (1 / 2)) s)) (E * (1 / 2)))
          (List.mem_map.mpr ⟨s, hs, rfl⟩)
        rw [hx]
        exact ih _ _ x (by linarith) hx

/-- Without rounding: with an empty sculpt layer, shapes of non-negative dimensions, either mode
and an octant
of extent `≥ 0`, the list added by `ProcessOctant` (with the cull test `DoesBoxIntersectShapes`)
is the list added by the same recursion without the cull test, whenever the latter returns, and
it does return for `MinVoxelSize > 0` with `octreeDepth` levels; with a non-empty sculpt layer
`DoesBoxIntersectShapes` is true for every box, so nothing is pruned. -/
theorem culling_is_conservative :
    (∀ (a : AVolumetricOctree) (fuel : ℕ) (C : FVector) (E : ℚ) (r : List FTransform),
      a.SculptedModifications = [] →
      (∀ s ∈ a.Shapes, 0 ≤ s.Dimensions.X ∧ 0 ≤ s.Dimensions.Y ∧ 0 ≤ s.Dimensions.Z) →
      0 ≤ E → a.ProcessOctantNoCull fuel C E = some r → a.ProcessOctant fuel C E = some r) ∧
    (∀ (a : AVolumetricOctree) (fuel : ℕ) (C : FVector) (E : ℚ),
      a.SculptedModifications = [] →
      (∀ s ∈ a.Shapes, 0 ≤ s.Dimensions.X ∧ 0 ≤ s.Dimensions.Y ∧ 0 ≤ s.Dimensions.Z) →
      0 ≤ E → 0 < a.MinVoxelSize → octreeDepth a.MinVoxelSize E ≤ fuel →
      ∃ r, a.ProcessOctantNoCull fuel C E = some r ∧ a.ProcessOctant fuel C E = some r) ∧
    (∀ (a : AVolumetricOctree) (Box : FBox), a.SculptedModifications ≠ [] →
      a.DoesBoxIntersectShapes Box = true) := by
  refine ⟨?_, ?_, ?_⟩
  · intro a fuel C E r hsc hdim hE h
    exact ProcessOctant_eq_of_NoCull a hsc hdim fuel C E r hE h
  · intro a fuel C E hsc hdim hE hm hf
    obtain ⟨r, hr⟩ := Option.isSome_iff_exists.mp (ProcessOctantNoCull_isSome_of_le a fuel C E
      ((octreeDepth_le_iff _ _ hm fuel).mp hf))
    exact ⟨r, hr, ProcessOctant_eq_of_NoCull a hsc hdim fuel C E r hE hr⟩
  · intro a Box hsc
    exact DoesBoxIntersectShapes_sculpted a hsc Box

/-- The root octant of extent 1000 with voxel size 20 around the origin for `offCenterSphere`:
with and without the cull test the recursion adds the same list, and on the sculpted actor
`nearSculpt` no box is culled. -/
theorem culling_is_conservative_witness :
    (∃ r, offCenterSphere.ProcessOctantNoCull 7 ⟨0, 0, 0⟩ 1000 = some r ∧
      offCenterSphere.ProcessOctant 7 ⟨0, 0, 0⟩ 1000 = some r) ∧
    nearSculpt.DoesBoxIntersectShapes (FBox.ofCorners ⟨5000, 5000, 5000⟩ ⟨5001, 5001, 5001⟩)
      = true :=
  ⟨culling_is_conservative.2.1 offCenterSphere 7 ⟨0, 0, 0⟩ 1000 rfl (by
      intro s hs
      have hs' : s = sphereAt 1 ⟨125 / 16, 125 / 16, 125 / 16⟩ := List.mem_singleton.mp hs
      subst hs'
      exact ⟨by decide!, by decide!, by decide!⟩) (by norm_num) (by decide!)
      ((octreeDepth_le_iff 20 1000 (by norm_num) 7).mpr (by norm_num)),
    culling_is_conservative.2.2 nearSculpt _ (by decide!)⟩


/-! ## Sequences of `ApplyTool` and `ClearSculpting` calls -/

/-- The root extent reads the shape list and whether the sculpt layer is empty, nothing else. -/
theorem RootExtent_congr (a b : AVolumetricOctree) (hS : a.Shapes = b.Shapes)
    (hsc : a.SculptedModifications = [] ↔ b.SculptedModifications = []) :
    a.RootExtent = b.RootExtent := by
  have hnum : (a.SculptedModifications.Num > 0) ↔ (b.SculptedModifications.Num > 0) := by
    unfold SculptMap.Num
    rw [gt_iff_lt, gt_iff_lt, List.length_pos, List.length_pos]
    exact not_congr hsc
  unfold AVolumetricOctree.RootExtent AVolumetricOctree.GlobalBounds
  by_cases h : a.SculptedModifications.Num > 0
  · simp only [h, hnum.mp h, if_true, hS]
  · have h' : ¬ b.SculptedModifications.Num > 0 := fun hb => h (hnum.mpr hb)
    simp only [h, h', if_false, hS]

/-- The level bound `RebuildLevels` of a configuration is enough for the rebuild of every actor
with that configuration, whatever its sculpt layer. -/
theorem octreeDepth_le_RebuildLevels (a b : AVolumetricOctree) (h : a.SameConfiguration b) :
    octreeDepth b.MinVoxelSize b.RootExtent ≤ a.RebuildLevels := by
  obtain ⟨hm, hS, -⟩ := h
  unfold AVolumetricOctree.RebuildLevels
  rw [← hm]
  by_cases hsc : b.SculptedModifications = []
  · rw [RootExtent_congr b ({ a with SculptedModifications := [] } : AVolumetricOctree)
      hS.symm (by simp [hsc])]
    exact le_max_left _ _
  · rw [RootExtent_congr b
      ({ a with SculptedModifications := [(⟨0, 0, 0⟩, 1)] } : AVolumetricOctree)
      hS.symm (by simp [hsc])]
    exact le_max_right _ _

/-- Having the same configuration is transitive. -/
theorem SameConfiguration_trans (a b c : AVolumetricOctree) (h1 : a.SameConfiguration b)
    (h2 : b.SameConfiguration c) : a.SameConfiguration c :=
  ⟨h1.1.trans h2.1, h1.2.1.trans h2.2.1, h1.2.2.trans h2.2.2⟩

/-- What `GenerateOctree` leaves alone: the configuration and the sculpt layer; and with an empty
shape list or `MinVoxelSize < 1`, the instances too. -/
theorem GenerateOctree_frame (fuel : ℕ) (a a' : AVolumetricOctree)
    (h : a.GenerateOctree fuel = some a') :
    a.SameConfiguration a' ∧ a'.SculptedModifications = a.SculptedModifications ∧
    ((a.Shapes.length = 0 ∨ a.MinVoxelSize < 1) → a'.Instances = a.Instances) := by
  by_cases hg : a.Shapes.length = 0 ∨ a.MinVoxelSize < 1
  · rw [GenerateOctree_guard fuel a hg, Option.some.injEq] at h
    subst h
    exact ⟨⟨rfl, rfl, rfl⟩, rfl, fun _ => rfl⟩
  · simp only [AVolumetricOctree.GenerateOctree, hg, if_false] at h
    split at h
    · rw [Option.some.injEq] at h
      subst h
      exact ⟨⟨rfl, rfl, rfl⟩, rfl, fun hg' => absurd hg' hg⟩
    · simp at h

/-- With a non-empty shape list and `MinVoxelSize >= 1`, the instance list after `GenerateOctree`
is a function of the configuration and the sculpt layer: the former instances play no part. -/
theorem GenerateOctree_Instances_congr (fuel : ℕ) (a b : AVolumetricOctree)
    (h : a.SameConfiguration b) (hsc : a.SculptedModifications = b.SculptedModifications)
    (hS : a.Shapes ≠ []) (hm : 1 ≤ a.MinVoxelSize) :
    (a.GenerateOctree fuel).map (fun x => x.Instances)
      = (b.GenerateOctree fuel).map (fun x => x.Instances) := by
  obtain ⟨m, S, mode, sc, I⟩ := a
  obtain ⟨m', S', mode', sc', I'⟩ := b
  obtain ⟨h1, h2, h3⟩ := h
  simp only at h1 h2 h3 hsc hS hm
  subst h1 h2 h3 hsc
  have hg : ¬ (S.length = 0 ∨ m < 1) := by
    rintro (h | h)
    · exact hS (List.length_eq_zero.mp h)
    · exact absurd hm (not_le.mpr h)
  simp only [AVolumetricOctree.GenerateOctree, hg, if_false]

/-- A loop preserves what each run of its body preserves. -/
theorem foldl_preserves {β : Type} (step : SculptMap × Bool → β → SculptMap × Bool)
    (Inv : SculptMap × Bool → Prop) (hstep : ∀ st e, Inv st → Inv (step st e)) :
    ∀ (l : List β) (st : SculptMap × Bool), Inv st → Inv (l.foldl step st) := by
  intro l
  induction l with
  | nil => intro st h; exact h
  | cons e l ih =>
    intro st h
    exact ih _ (hstep st e h)

/-- The loops of `ApplyTool` keep every stored override equal to `+1.0` or `-1.0`. -/
theorem ApplyToolLoops_values (a : AVolumetricOctree) (c : FVector) (r : ℚ) (bAdd : Bool)
    (h : ∀ k v, a.SculptedModifications.Find k = some v → v = 1 ∨ v = -1) :
    ∀ k v, (a.ApplyToolLoops c r bAdd).1.Find k = some v → v = 1 ∨ v = -1 := by
  have cell : ∀ (Idx : FIntVector) (x y z : ℤ) (st : SculptMap × Bool),
      (∀ k v, st.1.Find k = some v → v = 1 ∨ v = -1) →
      ∀ k v, (a.ApplyToolCell c r bAdd Idx x y z st).1.Find k = some v → v = 1 ∨ v = -1 := by
    intro Idx x y z st hst k v
    by_cases hd : DistLE ⟨((Idx.X + x : ℤ) : ℚ) * a.MinVoxelSize,
        ((Idx.Y + y : ℤ) : ℚ) * a.MinVoxelSize, ((Idx.Z + z : ℤ) : ℚ) * a.MinVoxelSize⟩ c r = true
    · have hcell : (a.ApplyToolCell c r bAdd Idx x y z st).1 =
          SculptMap.Add st.1 (a.GetGridIndex ⟨((Idx.X + x : ℤ) : ℚ) * a.MinVoxelSize,
            ((Idx.Y + y : ℤ) : ℚ) * a.MinVoxelSize, ((Idx.Z + z : ℤ) : ℚ) * a.MinVoxelSize⟩)
            (if bAdd then 1 else -1) := by
        simp only [AVolumetricOctree.ApplyToolCell, hd, if_true]
      rw [hcell, SculptMap.Find_Add]
      split
      · intro hv
        rw [Option.some.injEq] at hv
        rw [← hv]
        cases bAdd
        · right; simp
        · left; simp
      · exact hst k v
    · rw [(ApplyToolCell_changed a c r bAdd Idx x y z st).2 hd]
      exact hst k v
  unfold AVolumetricOctree.ApplyToolLoops
  apply foldl_preserves _ (fun st => ∀ k v, st.1.Find k = some v → v = 1 ∨ v = -1)
  · intro st z hst
    apply foldl_preserves _ (fun st => ∀ k v, st.1.Find k = some v → v = 1 ∨ v = -1)
    · intro st y hst
      apply foldl_preserves _ (fun st => ∀ k v, st.1.Find k = some v → v = 1 ∨ v = -1)
      · intro st x hst
        exact cell _ x y z st hst
      · exact hst
    · exact hst
  · exact h

/-- One `ApplyTool` call with enough levels for the configuration: it returns, keeps the
configuration, keeps the instances when the configuration is rejected by the guard of
`GenerateOctree`, and keeps the stored overrides equal to `+1.0` or `-1.0`. -/
theorem ApplyTool_step (a0 a : AVolumetricOctree) (fuel : ℕ) (c : FVector) (r : ℚ)
    (bAdd : Bool) (hcfg : a0.SameConfiguration a) (hf : a0.RebuildLevels ≤ fuel) :
    ∃ a', a.ApplyTool fuel c r bAdd = some a' ∧ a0.SameConfiguration a' ∧
      ((a0.Shapes.length = 0 ∨ a0.MinVoxelSize < 1) → a'.Instances = a.Instances) ∧
      ((∀ k v, a.SculptedModifications.Find k = some v → v = 1 ∨ v = -1) →
        ∀ k v, a'.SculptedModifications.Find k = some v → v = 1 ∨ v = -1) := by
  unfold AVolumetricOctree.ApplyTool
  have hvals := ApplyToolLoops_values a c r bAdd
  by_cases hch : (a.ApplyToolLoops c r bAdd).2 = true
  · simp only [hch, if_true]
    have hcfg' : a0.SameConfiguration
        ({ a with SculptedModifications := (a.ApplyToolLoops c r bAdd).1 } :
          AVolumetricOctree) := hcfg
    obtain ⟨a', ha'⟩ := Option.isSome_iff_exists.mp (GenerateOctree_isSome _ fuel
      (le_trans (octreeDepth_le_RebuildLevels a0 _ hcfg') hf))
    obtain ⟨f1, f2, f3⟩ := GenerateOctree_frame fuel _ a' ha'
    refine ⟨a', ha', SameConfiguration_trans _ _ _ hcfg' f1, ?_, ?_⟩
    · intro hg
      rw [hcfg.1, hcfg.2.1] at hg
      exact f3 hg
    · intro h
      rw [f2]
      exact hvals h
  · simp only [hch]
    exact ⟨_, rfl, hcfg, fun _ => rfl, fun h => hvals h⟩

/-- One `ClearSculpting` call with enough levels for the configuration: it returns with an empty
sculpt layer, keeps the configuration, and keeps the instances when the configuration is
rejected by the guard of `GenerateOctree`. -/
theorem ClearSculpting_step (a0 a : AVolumetricOctree) (fuel : ℕ)
    (hcfg : a0.SameConfiguration a) (hf : a0.RebuildLevels ≤ fuel) :
    ∃ a', a.ClearSculpting fuel = some a' ∧ a0.SameConfiguration a' ∧
      a'.SculptedModifications = [] ∧
      ((a0.Shapes.length = 0 ∨ a0.MinVoxelSize < 1) → a'.Instances = a.Instances) := by
  unfold AVolumetricOctree.ClearSculpting
  have hcfg' : a0.SameConfiguration
      ({ a with SculptedModifications := [] } : AVolumetricOctree) := hcfg
  obtain ⟨a', ha'⟩ := Option.isSome_iff_exists.mp (GenerateOctree_isSome _ fuel
    (le_trans (octreeDepth_le_RebuildLevels a0 _ hcfg') hf))
  obtain ⟨f1, f2, f3⟩ := GenerateOctree_frame fuel _ a' ha'
  refine ⟨a', ha', SameConfiguration_trans _ _ _ hcfg' f1, f2, ?_⟩
  intro hg
  rw [hcfg.1, hcfg.2.1] at hg
  exact f3 hg

/-- A sequence of calls with enough levels for the configuration: it returns, keeps the
configuration, keeps the instances when the configuration is rejected by the guard of
`GenerateOctree`, and keeps the stored overrides equal to `+1.0` or `-1.0`. -/
theorem RunCalls_frame (a0 : AVolumetricOctree) (fuel : ℕ) (hf : a0.RebuildLevels ≤ fuel) :
    ∀ (calls : List SculptCall) (a : AVolumetricOctree), a0.SameConfiguration a →
      ∃ a', a.RunCalls fuel calls = some a' ∧ a0.SameConfiguration a' ∧
        ((a0.Shapes.length = 0 ∨ a0.MinVoxelSize < 1) → a'.Instances = a.Instances) ∧
        ((∀ k v, a.SculptedModifications.Find k = some v → v = 1 ∨ v = -1) →
          ∀ k v, a'.SculptedModifications.Find k = some v → v = 1 ∨ v = -1) := by
  intro calls
  induction calls with
  | nil =>
    intro a hcfg
    exact ⟨a, rfl, hcfg, fun _ => rfl, fun h => h⟩
  | cons call rest ih =>
    intro a hcfg
    cases call with
    | Tool c r bAdd =>
      obtain ⟨a1, h1, hc1, hi1, hv1⟩ := ApplyTool_step a0 a fuel c r bAdd hcfg hf
      obtain ⟨a', h2, hc2, hi2, hv2⟩ := ih a1 hc1
      refine ⟨a', ?_, hc2, fun hg => (hi2 hg).trans (hi1 hg), fun h => hv2 (hv1 h)⟩
      simp only [AVolumetricOctree.RunCalls, h1]
      exact h2
    | Clear =>
      obtain ⟨a1, h1, hc1, hs1, hi1⟩ := ClearSculpting_step a0 a fuel hcfg hf
      obtain ⟨a', h2, hc2, hi2, hv2⟩ := ih a1 hc1
      refine ⟨a', ?_, hc2, fun hg => (hi2 hg).trans (hi1 hg), fun _ => hv2 ?_⟩
      · simp only [AVolumetricOctree.RunCalls, h1]
        exact h2
      · intro k v hk
        rw [hs1] at hk
        simp [SculptMap.Find] at hk

/-- For `smallSphere` six levels are enough for every rebuild: its root extent is 1.2 without
sculpting and 601.2 with it. -/
theorem smallSphere_RebuildLevels : smallSphere.RebuildLevels ≤ 6 := by
  unfold AVolumetricOctree.RebuildLevels
  apply max_le
  · rw [show ({ smallSphere with SculptedModifications := [] } :
        AVolumetricOctree).RootExtent = 6 / 5 by decide!]
    exact (octreeDepth_le_iff 20 (6 / 5) (by norm_num) 6).mpr (by norm_num)
  · rw [show ({ smallSphere with SculptedModifications := [(⟨0, 0, 0⟩, 1)] } :
        AVolumetricOctree).RootExtent = 3006 / 5 by decide!]
    exact (octreeDepth_le_iff 20 (3006 / 5) (by norm_num) 6).mpr (by norm_num)

/-! ## C12: clearing the sculpt layer -/

/-- C12: from any actor, after any sequence of `ApplyTool` (and `ClearSculpting`) calls,
`ClearSculpting` returns with an empty sculpt layer and with exactly the placement list that
`GenerateOctree` produces for the same configuration with an empty sculpt layer; with a
non-empty shape list and `MinVoxelSize >= 1` that list is the same for every actor of the
configuration with an empty sculpt layer, whatever instances it held. -/
theorem ClearSculpting_restores (a0 : AVolumetricOctree) (calls : List SculptCall) (fuel : ℕ)
    (hf : a0.RebuildLevels ≤ fuel) :
    ∃ a a' b, a0.RunCalls fuel calls = some a ∧ a.ClearSculpting fuel = some a' ∧
      ({ a0 with SculptedModifications := [] } : AVolumetricOctree).GenerateOctree fuel
        = some b ∧
      a'.SculptedModifications = [] ∧ a'.Instances = b.Instances ∧
      (a0.Shapes ≠ [] → 1 ≤ a0.MinVoxelSize → ∀ b0 : AVolumetricOctree,
        a0.SameConfiguration b0 → b0.SculptedModifications = [] →
        ∃ b', b0.GenerateOctree fuel = some b' ∧ a'.Instances = b'.Instances) := by
  obtain ⟨a, hrun, hcfg, hinst, -⟩ := RunCalls_frame a0 fuel hf calls a0 ⟨rfl, rfl, rfl⟩
  obtain ⟨a', hclear, hcfg', hs', hinst'⟩ := ClearSculpting_step a0 a fuel hcfg hf
  have hcfg0 : a0.SameConfiguration
      ({ a0 with SculptedModifications := [] } : AVolumetricOctree) := ⟨rfl, rfl, rfl⟩
  obtain ⟨b, hb⟩ := Option.isSome_iff_exists.mp (GenerateOctree_isSome
    ({ a0 with SculptedModifications := [] } : AVolumetricOctree) fuel
    (le_trans (octreeDepth_le_RebuildLevels a0 _ hcfg0) hf))
  have hcleared : ({ a with SculptedModifications := [] } : AVolumetricOctree).GenerateOctree fuel
      = some a' := hclear
  have valid : a0.Shapes ≠ [] → 1 ≤ a0.MinVoxelSize → ∀ b0 : AVolumetricOctree,
      a0.SameConfiguration b0 → b0.SculptedModifications = [] →
      ∃ b', b0.GenerateOctree fuel = some b' ∧ a'.Instances = b'.Instances := by
    intro hS hm b0 hb0 hb0s
    have hcfgab : ({ a with SculptedModifications := [] } : AVolumetricOctree).SameConfiguration
        b0 := ⟨hcfg.1.symm.trans hb0.1, hcfg.2.1.symm.trans hb0.2.1,
          hcfg.2.2.symm.trans hb0.2.2⟩
    have hcong := GenerateOctree_Instances_congr fuel
      ({ a with SculptedModifications := [] } : AVolumetricOctree) b0 hcfgab hb0s.symm
      (by rw [← hcfg.2.1]; exact hS) (by rw [← hcfg.1]; exact hm)
    rw [hcleared] at hcong
    cases hb' : b0.GenerateOctree fuel with
    | none =>
      rw [hb'] at hcong
      simp at hcong
    | some b' =>
      rw [hb'] at hcong
      simp only [Option.map_some', Option.some.injEq] at hcong
      exact ⟨b', rfl, hcong⟩
  refine ⟨a, a', b, hrun, hclear, hb, hs', ?_, valid⟩
  by_cases hg : a0.Shapes.length = 0 ∨ a0.MinVoxelSize < 1
  · have hb2 := GenerateOctree_guard fuel
      ({ a0 with SculptedModifications := [] } : AVolumetricOctree) hg
    rw [hb, Option.some.injEq] at hb2
    rw [hb2, hinst' hg, hinst hg]
  · push_neg at hg
    obtain ⟨b', hb', heq⟩ := valid (fun h => hg.1 (by simp [h])) hg.2
      ({ a0 with SculptedModifications := [] } : AVolumetricOctree) hcfg0 rfl
    rw [hb, Option.some.injEq] at hb'
    rw [hb']
    exact heq

/-- The actor `smallSphere`, sculpted by the tool at `(3, 5, -7)` with radius 40 and then at the
origin with radius 0 in remove mode, given six levels. -/
theorem ClearSculpting_restores_witness :
    ∃ a a' b, smallSphere.RunCalls 6
        [SculptCall.Tool ⟨3, 5, -7⟩ 40 true, SculptCall.Tool ⟨0, 0, 0⟩ 0 false] = some a ∧
      a.ClearSculpting 6 = some a' ∧
      ({ smallSphere with SculptedModifications := [] } : AVolumetricOctree).GenerateOctree 6
        = some b ∧
      a'.SculptedModifications = [] ∧ a'.Instances = b.Instances ∧
      (smallSphere.Shapes ≠ [] → 1 ≤ smallSphere.MinVoxelSize → ∀ b0 : AVolumetricOctree,
        smallSphere.SameConfiguration b0 → b0.SculptedModifications = [] →
        ∃ b', b0.GenerateOctree 6 = some b' ∧ a'.Instances = b'.Instances) :=
  ClearSculpting_restores smallSphere
    [SculptCall.Tool ⟨3, 5, -7⟩ 40 true, SculptCall.Tool ⟨0, 0, 0⟩ 0 false] 6
    smallSphere_RebuildLevels

/-! ## C16: overrides in every reachable state -/

/-- C16: starting from an empty sculpt layer, after any sequence of `ApplyTool` and
`ClearSculpting` calls every stored override is `+1.0` or `-1.0`; so at a point whose grid index
is in the layer, `IsPointInsideShapes` is true exactly when the override is `+1.0`, for every
shape list and operation mode. -/
theorem overrides_decide_in_reachable_states (a0 : AVolumetricOctree)
    (calls : List SculptCall) (fuel : ℕ) (hsc : a0.SculptedModifications = [])
    (hf : a0.RebuildLevels ≤ fuel) :
    ∃ a, a0.RunCalls fuel calls = some a ∧
      (∀ k v, a.SculptedModifications.Find k = some v → v = 1 ∨ v = -1) ∧
      (∀ (P : FVector) (v : ℚ), a.SculptedModifications.Find (a.GetGridIndex P) = some v →
        ∀ b : AVolumetricOctree, b.MinVoxelSize = a.MinVoxelSize →
          b.SculptedModifications = a.SculptedModifications →
          b.IsPointInsideShapes P = decide (v = 1)) := by
  obtain ⟨a, hrun, -, -, hvals⟩ := RunCalls_frame a0 fuel hf calls a0 ⟨rfl, rfl, rfl⟩
  have hunit : ∀ k v, a.SculptedModifications.Find k = some v → v = 1 ∨ v = -1 := by
    apply hvals
    intro k v hk
    rw [hsc] at hk
    simp [SculptMap.Find] at hk
  refine ⟨a, hrun, hunit, ?_⟩
  intro P v hfind b hbm hbs
  have hidx : b.GetGridIndex P = a.GetGridIndex P := by
    simp only [AVolumetricOctree.GetGridIndex, hbm]
  have hfind' : b.SculptedModifications.Find (b.GetGridIndex P) = some v := by
    rw [hbs, hidx]
    exact hfind
  rcases hunit _ v hfind with h1 | h1
  · subst h1
    rw [IsPointInsideShapes_forced_solid b P hfind']
    simp
  · subst h1
    rw [IsPointInsideShapes_forced_empty b P hfind']
    norm_num

/-- The actor `smallSphere`, sculpted, cleared and sculpted again, given six levels. -/
theorem overrides_decide_in_reachable_states_witness :
    ∃ a, smallSphere.RunCalls 6
        [SculptCall.Tool ⟨3, 5, -7⟩ 40 true, SculptCall.Clear,
          SculptCall.Tool ⟨0, 0, 0⟩ 0 false] = some a ∧
      (∀ k v, a.SculptedModifications.Find k = some v → v = 1 ∨ v = -1) ∧
      (∀ (P : FVector) (v : ℚ), a.SculptedModifications.Find (a.GetGridIndex P) = some v →
        ∀ b : AVolumetricOctree, b.MinVoxelSize = a.MinVoxelSize →
          b.SculptedModifications = a.SculptedModifications →
          b.IsPointInsideShapes P = decide (v = 1)) :=
  overrides_decide_in_reachable_states smallSphere
    [SculptCall.Tool ⟨3, 5, -7⟩ 40 true, SculptCall.Clear, SculptCall.Tool ⟨0, 0, 0⟩ 0 false] 6
    rfl smallSphere_RebuildLevels

/-! ## C1: the torus test of the source narrows to `float` -/

/-- C1: the source's torus test does not equal the reference definition.  At the torus
`ringTorus` (major radius 3, minor radius 1) and the point `(4 + 2⁻³⁰, 0, 0)` the `double`
distance to the axis is `4 + 2⁻³⁰`, `float DistToAxis` holds `4`, the tube distance is `1`, and
the source answers true, while the reference `(sqrt(x² + y²) - 3)² + z² ≤ 1` is false (so is the
test of the sphere-and-box kind of arithmetic, decided exactly). -/
theorem torus_test_narrowed_to_float :
    toDouble (beyondRingTorus.X * beyondRingTorus.X) = 16 + 1 / 2 ^ 27 ∧
    sqrtDouble (16 + 1 / 2 ^ 27) = 4 + 1 / 2 ^ 30 ∧
    toFloat (4 + 1 / 2 ^ 30) = 4 ∧
    Rounded.IsPointInsideSingleShape beyondRingTorus ringTorus = true ∧
    IsPointInsideSingleShape beyondRingTorus ringTorus = false ∧
    ¬ referenceContains ringTorus beyondRingTorus := by
  refine ⟨by decide!, by decide!, by decide!, by decide!, by decide!, ?_⟩
  rw [← IsPointInsideSingleShape_iff_reference]
  decide!

/-! ## C4, C11: the candidate position is computed in `float` -/

/-- C4: `ApplyTool` does not write every lattice point within the radius, and the key of a
candidate is not always its own index.  With voxel size 1, tool center `(20000001, 0, 0)` and
radius 1, the lattice point of index `(20000001, 0, 0)` is at distance 0, yet its candidate
position `(CenterIdx.X + 0) * MinVoxelSize` is the `float` 20000000: the loops leave the index
`(20000001, 0, 0)` unwritten and write `(20000000, 0, 0)` and `(20000002, 0, 0)` only. -/
theorem ApplyTool_candidate_not_own_index :
    0 < fineActor.MinVoxelSize ∧
    Rounded.GetGridIndex fineActor farToolPosition = ⟨20000001, 0, 0⟩ ∧
    Real.sqrt ((((⟨((20000001 : ℤ) : ℚ) * fineActor.MinVoxelSize,
      ((0 : ℤ) : ℚ) * fineActor.MinVoxelSize, ((0 : ℤ) : ℚ) * fineActor.MinVoxelSize⟩ :
        FVector).sub farToolPosition).SizeSquared : ℚ) : ℝ) ≤ ((1 : ℚ) : ℝ) ∧
    Rounded.VoxelCoord fineActor.MinVoxelSize 20000001 0 = 20000000 ∧
    (Rounded.ApplyToolLoops fineActor farToolPosition 1 true).1
      = [(⟨20000000, 0, 0⟩, 1), (⟨20000002, 0, 0⟩, 1)] ∧
    (Rounded.ApplyToolLoops fineActor farToolPosition 1 true).1.Find ⟨20000001, 0, 0⟩ = none ∧
    fineActor.SculptedModifications.Find ⟨20000000, 0, 0⟩ = none ∧
    (Rounded.ApplyToolLoops fineActor farToolPosition 1 true).1.Find ⟨20000000, 0, 0⟩
      = some 1 := by
  refine ⟨by decide!, by decide!, ?_, by decide!, by decide!, by decide!, by decide!,
    by decide!⟩
  rw [← DistLE_iff]
  decide!

/-- C11: `ApplyTool` can touch a cell in the sense of the specification and not rebuild.  With
voxel size 1, tool center `(20000001, 0, 0)` and radius `0.5`, the lattice point of index
`(20000001, 0, 0)` is at distance 0, but the three candidate positions on the x axis are the
`float` values 20000000, 20000000 and 20000002, all at distance 1: nothing is written,
`bChanged` stays false and `ApplyTool` returns without calling `GenerateOctree`. -/
theorem ApplyTool_touch_without_rebuild :
    0 < fineActor.MinVoxelSize ∧
    (∃ i : FIntVector, Real.sqrt ((((⟨(i.X : ℚ) * fineActor.MinVoxelSize,
      (i.Y : ℚ) * fineActor.MinVoxelSize, (i.Z : ℚ) * fineActor.MinVoxelSize⟩ :
        FVector).sub farToolPosition).SizeSquared : ℚ) : ℝ) ≤ ((1 / 2 : ℚ) : ℝ)) ∧
    Rounded.ApplyToolLoops fineActor farToolPosition (1 / 2) true = ([], false) ∧
    ∀ fuel : ℕ, Rounded.ApplyTool fuel fineActor farToolPosition (1 / 2) true
      = some fineActor := by
  have h : Rounded.ApplyToolLoops fineActor farToolPosition (1 / 2) true = ([], false) := by
    decide!
  refine ⟨by decide!, ⟨⟨20000001, 0, 0⟩, ?_⟩, h, ?_⟩
  · rw [← DistLE_iff]
    decide!
  · intro fuel
    unfold Rounded.ApplyTool
    rw [h]
    rfl

/-! ## C6: a forced-solid cell beyond the fixed margin -/

/-- C6: a forced-solid cell beyond the fixed margin is dropped.  On `coarseActor` (the default
sphere, voxel size 1000) the call `ApplyTool((1000, 0, 0), 0, true)` forces the cell `(1, 0, 0)`
solid and rebuilds; the bounds expanded by 500 reach 700 from the origin, the root octant has
extent `840.00006` and splits once into leaves centered `420.00003` from the origin on each axis,
the rebuild emits nothing, and no placement maps to the cell `(1, 0, 0)`. -/
theorem forced_solid_cell_dropped_by_rebuild :
    coarseActor.Shapes ≠ [] ∧ 1 ≤ coarseActor.MinVoxelSize ∧
    Rounded.ApplyTool 1 coarseActor ⟨1000, 0, 0⟩ 0 true = some farSculpt ∧
    farSculpt.SculptedModifications.Find ⟨1, 0, 0⟩ = some 1 ∧
    (Rounded.GlobalBounds farSculpt).Max = ⟨700, 700, 700⟩ ∧
    Rounded.RootExtent farSculpt = 13762561 / 16384 ∧
    Rounded.GenerateOctree 1 farSculpt = some farSculpt ∧
    ¬ ∃ t ∈ farSculpt.Instances, Rounded.GetGridIndex farSculpt t.Location = ⟨1, 0, 0⟩ := by
  refine ⟨by decide!, by decide!, by decide!, by decide!, by decide!, by decide!, by decide!, ?_⟩
  rintro ⟨t, ht, -⟩
  exact absurd ht (List.not_mem_nil t)

/-! ## C18: the bounds of a torus go through `float TotalR` -/

/-- C18: a point of a shape can lie outside `GlobalBounds`.  For the torus of radii `0.4` and
`0.3` the source stores `0.4 + 0.3` in `float TotalR`, which is `0.699999988`, so `GlobalBounds`
ends at `x = 0.699999988`; the point `(0.7, 0, 0)` passes the torus test of the source (and the
exact one) and is outside `GlobalBounds`. -/
theorem torus_point_outside_GlobalBounds :
    thinTorusActor.Shapes = [thinTorus] ∧
    0 ≤ thinTorus.Dimensions.X ∧ 0 ≤ thinTorus.Dimensions.Y ∧ 0 ≤ thinTorus.Dimensions.Z ∧
    Rounded.IsPointInsideSingleShape thinTorusRim thinTorus = true ∧
    IsPointInsideSingleShape thinTorusRim thinTorus = true ∧
    (Rounded.GlobalBounds thinTorusActor).Max.X = 11744051 / 16777216 ∧
    (Rounded.GlobalBounds thinTorusActor).Max.X < thinTorusRim.X ∧
    ¬ (Rounded.GlobalBounds thinTorusActor).IsInsideOrOn thinTorusRim := by
  refine ⟨by decide!, by decide!, by decide!, by decide!, by decide!, by decide!, by decide!,
    by decide!, ?_⟩
  intro h
  have h2 := h.2.1
  revert h2
  decide!

/-! ## C10: the root extent beyond the range of `float` -/

/-- C10: the recursion does not end for every configuration.  For a sphere of radius `2¹³⁰`
(shape list non-empty, voxel size 20) the largest side of `GlobalBounds` is `2¹³¹`, beyond
`FLT_MAX`: the source's `float MaxDim` is `+inf`, and so is `RootExtent = MaxDim * 0.6f`.
Halving `+inf` gives `+inf`, which is never at most the leaf threshold `10.2`. -/
theorem RootExtent_beyond_float_range :
    hugeSphere.Shapes ≠ [] ∧ ¬ hugeSphere.MinVoxelSize < 1 ∧
    Rounded.sub (Rounded.GlobalBounds hugeSphere).Max (Rounded.GlobalBounds hugeSphere).Min
      = ⟨2 ^ 131, 2 ^ 131, 2 ^ 131⟩ ∧
    FLT_MAX < 2 ^ 131 ∧
    FLT_MAX < Rounded.MaxDim hugeSphere ∧
    Rounded.LeafThreshold hugeSphere.MinVoxelSize < FLT_MAX := by
  refine ⟨by decide!, by decide!, by decide!, by decide!, by decide!, by decide!⟩

/-! ## Rounding to a binary format -/

/-- The function `pow2` is the integer power of two. -/
theorem pow2_eq_zpow (e : ℤ) : pow2 e = (2 : ℚ) ^ e := by
  unfold pow2
  split_ifs with h
  · conv_rhs => rw [← Int.toNat_of_nonneg h]
    rw [zpow_natCast]
  · push_neg at h
    have h2 : e = -((-e).toNat : ℤ) := by
      rw [Int.toNat_of_nonneg (by omega)]
      ring
    conv_rhs => rw [h2]
    rw [zpow_neg, zpow_natCast, one_div]

/-- Powers of two are positive. -/
theorem pow2_pos (e : ℤ) : 0 < pow2 e := by
  rw [pow2_eq_zpow]
  positivity

/-- The next power of two is the double. -/
theorem pow2_succ (e : ℤ) : pow2 (e + 1) = 2 * pow2 e := by
  rw [pow2_eq_zpow, pow2_eq_zpow, zpow_add_one₀ (by norm_num : (2 : ℚ) ≠ 0)]
  ring

/-- Powers of two multiply by adding exponents. -/
theorem pow2_add (a b : ℤ) : pow2 (a + b) = pow2 a * pow2 b := by
  rw [pow2_eq_zpow, pow2_eq_zpow, pow2_eq_zpow, zpow_add₀ (by norm_num : (2 : ℚ) ≠ 0)]

/-- Powers of two increase with the exponent. -/
theorem pow2_le_pow2 {a b : ℤ} (h : a ≤ b) : pow2 a ≤ pow2 b := by
  rw [pow2_eq_zpow, pow2_eq_zpow]
  exact zpow_le_zpow_right₀ (by norm_num) h

/-- Powers of two increase strictly with the exponent. -/
theorem pow2_lt_pow2 {a b : ℤ} (h : a < b) : pow2 a < pow2 b := by
  rw [pow2_eq_zpow, pow2_eq_zpow]
  exact zpow_lt_zpow_right₀ (by norm_num) h

/-- A natural power of two as `pow2`. -/
theorem pow2_natCast (n : ℕ) : pow2 (n : ℤ) = (2 : ℚ) ^ n := by
  rw [pow2_eq_zpow, zpow_natCast]

/-- The bit-length recursion finds the leading bit when the bound is at least the number. -/
theorem log2Fuel_spec (f : ℕ) : ∀ n : ℕ, n ≤ f → 0 < n →
    2 ^ log2Fuel f n ≤ n ∧ n < 2 ^ (log2Fuel f n + 1) := by
  induction f with
  | zero => intro n hn h0; omega
  | succ f ih =>
    intro n hn h0
    rw [log2Fuel]
    by_cases h2 : n < 2
    · rw [if_pos h2]
      constructor
      · simpa using h0
      · simpa using h2
    · rw [if_neg h2]
      obtain ⟨h3, h4⟩ := ih (n / 2) (by omega) (by omega)
      rw [pow_succ, pow_succ]
      constructor <;> omega

/-- The leading bit `natLog2 n` of a positive number: `2 ^ natLog2 n ≤ n < 2 ^ (natLog2 n + 1)`. -/
theorem natLog2_spec (n : ℕ) (hn : 0 < n) : 2 ^ natLog2 n ≤ n ∧ n < 2 ^ (natLog2 n + 1) :=
  log2Fuel_spec n n le_rfl hn

/-- A quotient of two bracketed numbers is bracketed by the quotient of the brackets. -/
theorem quotient_bracket (N D A B q : ℚ) (hD : 0 < D) (hA : 0 < A) (hB : 0 < B)
    (hq : q = N / D) (A1 : A ≤ N) (A2 : N < A * 2) (B1 : B ≤ D) (B2 : D < B * 2) :
    q < 2 * (A / B) ∧ A / B / 2 ≤ q := by
  subst hq
  constructor
  · rw [← mul_div_assoc, div_lt_div_iff₀ hD hB]
    nlinarith
  · rw [div_div, div_le_div_iff₀ (by positivity) hD]
    nlinarith

/-- The binary exponent of a positive rational: `2 ^ e ≤ q < 2 ^ (e + 1)` for
`e = floorLog2 q`. -/
theorem floorLog2_spec (q : ℚ) (hq : 0 < q) :
    pow2 (floorLog2 q) ≤ q ∧ q < pow2 (floorLog2 q + 1) := by
  have hnum : 0 < q.num := Rat.num_pos.mpr hq
  have hden : 0 < q.den := q.den_pos
  obtain ⟨a1, a2⟩ := natLog2_spec q.num.natAbs (by omega)
  obtain ⟨b1, b2⟩ := natLog2_spec q.den hden
  have hqe : q = (q.num.natAbs : ℚ) / (q.den : ℚ) := by
    have h1 : ((q.num.natAbs : ℤ) : ℚ) = (q.num : ℚ) := by
      rw [Int.natAbs_of_nonneg hnum.le]
    rw [← Int.cast_natCast q.num.natAbs, h1]
    exact (Rat.num_div_den q).symm
  have hdq : (0 : ℚ) < (q.den : ℚ) := by exact_mod_cast hden
  have A1 : (2 : ℚ) ^ natLog2 q.num.natAbs ≤ (q.num.natAbs : ℚ) := by exact_mod_cast a1
  have A2 : (q.num.natAbs : ℚ) < (2 : ℚ) ^ natLog2 q.num.natAbs * 2 := by
    rw [← pow_succ]
    exact_mod_cast a2
  have B1 : (2 : ℚ) ^ natLog2 q.den ≤ (q.den : ℚ) := by exact_mod_cast b1
  have B2 : (q.den : ℚ) < (2 : ℚ) ^ natLog2 q.den * 2 := by
    rw [← pow_succ]
    exact_mod_cast b2
  have hp : ∀ k : ℕ, (0 : ℚ) < 2 ^ k := fun k => by positivity
  have e0 : pow2 ((natLog2 q.num.natAbs : ℤ) - (natLog2 q.den : ℤ))
      = (2 : ℚ) ^ natLog2 q.num.natAbs / (2 : ℚ) ^ natLog2 q.den := by
    rw [sub_eq_add_neg, pow2_add, pow2_natCast, pow2_eq_zpow, zpow_neg, zpow_natCast]
    rfl
  obtain ⟨Q1, Q2⟩ := quotient_bracket _ _ _ _ q hdq (hp _) (hp _) hqe A1 A2 B1 B2
  unfold floorLog2
  simp only []
  split_ifs with h
  · refine ⟨h, ?_⟩
    rw [pow2_succ, e0]
    exact Q1
  · push_neg at h
    rw [sub_add_cancel]
    refine ⟨?_, h⟩
    have e1 := pow2_succ ((natLog2 q.num.natAbs : ℤ) - (natLog2 q.den : ℤ) - 1)
    rw [sub_add_cancel, e0] at e1
    linarith

/-- The binary exponent is determined by its bracket. -/
theorem floorLog2_unique (q : ℚ) (e : ℤ) (h1 : pow2 e ≤ q) (h2 : q < pow2 (e + 1)) :
    floorLog2 q = e := by
  have hq : 0 < q := lt_of_lt_of_le (pow2_pos e) h1
  obtain ⟨s1, s2⟩ := floorLog2_spec q hq
  by_contra hne
  rcases lt_or_gt_of_ne hne with hlt | hgt
  · have : pow2 (floorLog2 q + 1) ≤ pow2 e := pow2_le_pow2 (by omega)
    linarith
  · have : pow2 (e + 1) ≤ pow2 (floorLog2 q) := pow2_le_pow2 (by omega)
    linarith
/-- Rounding an integer to the nearest integer leaves it. -/
theorem roundHalfEven_intCast (n : ℤ) : roundHalfEven (n : ℚ) = n := by
  unfold roundHalfEven
  simp only [Int.floor_intCast, sub_self]
  rw [if_pos (by norm_num)]

/-- Rounding to the nearest integer stays below an integer upper bound. -/
theorem roundHalfEven_le (x : ℚ) (n : ℤ) (h : x ≤ (n : ℚ)) : roundHalfEven x ≤ n := by
  have hf : ⌊x⌋ ≤ n := Int.floor_le_iff.mpr (by linarith)
  have hfl : (⌊x⌋ : ℚ) ≤ x := Int.floor_le x
  unfold roundHalfEven
  simp only []
  by_cases h1 : x - (⌊x⌋ : ℚ) < 1 / 2
  · rw [if_pos h1]
    exact hf
  · have hlt : ⌊x⌋ < n := by
      by_contra hc
      have : ⌊x⌋ = n := le_antisymm hf (not_lt.mp hc)
      rw [this] at h1
      exact h1 (by linarith)
    rw [if_neg h1]
    split_ifs <;> omega

/-- Rounding to the nearest integer stays above an integer lower bound. -/
theorem le_roundHalfEven (x : ℚ) (n : ℤ) (h : (n : ℚ) ≤ x) : n ≤ roundHalfEven x := by
  have hf : n ≤ ⌊x⌋ := Int.le_floor.mpr h
  unfold roundHalfEven
  simp only []
  split_ifs <;> omega

/-- Rounding to the nearest integer is monotone. -/
theorem roundHalfEven_mono {x y : ℚ} (h : x ≤ y) : roundHalfEven x ≤ roundHalfEven y := by
  have hf : ⌊x⌋ ≤ ⌊y⌋ := Int.floor_mono h
  rcases lt_or_eq_of_le hf with hlt | heq
  · have h1 : roundHalfEven x ≤ ⌊x⌋ + 1 := by
      unfold roundHalfEven
      simp only []
      split_ifs <;> omega
    have h2 : ⌊y⌋ ≤ roundHalfEven y := le_roundHalfEven y _ (Int.floor_le y)
    omega
  · unfold roundHalfEven
    simp only []
    rw [← heq]
    have hr : x - (⌊x⌋ : ℚ) ≤ y - (⌊x⌋ : ℚ) := by linarith
    by_cases a1 : x - (⌊x⌋ : ℚ) < 1 / 2
    · rw [if_pos a1]
      split_ifs <;> omega
    · rw [if_neg a1]
      have b1 : ¬ y - (⌊x⌋ : ℚ) < 1 / 2 := by
        intro hc
        exact a1 (by linarith)
      rw [if_neg b1]
      by_cases a2 : 1 / 2 < x - (⌊x⌋ : ℚ)
      · rw [if_pos a2, if_pos (by linarith)]
      · rw [if_neg a2]
        by_cases b2 : 1 / 2 < y - (⌊x⌋ : ℚ)
        · rw [if_pos b2]
          split_ifs <;> omega
        · rw [if_neg b2]

/-- The exponent and the unit in the last place that `roundToBinary` uses for `q ≠ 0`. -/
theorem roundToBinary_eq (prec : ℕ) (emin : ℤ) (q : ℚ) (hq : q ≠ 0) :
    roundToBinary prec emin q =
      (roundHalfEven (q / pow2 (max (floorLog2 |q|) emin - ((prec : ℤ) - 1))) : ℚ)
        * pow2 (max (floorLog2 |q|) emin - ((prec : ℤ) - 1)) := by
  unfold roundToBinary
  rw [if_neg hq]

/-- Rounding keeps zero. -/
theorem roundToBinary_zero (prec : ℕ) (emin : ℤ) : roundToBinary prec emin 0 = 0 := by
  unfold roundToBinary
  rw [if_pos rfl]

/-- Rounding keeps non-negative numbers non-negative. -/
theorem roundToBinary_nonneg (prec : ℕ) (emin : ℤ) (q : ℚ) (hq : 0 ≤ q) :
    0 ≤ roundToBinary prec emin q := by
  rcases eq_or_lt_of_le hq with h0 | hpos
  · rw [← h0, roundToBinary_zero]
  · rw [roundToBinary_eq prec emin q hpos.ne']
    have hu := pow2_pos (max (floorLog2 |q|) emin - ((prec : ℤ) - 1))
    have : (0 : ℤ) ≤ roundHalfEven (q / pow2 (max (floorLog2 |q|) emin - ((prec : ℤ) - 1))) :=
      le_roundHalfEven _ 0 (by
        push_cast
        positivity)
    have h2 : (0 : ℚ) ≤ (roundHalfEven
        (q / pow2 (max (floorLog2 |q|) emin - ((prec : ℤ) - 1))) : ℚ) := by exact_mod_cast this
    positivity

/-- A positive number lies between its rounding brackets: with `e` the exponent used and `u`
the unit in the last place, the rounded value is at most `2 ^ (e + 1)`, and at least `2 ^ e`
when the number is not below the normal range. -/
theorem roundToBinary_bracket (prec : ℕ) (emin : ℤ) (q : ℚ) (hp : 1 ≤ prec) (hq : 0 < q) :
    roundToBinary prec emin q ≤ pow2 (max (floorLog2 q) emin + 1) ∧
    (emin ≤ floorLog2 q → pow2 (floorLog2 q) ≤ roundToBinary prec emin q) := by
  obtain ⟨s1, s2⟩ := floorLog2_spec q hq
  rw [roundToBinary_eq prec emin q hq.ne', abs_of_pos hq]
  set e := max (floorLog2 q) emin with he
  set u := pow2 (e - ((prec : ℤ) - 1)) with hu
  have hupos : 0 < u := pow2_pos _
  have hup : pow2 (e + 1) = ((2 ^ prec : ℤ) : ℚ) * u := by
    rw [hu, Int.cast_pow, Int.cast_ofNat, ← pow2_natCast, ← pow2_add]
    congr 1
    ring
  constructor
  · rw [hup]
    have hle : q / u ≤ ((2 ^ prec : ℤ) : ℚ) := by
      rw [div_le_iff₀ hupos, ← hup]
      exact le_trans s2.le (pow2_le_pow2 (by rw [he]; exact add_le_add_right (le_max_left _ _) 1))
    have := roundHalfEven_le _ _ hle
    have h2 : (roundHalfEven (q / u) : ℚ) ≤ ((2 ^ prec : ℤ) : ℚ) := by exact_mod_cast this
    exact mul_le_mul_of_nonneg_right h2 hupos.le
  · intro hn
    have hee : e = floorLog2 q := by rw [he]; exact max_eq_left hn
    have hlow : pow2 (floorLog2 q) = ((2 ^ (prec - 1) : ℤ) : ℚ) * u := by
      rw [hu, hee, Int.cast_pow, Int.cast_ofNat, ← pow2_natCast, ← pow2_add]
      congr 1
      have : ((prec - 1 : ℕ) : ℤ) = (prec : ℤ) - 1 := by omega
      rw [this]
      ring
    rw [hlow]
    have hle : ((2 ^ (prec - 1) : ℤ) : ℚ) ≤ q / u := by
      rw [le_div_iff₀ hupos, ← hlow]
      exact s1
    have := le_roundHalfEven _ _ hle
    have h2 : ((2 ^ (prec - 1) : ℤ) : ℚ) ≤ (roundHalfEven (q / u) : ℚ) := by exact_mod_cast this
    exact mul_le_mul_of_nonneg_right h2 hupos.le
/-- The binary exponent is monotone on positive numbers. -/
theorem floorLog2_mono {x y : ℚ} (hx : 0 < x) (h : x ≤ y) : floorLog2 x ≤ floorLog2 y := by
  obtain ⟨x1, -⟩ := floorLog2_spec x hx
  obtain ⟨-, y2⟩ := floorLog2_spec y (lt_of_lt_of_le hx h)
  by_contra hc
  push_neg at hc
  have : pow2 (floorLog2 y + 1) ≤ pow2 (floorLog2 x) := pow2_le_pow2 (by omega)
  linarith

/-- Rounding to a binary format is monotone on non-negative numbers. -/
theorem roundToBinary_mono (prec : ℕ) (emin : ℤ) (hp : 1 ≤ prec) {x y : ℚ} (hx : 0 ≤ x)
    (h : x ≤ y) : roundToBinary prec emin x ≤ roundToBinary prec emin y := by
  rcases eq_or_lt_of_le hx with h0 | hpos
  · rw [← h0, roundToBinary_zero]
    exact roundToBinary_nonneg prec emin y (le_trans hx h)
  · have hy : 0 < y := lt_of_lt_of_le hpos h
    have hfl := floorLog2_mono hpos h
    rcases eq_or_lt_of_le (max_le_max_right emin hfl) with heq | hlt
    · rw [roundToBinary_eq prec emin x hpos.ne', roundToBinary_eq prec emin y hy.ne',
        abs_of_pos hpos, abs_of_pos hy, heq]
      have hu := pow2_pos (max (floorLog2 y) emin - ((prec : ℤ) - 1))
      have hm := roundHalfEven_mono (div_le_div_of_nonneg_right h hu.le)
      have hm2 : (roundHalfEven (x / pow2 (max (floorLog2 y) emin - ((prec : ℤ) - 1))) : ℚ)
          ≤ (roundHalfEven (y / pow2 (max (floorLog2 y) emin - ((prec : ℤ) - 1))) : ℚ) := by
        exact_mod_cast hm
      exact mul_le_mul_of_nonneg_right hm2 hu.le
    · have hn : emin ≤ floorLog2 y := by
        by_contra hc
        push_neg at hc
        rw [max_eq_right hc.le] at hlt
        exact absurd (le_max_right (floorLog2 x) emin) (not_le.mpr hlt)
      rw [max_eq_left hn] at hlt
      have b1 := (roundToBinary_bracket prec emin x hp hpos).1
      have b2 := (roundToBinary_bracket prec emin y hp hy).2 hn
      have : pow2 (max (floorLog2 x) emin + 1) ≤ pow2 (floorLog2 y) := pow2_le_pow2 (by omega)
      linarith

/-- A multiple `k * 2 ^ e` of a power of two with `k ≤ 2 ^ prec` and `e` not below the least
exponent of the format is a value of the format: rounding leaves it. -/
theorem roundToBinary_of_repr (prec : ℕ) (emin : ℤ) (hp : 1 ≤ prec) (k : ℕ) (e : ℤ)
    (hk : k ≤ 2 ^ prec) (he : emin - ((prec : ℤ) - 1) ≤ e) :
    roundToBinary prec emin ((k : ℚ) * pow2 e) = (k : ℚ) * pow2 e := by
  rcases Nat.eq_zero_or_pos k with h0 | hkpos
  · subst h0
    simp [roundToBinary_zero]
  have hkq : (0 : ℚ) < (k : ℚ) := by exact_mod_cast hkpos
  have hx : 0 < (k : ℚ) * pow2 e := mul_pos hkq (pow2_pos e)
  rw [roundToBinary_eq prec emin _ hx.ne', abs_of_pos hx]
  have key : ∃ n : ℤ, (k : ℚ) * pow2 e
      = (n : ℚ) * pow2 (max (floorLog2 ((k : ℚ) * pow2 e)) emin - ((prec : ℤ) - 1)) := by
    rcases eq_or_lt_of_le hk with heq | hlt
    · have hxe : (k : ℚ) * pow2 e = pow2 ((prec : ℤ) + e) := by
        rw [heq, pow2_add, pow2_natCast]
        push_cast
        rfl
      have hfl : floorLog2 ((k : ℚ) * pow2 e) = (prec : ℤ) + e := by
        apply floorLog2_unique
        · rw [hxe]
        · rw [hxe]
          exact pow2_lt_pow2 (by omega)
      rw [hfl, max_eq_left (by omega)]
      refine ⟨2 ^ (prec - 1), ?_⟩
      rw [hxe, Int.cast_pow, Int.cast_ofNat, ← pow2_natCast, ← pow2_add]
      congr 1
      have : ((prec - 1 : ℕ) : ℤ) = (prec : ℤ) - 1 := by omega
      rw [this]
      ring
    · have hxlt : (k : ℚ) * pow2 e < pow2 ((prec : ℤ) + e) := by
        rw [pow2_add, pow2_natCast]
        have : (k : ℚ) < (2 : ℚ) ^ prec := by exact_mod_cast hlt
        exact mul_lt_mul_of_pos_right this (pow2_pos e)
      have hfl : floorLog2 ((k : ℚ) * pow2 e) < (prec : ℤ) + e := by
        by_contra hc
        push_neg at hc
        have := (floorLog2_spec _ hx).1
        have h2 : pow2 ((prec : ℤ) + e) ≤ pow2 (floorLog2 ((k : ℚ) * pow2 e)) :=
          pow2_le_pow2 hc
        linarith
      have hd : 0 ≤ e - (max (floorLog2 ((k : ℚ) * pow2 e)) emin - ((prec : ℤ) - 1)) := by
        have : max (floorLog2 ((k : ℚ) * pow2 e)) emin ≤ e + ((prec : ℤ) - 1) :=
          max_le (by omega) (by omega)
        omega
      refine ⟨(k : ℤ) * 2 ^ (e - (max (floorLog2 ((k : ℚ) * pow2 e)) emin
        - ((prec : ℤ) - 1))).toNat, ?_⟩
      push_cast
      rw [← pow2_natCast, Int.toNat_of_nonneg hd, mul_assoc, ← pow2_add]
      congr 2
      ring
  obtain ⟨n, hn⟩ := key
  have hu := pow2_pos (max (floorLog2 ((k : ℚ) * pow2 e)) emin - ((prec : ℤ) - 1))
  have hdiv : (k : ℚ) * pow2 e
      / pow2 (max (floorLog2 ((k : ℚ) * pow2 e)) emin - ((prec : ℤ) - 1)) = (n : ℚ) := by
    rw [div_eq_iff hu.ne']
    exact hn
  rw [hdiv, roundHalfEven_intCast]
  exact hn.symm

/-- The rounded value of a positive number is a multiple `k * 2 ^ e` with `k ≤ 2 ^ prec` and `e`
not below the least exponent of the format. -/
theorem roundToBinary_repr (prec : ℕ) (emin : ℤ) (q : ℚ) (hq : 0 < q) :
    ∃ (k : ℕ) (e : ℤ), k ≤ 2 ^ prec ∧ emin - ((prec : ℤ) - 1) ≤ e ∧
      roundToBinary prec emin q = (k : ℚ) * pow2 e := by
  obtain ⟨-, s2⟩ := floorLog2_spec q hq
  have hu := pow2_pos (max (floorLog2 q) emin - ((prec : ℤ) - 1))
  have h0 : (0 : ℤ) ≤ roundHalfEven (q / pow2 (max (floorLog2 q) emin - ((prec : ℤ) - 1))) :=
    le_roundHalfEven _ 0 (by
      push_cast
      positivity)
  have hup : pow2 (max (floorLog2 q) emin + 1)
      = ((2 ^ prec : ℤ) : ℚ) * pow2 (max (floorLog2 q) emin - ((prec : ℤ) - 1)) := by
    rw [Int.cast_pow, Int.cast_ofNat, ← pow2_natCast, ← pow2_add]
    congr 1
    ring
  have hle : q / pow2 (max (floorLog2 q) emin - ((prec : ℤ) - 1)) ≤ ((2 ^ prec : ℤ) : ℚ) := by
    rw [div_le_iff₀ hu, ← hup]
    exact le_trans s2.le (pow2_le_pow2 (add_le_add_right (le_max_left _ _) 1))
  have h1 := roundHalfEven_le _ _ hle
  refine ⟨(roundHalfEven (q / pow2 (max (floorLog2 q) emin - ((prec : ℤ) - 1)))).toNat,
    max (floorLog2 q) emin - ((prec : ℤ) - 1), ?_, ?_, ?_⟩
  · have : ((roundHalfEven (q / pow2 (max (floorLog2 q) emin - ((prec : ℤ) - 1)))).toNat : ℤ)
        ≤ ((2 ^ prec : ℕ) : ℤ) := by
      rw [Int.toNat_of_nonneg h0]
      exact_mod_cast h1
    exact_mod_cast this
  · have := le_max_right (floorLog2 q) emin
    omega
  · rw [roundToBinary_eq prec emin q hq.ne', abs_of_pos hq]
    congr 1
    have : ((roundHalfEven (q / pow2 (max (floorLog2 q) emin - ((prec : ℤ) - 1)))).toNat : ℤ)
        = roundHalfEven (q / pow2 (max (floorLog2 q) emin - ((prec : ℤ) - 1))) :=
      Int.toNat_of_nonneg h0
    exact_mod_cast this.symm

/-- Rounding twice is rounding once, on non-negative numbers. -/
theorem roundToBinary_idem (prec : ℕ) (emin : ℤ) (hp : 1 ≤ prec) (q : ℚ) (hq : 0 ≤ q) :
    roundToBinary prec emin (roundToBinary prec emin q) = roundToBinary prec emin q := by
  rcases eq_or_lt_of_le hq with h0 | hpos
  · rw [← h0, roundToBinary_zero, roundToBinary_zero]
  · obtain ⟨k, e, hk, he, hr⟩ := roundToBinary_repr prec emin q hpos
    rw [hr]
    exact roundToBinary_of_repr prec emin hp k e hk he

/-- Half of a value of the format is a value of the format, when the value is at least twice
the least normal number. -/
theorem roundToBinary_half (prec : ℕ) (emin : ℤ) (hp : 1 ≤ prec) (x : ℚ)
    (hx : roundToBinary prec emin x = x) (hlow : pow2 (emin + 1) ≤ x) :
    roundToBinary prec emin (x * (1 / 2)) = x * (1 / 2) := by
  have hpos : 0 < x := lt_of_lt_of_le (pow2_pos _) hlow
  obtain ⟨k, e, hk, he, hr⟩ := roundToBinary_repr prec emin x hpos
  rw [hx] at hr
  rcases eq_or_lt_of_le he with heq | hlt
  · have hkk : k = 2 ^ prec := by
      apply le_antisymm hk
      have h1 : pow2 (emin + 1) = ((2 ^ prec : ℕ) : ℚ) * pow2 e := by
        rw [Nat.cast_pow, Nat.cast_ofNat, ← pow2_natCast, ← pow2_add]
        congr 1
        omega
      rw [hr, h1] at hlow
      have := le_of_mul_le_mul_right hlow (pow2_pos e)
      exact_mod_cast this
    have hx2 : x * (1 / 2) = ((2 ^ (prec - 1) : ℕ) : ℚ) * pow2 e := by
      rw [hr, hkk]
      have : prec = (prec - 1) + 1 := by omega
      conv_lhs => rw [this]
      push_cast
      rw [pow_succ]
      ring
    rw [hx2]
    exact roundToBinary_of_repr prec emin hp _ e (Nat.pow_le_pow_right (by norm_num) (by omega)) he
  · have hx2 : x * (1 / 2) = (k : ℚ) * pow2 (e - 1) := by
      have := pow2_succ (e - 1)
      rw [sub_add_cancel] at this
      rw [hr, this]
      ring
    rw [hx2]
    exact roundToBinary_of_repr prec emin hp k (e - 1) hk (by omega)

/-! ## The recursion of `ProcessOctant` in `float` -/

/-- Rounding a number that is not positive gives a number that is not positive. -/
theorem roundToBinary_nonpos (prec : ℕ) (emin : ℤ) (q : ℚ) (hq : q ≤ 0) :
    roundToBinary prec emin q ≤ 0 := by
  rcases eq_or_lt_of_le hq with h0 | hneg
  · rw [h0, roundToBinary_zero]
  · rw [roundToBinary_eq prec emin q hneg.ne]
    have hu := pow2_pos (max (floorLog2 |q|) emin - ((prec : ℤ) - 1))
    have h1 : q / pow2 (max (floorLog2 |q|) emin - ((prec : ℤ) - 1)) ≤ ((0 : ℤ) : ℚ) := by
      push_cast
      exact div_nonpos_of_nonpos_of_nonneg hq hu.le
    have h2 := roundHalfEven_le _ 0 h1
    have h3 : (roundHalfEven (q / pow2 (max (floorLog2 |q|) emin - ((prec : ℤ) - 1))) : ℚ)
        ≤ 0 := by exact_mod_cast h2
    exact mul_nonpos_of_nonpos_of_nonneg h3 hu.le

/-- A positive `float` result is a `float`: narrowing it again leaves it. -/
theorem toFloat_idem_of_pos (q : ℚ) (h : 0 < toFloat q) : toFloat (toFloat q) = toFloat q := by
  have hq : 0 ≤ q := by
    by_contra hc
    push_neg at hc
    have := roundToBinary_nonpos 24 (-126) q hc.le
    unfold toFloat at h
    linarith
  exact roundToBinary_idem 24 (-126) (by norm_num) q hq

/-- Narrowing to `float` is monotone on non-negative numbers. -/
theorem toFloat_mono {x y : ℚ} (hx : 0 ≤ x) (h : x ≤ y) : toFloat x ≤ toFloat y :=
  roundToBinary_mono 24 (-126) (by norm_num) hx h

/-- Halving a `float` of at least `2⁻¹²⁵` in `float` is exact. -/
theorem toFloat_half (x : ℚ) (hx : toFloat x = x) (hlow : 1 / 2 ≤ x) :
    toFloat (x * (1 / 2)) = x * (1 / 2) := by
  apply roundToBinary_half 24 (-126) (by norm_num) x hx
  have h1 : pow2 (-126 + 1) ≤ pow2 (-1) := pow2_le_pow2 (by norm_num)
  have h2 : pow2 (-1) = 1 / 2 := by decide!
  linarith

/-- The leaf threshold `MinVoxelSize * 0.51f` is at least one half when `MinVoxelSize ≥ 1`. -/
theorem LeafThreshold_ge_half (m : ℚ) (hm : 1 ≤ m) : 1 / 2 ≤ Rounded.LeafThreshold m := by
  unfold Rounded.LeafThreshold
  have hc : toFloat (51 / 100) = 2139095 / 4194304 := by decide!
  have h12 : toFloat (1 / 2) = 1 / 2 := by decide!
  rw [hc]
  have h : (1 : ℚ) / 2 ≤ m * (2139095 / 4194304) := by linarith
  have := toFloat_mono (by norm_num : (0 : ℚ) ≤ 1 / 2) h
  rw [h12] at this
  exact this

/-- A culled octant adds nothing. -/
theorem Rounded_ProcessOctant_cull (a : AVolumetricOctree) (fuel : ℕ) (C : FVector) (E : ℚ)
    (hb : Rounded.DoesBoxIntersectShapes a (FBox.ofCorners (Rounded.sub C (FVector.splat E))
      (Rounded.add C (FVector.splat E))) = false) :
    Rounded.ProcessOctant a fuel C E = some [] := by
  cases fuel <;> simp [Rounded.ProcessOctant, hb]

/-- A leaf octant adds its own transform when its center passes the composite test. -/
theorem Rounded_ProcessOctant_leaf (a : AVolumetricOctree) (fuel : ℕ) (C : FVector) (E : ℚ)
    (hb : Rounded.DoesBoxIntersectShapes a (FBox.ofCorners (Rounded.sub C (FVector.splat E))
      (Rounded.add C (FVector.splat E))) = true)
    (hl : E ≤ Rounded.LeafThreshold a.MinVoxelSize) :
    Rounded.ProcessOctant a fuel C E =
      if Rounded.IsPointInsideShapes a C then
        some [⟨C, FVector.splat (Rounded.LeafScale E)⟩]
      else some [] := by
  cases fuel <;> simp [Rounded.ProcessOctant, hb, hl]

/-- An octant that must be split but has no level left does not return. -/
theorem Rounded_ProcessOctant_zero (a : AVolumetricOctree) (C : FVector) (E : ℚ)
    (hb : Rounded.DoesBoxIntersectShapes a (FBox.ofCorners (Rounded.sub C (FVector.splat E))
      (Rounded.add C (FVector.splat E))) = true)
    (hl : ¬ E ≤ Rounded.LeafThreshold a.MinVoxelSize) :
    Rounded.ProcessOctant a 0 C E = none := by
  simp [Rounded.ProcessOctant, hb, hl]

/-- An octant that is split sequences the calls on its eight children. -/
theorem Rounded_ProcessOctant_succ (a : AVolumetricOctree) (n : ℕ) (C : FVector) (E : ℚ)
    (hb : Rounded.DoesBoxIntersectShapes a (FBox.ofCorners (Rounded.sub C (FVector.splat E))
      (Rounded.add C (FVector.splat E))) = true)
    (hl : ¬ E ≤ Rounded.LeafThreshold a.MinVoxelSize) :
    Rounded.ProcessOctant a (n + 1) C E =
      collectCalls (ChildSigns.map (fun s =>
        Rounded.ProcessOctant a n
          (Rounded.add C (Rounded.ChildOffset (toFloat (E * (1 / 2))) s))
          (toFloat (E * (1 / 2))))) := by
  simp [Rounded.ProcessOctant, hb, hl]

/-- With enough levels for a `float` extent to be halved down to the leaf threshold,
`ProcessOctant` returns. -/
theorem Rounded_ProcessOctant_isSome_of_le (a : AVolumetricOctree)
    (hT : 1 / 2 ≤ Rounded.LeafThreshold a.MinVoxelSize) :
    ∀ (fuel : ℕ) (C : FVector) (E : ℚ),
      (Rounded.LeafThreshold a.MinVoxelSize < E → toFloat E = E) →
      E ≤ Rounded.LeafThreshold a.MinVoxelSize * 2 ^ fuel →
      (Rounded.ProcessOctant a fuel C E).isSome = true := by
  intro fuel
  induction fuel with
  | zero =>
    intro C E _ hE
    have hl : E ≤ Rounded.LeafThreshold a.MinVoxelSize := by simpa using hE
    cases hb : Rounded.DoesBoxIntersectShapes a (FBox.ofCorners
      (Rounded.sub C (FVector.splat E)) (Rounded.add C (FVector.splat E)))
    · rw [Rounded_ProcessOctant_cull a 0 C E hb]; rfl
    · rw [Rounded_ProcessOctant_leaf a 0 C E hb hl]
      split <;> rfl
  | succ n ih =>
    intro C E hfl hE
    cases hb : Rounded.DoesBoxIntersectShapes a (FBox.ofCorners
      (Rounded.sub C (FVector.splat E)) (Rounded.add C (FVector.splat E)))
    · rw [Rounded_ProcessOctant_cull a (n + 1) C E hb]; rfl
    · by_cases hl : E ≤ Rounded.LeafThreshold a.MinVoxelSize
      · rw [Rounded_ProcessOctant_leaf a (n + 1) C E hb hl]
        split <;> rfl
      · rw [Rounded_ProcessOctant_succ a n C E hb hl]
        have hhalf := toFloat_half E (hfl (lt_of_not_ge hl)) (by linarith [lt_of_not_ge hl])
        apply collectCalls_isSome
        intro o ho
        obtain ⟨s, _, rfl⟩ := List.mem_map.mp ho
        rw [hhalf]
        apply ih
        · exact fun _ => hhalf
        · rw [pow_succ] at hE
          linarith

/-- The level count `Rounded.octreeDepth` is the least number of halvings that reach the leaf
threshold. -/
theorem Rounded_octreeDepth_le_iff (m E : ℚ) (hT : 0 < Rounded.LeafThreshold m) (d : ℕ) :
    Rounded.octreeDepth m E ≤ d ↔ E ≤ Rounded.LeafThreshold m * 2 ^ d := by
  unfold Rounded.octreeDepth
  rw [← Nat.le_pow_iff_clog_le (by norm_num : 1 < 2), Nat.ceil_le, div_le_iff₀ hT]
  push_cast
  constructor <;> intro h <;> linarith

/-- Every transform added by `ProcessOctant` to a `float` extent belongs to a leaf `d` levels
down: its scale is that of the extent halved `d` times, that extent is at most the leaf
threshold, and the extents of the levels above are not. -/
theorem Rounded_ProcessOctant_mem (a : AVolumetricOctree)
    (hT : 1 / 2 ≤ Rounded.LeafThreshold a.MinVoxelSize) :
    ∀ (fuel : ℕ) (C : FVector) (E : ℚ) (r : List FTransform),
      (Rounded.LeafThreshold a.MinVoxelSize < E → toFloat E = E) →
      Rounded.ProcessOctant a fuel C E = some r → ∀ t ∈ r, ∃ d : ℕ, d ≤ fuel ∧
        t.Scale3D = FVector.splat (Rounded.LeafScale (E / 2 ^ d)) ∧
        E / 2 ^ d ≤ Rounded.LeafThreshold a.MinVoxelSize ∧
        (∀ j < d, Rounded.LeafThreshold a.MinVoxelSize < E / 2 ^ j) ∧
        Rounded.IsPointInsideShapes a t.Location = true := by
  intro fuel
  induction fuel with
  | zero =>
    intro C E r _ h t ht
    cases hb : Rounded.DoesBoxIntersectShapes a (FBox.ofCorners
      (Rounded.sub C (FVector.splat E)) (Rounded.add C (FVector.splat E)))
    · rw [Rounded_ProcessOctant_cull a 0 C E hb] at h
      simp only [Option.some.injEq] at h
      subst h
      simp at ht
    · by_cases hl : E ≤ Rounded.LeafThreshold a.MinVoxelSize
      · rw [Rounded_ProcessOctant_leaf a 0 C E hb hl] at h
        by_cases hin : Rounded.IsPointInsideShapes a C = true
        · rw [if_pos hin, Option.some.injEq] at h
          subst h
          simp only [List.mem_singleton] at ht
          subst ht
          exact ⟨0, le_refl _, by simp, by simpa using hl, by simp, hin⟩
        · rw [if_neg hin, Option.some.injEq] at h
          subst h
          simp at ht
      · rw [Rounded_ProcessOctant_zero a C E hb hl] at h
        simp at h
  | succ n ih =>
    intro C E r hfl h t ht
    cases hb : Rounded.DoesBoxIntersectShapes a (FBox.ofCorners
      (Rounded.sub C (FVector.splat E)) (Rounded.add C (FVector.splat E)))
    · rw [Rounded_ProcessOctant_cull a (n + 1) C E hb] at h
      simp only [Option.some.injEq] at h
      subst h
      simp at ht
    · by_cases hl : E ≤ Rounded.LeafThreshold a.MinVoxelSize
      · rw [Rounded_ProcessOctant_leaf a (n + 1) C E hb hl] at h
        by_cases hin : Rounded.IsPointInsideShapes a C = true
        · rw [if_pos hin, Option.some.injEq] at h
          subst h
          simp only [List.mem_singleton] at ht
          subst ht
          exact ⟨0, Nat.zero_le _, by simp, by simpa using hl, by simp, hin⟩
        · rw [if_neg hin, Option.some.injEq] at h
          subst h
          simp at ht
      · rw [Rounded_ProcessOctant_succ a n C E hb hl] at h
        have hhalf := toFloat_half E (hfl (lt_of_not_ge hl)) (by linarith [lt_of_not_ge hl])
        rw [hhalf] at h
        obtain ⟨r', hr', htr'⟩ := (collectCalls_mem _ r h t).mp ht
        obtain ⟨s, _, hs⟩ := List.mem_map.mp hr'
        obtain ⟨d, hd, hscale, hleaf, habove, hin⟩ := ih _ _ r' (fun _ => hhalf) hs t htr'
        have hh : ∀ k : ℕ, E * (1 / 2) / 2 ^ k = E / 2 ^ (k + 1) := by
          intro k
          have hk : (2 : ℚ) ^ k ≠ 0 := pow_ne_zero _ two_ne_zero
          rw [pow_succ]
          field_simp
          left
          ring
        refine ⟨d + 1, Nat.succ_le_succ hd, ?_, ?_, ?_, hin⟩
        · rw [hscale, hh]
        · rw [← hh]
          exact hleaf
        · intro j hj
          cases j with
          | zero =>
            simpa using lt_of_not_ge hl
          | succ k =>
            rw [← hh]
            exact habove k (by omega)

/-- With a non-empty shape list and `MinVoxelSize >= 1`, `GenerateOctree` replaces the instance
list by the output of `ProcessOctant` on the root octant. -/
theorem Rounded_GenerateOctree_valid (fuel : ℕ) (a : AVolumetricOctree) (hS : a.Shapes ≠ [])
    (hm : 1 ≤ a.MinVoxelSize) (r : List FTransform)
    (h : Rounded.ProcessOctant ({ a with Instances := [] } : AVolumetricOctree) fuel
      (Rounded.RootCenter a) (Rounded.RootExtent a) = some r) :
    Rounded.GenerateOctree fuel a = some { a with Instances := r } := by
  have h1 : ¬ (a.Shapes.length = 0 ∨ a.MinVoxelSize < 1) := by
    rintro (h1 | h1)
    · exact hS (List.length_eq_zero.mp h1)
    · exact absurd hm (not_le.mpr h1)
  have h2 : Rounded.ProcessOctant ({ a with Instances := [] } : AVolumetricOctree) fuel
      (Rounded.RootCenter ({ a with Instances := [] } : AVolumetricOctree))
      (Rounded.RootExtent ({ a with Instances := [] } : AVolumetricOctree)) = some r := h
  simp only [Rounded.GenerateOctree, h1, if_false, h2, List.nil_append]

/-- The root extent of `GenerateOctree` is a `float` when it is above the leaf threshold. -/
theorem Rounded_RootExtent_isFloat (a : AVolumetricOctree) (T : ℚ) (hT : 0 ≤ T)
    (h : T < Rounded.RootExtent a) : toFloat (Rounded.RootExtent a) = Rounded.RootExtent a := by
  unfold Rounded.RootExtent at h ⊢
  exact toFloat_idem_of_pos _ (by linarith)

/-- `ProcessOctant` returns whenever it is given `Rounded.octreeDepth` levels, for
`MinVoxelSize ≥ 1` and a `float` extent. -/
theorem Rounded_ProcessOctant_isSome (a : AVolumetricOctree) (hm : 1 ≤ a.MinVoxelSize)
    (fuel : ℕ) (C : FVector) (E : ℚ)
    (hE : Rounded.LeafThreshold a.MinVoxelSize < E → toFloat E = E)
    (hf : Rounded.octreeDepth a.MinVoxelSize E ≤ fuel) :
    (Rounded.ProcessOctant a fuel C E).isSome = true := by
  have hT := LeafThreshold_ge_half a.MinVoxelSize hm
  exact Rounded_ProcessOctant_isSome_of_le a hT fuel C E hE
    ((Rounded_octreeDepth_le_iff _ _ (by linarith) fuel).mp hf)

/-- C7 fails as stated: the rebuild of `smallSphere` (voxel size 20) emits one placement of scale
`0.024`, size `2.4`, and the root octant of extent 1000 with voxel size 20 (`offCenterSphere`)
emits a placement of scale `0.15625`, size `15.625`; both sizes are below `MinVoxelSize = 20`. -/
theorem placement_size_below_voxel_size :
    (smallSphere.Shapes ≠ [] ∧ 1 ≤ smallSphere.MinVoxelSize ∧
      (Rounded.GenerateOctree 0 smallSphere).map (fun a => a.Instances)
        = some [⟨⟨0, 0, 0⟩, FVector.splat (6442451 / 268435456)⟩] ∧
      FTransform.size ⟨⟨0, 0, 0⟩, FVector.splat (6442451 / 268435456)⟩
        = 161061275 / 67108864 ∧
      ¬ (smallSphere.MinVoxelSize
        ≤ FTransform.size ⟨⟨0, 0, 0⟩, FVector.splat (6442451 / 268435456)⟩)) ∧
    (Rounded.ProcessOctant offCenterSphere 7 ⟨0, 0, 0⟩ 1000
        = some [⟨⟨125 / 16, 125 / 16, 125 / 16⟩, FVector.splat (5 / 32)⟩] ∧
      FTransform.size ⟨⟨125 / 16, 125 / 16, 125 / 16⟩, FVector.splat (5 / 32)⟩ = 125 / 8 ∧
      ¬ (offCenterSphere.MinVoxelSize
        ≤ FTransform.size ⟨⟨125 / 16, 125 / 16, 125 / 16⟩, FVector.splat (5 / 32)⟩)) := by
  refine ⟨⟨by decide!, by decide!, by decide!, by decide!, by decide!⟩,
    ⟨by decide!, by decide!, by decide!⟩⟩

/-- C7 (as the source computes it): in a rebuild with a non-empty shape list,
`MinVoxelSize ≥ 1` and a finite root extent (`RootExtent * 2.0f` finite too), every placement has
the scale `(e * 2.0f) / 100.0f` of a leaf extent
`e = RootExtent / 2^d` that is at most the leaf threshold `T = MinVoxelSize * 0.51f` (the `float`
product); so the leaf edge `2 * e` is at most `2 * T`, and it is above `T` when the root extent
is above `T`.  For `MinVoxelSize = 20` and root extent 1000 every placement has scale `0.15625`,
which is size `15.625`. -/
theorem placement_scale_bounds :
    (∀ (a : AVolumetricOctree) (fuel : ℕ), a.Shapes ≠ [] → 1 ≤ a.MinVoxelSize →
      2 * Rounded.RootExtent a ≤ FLT_MAX →
      Rounded.octreeDepth a.MinVoxelSize (Rounded.RootExtent a) ≤ fuel →
      ∃ a', Rounded.GenerateOctree fuel a = some a' ∧ ∀ t ∈ a'.Instances, ∃ d : ℕ,
        t.Scale3D = FVector.splat (Rounded.LeafScale (Rounded.RootExtent a / 2 ^ d)) ∧
        Rounded.RootExtent a / 2 ^ d ≤ Rounded.LeafThreshold a.MinVoxelSize ∧
        2 * (Rounded.RootExtent a / 2 ^ d) ≤ 2 * Rounded.LeafThreshold a.MinVoxelSize ∧
        (Rounded.LeafThreshold a.MinVoxelSize < Rounded.RootExtent a →
          Rounded.LeafThreshold a.MinVoxelSize < 2 * (Rounded.RootExtent a / 2 ^ d))) ∧
    (∀ (a : AVolumetricOctree) (C : FVector) (fuel : ℕ), a.MinVoxelSize = 20 → 7 ≤ fuel →
      ∃ r, Rounded.ProcessOctant a fuel C 1000 = some r ∧
        ∀ t ∈ r, t.Scale3D = FVector.splat (5 / 32) ∧ t.size = 125 / 8) := by
  constructor
  · intro a fuel hS hm _ hf
    have hT := LeafThreshold_ge_half a.MinVoxelSize hm
    have hfl : Rounded.LeafThreshold a.MinVoxelSize < Rounded.RootExtent a →
        toFloat (Rounded.RootExtent a) = Rounded.RootExtent a :=
      Rounded_RootExtent_isFloat a _ (by linarith)
    obtain ⟨r, hr⟩ := Option.isSome_iff_exists.mp
      (Rounded_ProcessOctant_isSome ({ a with Instances := [] } : AVolumetricOctree) hm fuel
        (Rounded.RootCenter a) (Rounded.RootExtent a) hfl hf)
    refine ⟨_, Rounded_GenerateOctree_valid fuel a hS hm r hr, ?_⟩
    intro t ht
    obtain ⟨d, -, hscale, hleaf, habove, -⟩ :=
      Rounded_ProcessOctant_mem ({ a with Instances := [] } : AVolumetricOctree) hT fuel _ _ r
        hfl hr t ht
    have hleaf' : Rounded.RootExtent a / 2 ^ d ≤ Rounded.LeafThreshold a.MinVoxelSize := hleaf
    refine ⟨d, hscale, hleaf', by linarith, ?_⟩
    intro hbig
    cases d with
    | zero =>
      simp only [pow_zero, div_one] at hleaf'
      linarith
    | succ k =>
      have hk : Rounded.LeafThreshold a.MinVoxelSize < Rounded.RootExtent a / 2 ^ k :=
        habove k (by omega)
      have h2 : (2 : ℚ) ^ k ≠ 0 := pow_ne_zero _ two_ne_zero
      have e : 2 * (Rounded.RootExtent a / 2 ^ (k + 1)) = Rounded.RootExtent a / 2 ^ k := by
        rw [pow_succ]
        field_simp
        ring
      rw [e]
      exact hk
  · intro a C fuel hm hf
    have hm1 : 1 ≤ a.MinVoxelSize := by rw [hm]; norm_num
    have hT := LeafThreshold_ge_half a.MinVoxelSize hm1
    have hTv : Rounded.LeafThreshold a.MinVoxelSize = 10695475 / 1048576 := by
      rw [hm]
      decide!
    have hE : toFloat 1000 = 1000 := by decide!
    have hd : Rounded.octreeDepth a.MinVoxelSize 1000 ≤ fuel := by
      rw [Rounded_octreeDepth_le_iff _ _ (by linarith), hTv]
      have : (2 : ℚ) ^ 7 ≤ 2 ^ fuel := pow_le_pow_right₀ (by norm_num) hf
      norm_num at this ⊢
      linarith
    obtain ⟨r, hr⟩ := Option.isSome_iff_exists.mp
      (Rounded_ProcessOctant_isSome a hm1 fuel C 1000 (fun _ => hE) hd)
    refine ⟨r, hr, ?_⟩
    intro t ht
    obtain ⟨d, -, hscale, hleaf, habove, -⟩ :=
      Rounded_ProcessOctant_mem a hT fuel C 1000 r (fun _ => hE) hr t ht
    rw [hTv] at hleaf habove
    have hd7 : d = 7 := by
      rcases Nat.lt_trichotomy d 7 with h | h | h
      · exfalso
        have h1 : (2 : ℚ) ^ d ≤ 2 ^ 6 := pow_le_pow_right₀ (by norm_num) (by omega)
        have h2 : (0 : ℚ) < 2 ^ d := by positivity
        rw [div_le_iff₀ h2] at hleaf
        norm_num at h1 hleaf
        linarith
      · exact h
      · exfalso
        have := habove 7 h
        norm_num at this
    subst hd7
    have hs : Rounded.LeafScale (1000 / 2 ^ 7) = 5 / 32 := by decide!
    rw [hs] at hscale
    refine ⟨hscale, ?_⟩
    simp only [FTransform.size, hscale, FVector.splat]
    norm_num

/-- The rebuild of the box of half-extents `3.825` with voxel size 9: the root extent
`4.5900001525878906` equals the leaf threshold, so no level is needed. -/
theorem placement_scale_bounds_witness :
    nineBox.Shapes ≠ [] ∧ 1 ≤ nineBox.MinVoxelSize ∧ 2 * Rounded.RootExtent nineBox ≤ FLT_MAX ∧
    Rounded.octreeDepth nineBox.MinVoxelSize (Rounded.RootExtent nineBox) ≤ 0 ∧
    ∃ a', Rounded.GenerateOctree 0 nineBox = some a' ∧ ∀ t ∈ a'.Instances, ∃ d : ℕ,
      t.Scale3D = FVector.splat (Rounded.LeafScale (Rounded.RootExtent nineBox / 2 ^ d)) ∧
      Rounded.RootExtent nineBox / 2 ^ d ≤ Rounded.LeafThreshold nineBox.MinVoxelSize ∧
      2 * (Rounded.RootExtent nineBox / 2 ^ d)
        ≤ 2 * Rounded.LeafThreshold nineBox.MinVoxelSize ∧
      (Rounded.LeafThreshold nineBox.MinVoxelSize < Rounded.RootExtent nineBox →
        Rounded.LeafThreshold nineBox.MinVoxelSize
          < 2 * (Rounded.RootExtent nineBox / 2 ^ d)) :=
  have hd : Rounded.octreeDepth nineBox.MinVoxelSize (Rounded.RootExtent nineBox) ≤ 0 :=
    (Rounded_octreeDepth_le_iff _ _ (by decide!) 0).mpr (by decide!)
  ⟨by decide!, by decide!, by decide!, hd,
    placement_scale_bounds.1 nineBox 0 (by decide!) (by decide!) (by decide!) hd⟩

/-! ## C8: `GetMaxRadius` as the source returns it -/

/-- A leaf octant of the recursion without the cull test adds its own transform when its center
passes the composite test. -/
theorem Rounded_NoCull_leaf (a : AVolumetricOctree) (fuel : ℕ) (C : FVector) (E : ℚ)
    (hl : E ≤ Rounded.LeafThreshold a.MinVoxelSize) :
    Rounded.ProcessOctantNoCull a fuel C E =
      if Rounded.IsPointInsideShapes a C then
        some [⟨C, FVector.splat (Rounded.LeafScale E)⟩]
      else some [] := by
  cases fuel <;> simp [Rounded.ProcessOctantNoCull, hl]

/-- An octant of the recursion without the cull test that is split sequences the calls on its
eight children. -/
theorem Rounded_NoCull_succ (a : AVolumetricOctree) (n : ℕ) (C : FVector) (E : ℚ)
    (hl : ¬ E ≤ Rounded.LeafThreshold a.MinVoxelSize) :
    Rounded.ProcessOctantNoCull a (n + 1) C E =
      collectCalls (ChildSigns.map (fun s =>
        Rounded.ProcessOctantNoCull a n
          (Rounded.add C (Rounded.ChildOffset (toFloat (E * (1 / 2))) s))
          (toFloat (E * (1 / 2))))) := by
  simp [Rounded.ProcessOctantNoCull, hl]

/-- With enough levels for a `float` extent to be halved down to the leaf threshold, the
recursion without the cull test returns. -/
theorem Rounded_NoCull_isSome_of_le (a : AVolumetricOctree)
    (hT : 1 / 2 ≤ Rounded.LeafThreshold a.MinVoxelSize) :
    ∀ (fuel : ℕ) (C : FVector) (E : ℚ),
      (Rounded.LeafThreshold a.MinVoxelSize < E → toFloat E = E) →
      E ≤ Rounded.LeafThreshold a.MinVoxelSize * 2 ^ fuel →
      (Rounded.ProcessOctantNoCull a fuel C E).isSome = true := by
  intro fuel
  induction fuel with
  | zero =>
    intro C E _ hE
    have hl : E ≤ Rounded.LeafThreshold a.MinVoxelSize := by simpa using hE
    rw [Rounded_NoCull_leaf a 0 C E hl]
    split <;> rfl
  | succ n ih =>
    intro C E hfl hE
    by_cases hl : E ≤ Rounded.LeafThreshold a.MinVoxelSize
    · rw [Rounded_NoCull_leaf a (n + 1) C E hl]
      split <;> rfl
    · rw [Rounded_NoCull_succ a n C E hl]
      have hhalf := toFloat_half E (hfl (lt_of_not_ge hl)) (by linarith [lt_of_not_ge hl])
      apply collectCalls_isSome
      intro o ho
      obtain ⟨s, _, rfl⟩ := List.mem_map.mp ho
      rw [hhalf]
      apply ih
      · exact fun _ => hhalf
      · rw [pow_succ] at hE
        linarith

/-- What a descendant octant adds is added by its ancestor: if every octant on the way down a
list of sign triples is split, each transform of the call on the octant reached is in the result
of the call on the octant the way started from. -/
theorem Rounded_NoCull_mem_of_path (a : AVolumetricOctree) :
    ∀ (path : List (ℚ × ℚ × ℚ)) (C : FVector) (E : ℚ) (fuel : ℕ) (r r' : List FTransform)
      (t : FTransform),
      Rounded.SplitsAlong (Rounded.LeafThreshold a.MinVoxelSize) path E = true →
      Rounded.ProcessOctantNoCull a (fuel + path.length) C E = some r →
      Rounded.ProcessOctantNoCull a fuel (Rounded.Descend path C E).1
        (Rounded.Descend path C E).2 = some r' →
      t ∈ r' → t ∈ r := by
  intro path
  induction path with
  | nil =>
    intro C E fuel r r' t _ hr hr' ht
    simp only [List.length_nil, Nat.add_zero] at hr
    simp only [Rounded.Descend] at hr'
    rw [hr, Option.some.injEq] at hr'
    rw [hr']
    exact ht
  | cons s rest ih =>
    intro C E fuel r r' t hs hr hr' ht
    simp only [Rounded.SplitsAlong, Bool.and_eq_true, decide_eq_true_eq, Bool.not_eq_true',
      decide_eq_false_iff_not] at hs
    obtain ⟨hsin, hl, hrest⟩ := hs
    have hlen : fuel + (s :: rest).length = (fuel + rest.length) + 1 := by
      simp only [List.length_cons]
      omega
    rw [hlen, Rounded_NoCull_succ a _ C E hl] at hr
    have hmem : Rounded.ProcessOctantNoCull a (fuel + rest.length)
        (Rounded.add C (Rounded.ChildOffset (toFloat (E * (1 / 2))) s)) (toFloat (E * (1 / 2)))
        ∈ ChildSigns.map (fun s => Rounded.ProcessOctantNoCull a (fuel + rest.length)
          (Rounded.add C (Rounded.ChildOffset (toFloat (E * (1 / 2))) s))
          (toFloat (E * (1 / 2)))) := List.mem_map.mpr ⟨s, hsin, rfl⟩
    obtain ⟨r'', hr''⟩ := collectCalls_some_of_mem _ r hr _ hmem
    have h1 := ih _ _ fuel r'' r' t hrest hr'' hr' ht
    exact (collectCalls_mem _ r hr t).mpr ⟨r'', by rw [← hr'']; exact hmem, h1⟩

/-- The way `surfacePath` leads from the root octant of `surfaceActor` to the leaf octant
centered at `surfaceLeaf`, of extent `0.3`. -/
theorem surfacePath_descends :
    Rounded.Descend surfacePath (Rounded.RootCenter surfaceActor)
      (Rounded.RootExtent surfaceActor) = (surfaceLeaf, 5033165 / 16777216) := by decide!

/-- Every octant on the way `surfacePath` is split. -/
theorem surfacePath_splits :
    Rounded.SplitsAlong (Rounded.LeafThreshold surfaceActor.MinVoxelSize) surfacePath
      (Rounded.RootExtent surfaceActor) = true := by decide!

/-- The recursion with the cull test adds nothing for `surfaceActor`. -/
theorem surfaceActor_ProcessOctant :
    Rounded.ProcessOctant surfaceActor 25 (Rounded.RootCenter surfaceActor)
      (Rounded.RootExtent surfaceActor) = some [] := by decide!

/-- The rebuild of `surfaceActor` leaves its instance list empty. -/
theorem surfaceActor_GenerateOctree :
    Rounded.GenerateOctree 25 surfaceActor = some surfaceActor :=
  Rounded_GenerateOctree_valid 25 surfaceActor (by decide!) (by decide!) []
    surfaceActor_ProcessOctant

/-- C17: the cull test changes the result.  In `surfaceActor` (the intersection of a sphere of
radius `8388608.46875` with a small sphere around `surfaceLeaf`, voxel size 1, nothing sculpted)
`float Radius = Shape.GetMaxRadius()` is `8388608` for the large sphere.  The leaf octant
centered at `surfaceLeaf`, 25 levels below the root, starts at `x = 8388608.1333`, beyond
`8388608`, so `DoesBoxIntersectShapes` is false for it although its center passes
`IsPointInsideShapes`: the rebuild emits nothing, while the same recursion without the cull test
emits the placement at `surfaceLeaf`. -/
theorem culling_drops_inside_leaf :
    surfaceActor.SculptedModifications = [] ∧
    surfaceActor.Shapes.all (fun s =>
      decide (0 ≤ s.Dimensions.X ∧ 0 ≤ s.Dimensions.Y ∧ 0 ≤ s.Dimensions.Z)) = true ∧
    wideSphere.Dimensions.X = 2 ^ 23 + 15 / 32 ∧ Rounded.GetMaxRadius wideSphere = 2 ^ 23 ∧
    Rounded.Descend surfacePath (Rounded.RootCenter surfaceActor)
      (Rounded.RootExtent surfaceActor) = (surfaceLeaf, 5033165 / 16777216) ∧
    Rounded.IsPointInsideShapes surfaceActor surfaceLeaf = true ∧
    Rounded.DoesBoxIntersectShapes surfaceActor (FBox.ofCorners
      (Rounded.sub surfaceLeaf (FVector.splat (5033165 / 16777216)))
      (Rounded.add surfaceLeaf (FVector.splat (5033165 / 16777216)))) = false ∧
    Rounded.ProcessOctant surfaceActor 25 (Rounded.RootCenter surfaceActor)
      (Rounded.RootExtent surfaceActor) = some [] ∧
    Rounded.GenerateOctree 25 surfaceActor = some surfaceActor ∧
    ∃ r, Rounded.ProcessOctantNoCull surfaceActor 25 (Rounded.RootCenter surfaceActor)
        (Rounded.RootExtent surfaceActor) = some r ∧
      ⟨surfaceLeaf, FVector.splat (Rounded.LeafScale (5033165 / 16777216))⟩ ∈ r := by
  have hdesc := surfacePath_descends
  have hin : Rounded.IsPointInsideShapes surfaceActor surfaceLeaf = true := by decide!
  have hshapes : surfaceActor.Shapes.all (fun s =>
      decide (0 ≤ s.Dimensions.X ∧ 0 ≤ s.Dimensions.Y ∧ 0 ≤ s.Dimensions.Z)) = true := by
    decide!
  have hcull : Rounded.DoesBoxIntersectShapes surfaceActor (FBox.ofCorners
      (Rounded.sub surfaceLeaf (FVector.splat (5033165 / 16777216)))
      (Rounded.add surfaceLeaf (FVector.splat (5033165 / 16777216)))) = false := by decide!
  have hrun := surfaceActor_ProcessOctant
  have hgen := surfaceActor_GenerateOctree
  have hrad : Rounded.GetMaxRadius wideSphere = 2 ^ 23 := by decide!
  have hdim : wideSphere.Dimensions.X = 2 ^ 23 + 15 / 32 := by decide!
  refine ⟨rfl, hshapes, hdim, hrad, hdesc, hin, hcull, hrun, hgen, ?_⟩
  have hT : 1 / 2 ≤ Rounded.LeafThreshold surfaceActor.MinVoxelSize := by decide!
  obtain ⟨r, hr⟩ := Option.isSome_iff_exists.mp
    (Rounded_NoCull_isSome_of_le surfaceActor hT 25 (Rounded.RootCenter surfaceActor)
      (Rounded.RootExtent surfaceActor) (fun _ => by decide!) (by decide!))
  refine ⟨r, hr, ?_⟩
  have hleaf : Rounded.ProcessOctantNoCull surfaceActor 0
      (Rounded.Descend surfacePath (Rounded.RootCenter surfaceActor)
        (Rounded.RootExtent surfaceActor)).1
      (Rounded.Descend surfacePath (Rounded.RootCenter surfaceActor)
        (Rounded.RootExtent surfaceActor)).2
      = some [⟨surfaceLeaf, FVector.splat (Rounded.LeafScale (5033165 / 16777216))⟩] := by
    rw [hdesc]
    rw [Rounded_NoCull_leaf surfaceActor 0 _ _ (by decide!), if_pos hin]
  have hlen : 0 + surfacePath.length = 25 := by decide
  have hr2 : Rounded.ProcessOctantNoCull surfaceActor (0 + surfacePath.length)
      (Rounded.RootCenter surfaceActor) (Rounded.RootExtent surfaceActor) = some r := by
    rw [hlen]
    exact hr
  have hsplit := surfacePath_splits
  exact Rounded_NoCull_mem_of_path surfaceActor surfacePath (Rounded.RootCenter surfaceActor)
    (Rounded.RootExtent surfaceActor) 0 r
    [⟨surfaceLeaf, FVector.splat (Rounded.LeafScale (5033165 / 16777216))⟩]
    ⟨surfaceLeaf, FVector.splat (Rounded.LeafScale (5033165 / 16777216))⟩ hsplit hr2 hleaf
    (List.mem_singleton.mpr rfl)
